import Mathlib

/-!
# pypi-codegen: the CryptoMyAsset contract

A shallow embedding of `crypto-my-asset-contract.go` and of the parts of the Go
standard library (`unicode/utf8`, `encoding/json`, `fmt`) that its five
operations call, followed by theorems about the operations.

* Go `string` and `[]byte` values are lists of bytes; a byte is a natural number
  below 256.  A `[]byte` that may be `nil` is an `Option`.
* A Go `error` is observed through its `Error()` text; a nil error is `none`.
* The world state is reached through a stub with three calls, each of which
  takes the state of the store and returns its answer and the next state.
-/

namespace PypiCodegen

/-- A Go `string`: an arbitrary sequence of bytes (each byte a number below 256). -/
abbrev GoString := List Nat

/-- A non-nil Go `[]byte`. -/
abbrev Bytes := List Nat

/-- The bytes of a string literal of the source (UTF-8, as the Go compiler stores it). -/
def lit (s : String) : GoString := s.toUTF8.data.toList.map UInt8.toNat

/-- A non-nil Go `error`, observed through the text its `Error()` method returns. -/
structure GoError where
  Error : GoString
deriving DecidableEq, Repr

/-! ## unicode/utf8 -/

namespace utf8

/-- The constant `utf8.RuneError`, U+FFFD. -/
def RuneError : Nat := 0xFFFD

/-- The width of the sequence that the lead byte `s0` announces (the low bits of the
table `first`), for a lead byte from 0xC2 to 0xF4. -/
def firstSize (s0 : Nat) : Nat := if s0 < 0xE0 then 2 else if s0 < 0xF0 then 3 else 4

/-- The least second byte accepted after the lead byte `s0` (the table `acceptRanges`). -/
def acceptLo (s0 : Nat) : Nat := if s0 = 0xE0 then 0xA0 else if s0 = 0xF0 then 0x90 else 0x80

/-- The greatest second byte accepted after the lead byte `s0` (the table `acceptRanges`). -/
def acceptHi (s0 : Nat) : Nat := if s0 = 0xED then 0x9F else if s0 = 0xF4 then 0x8F else 0xBF

/-- The function `utf8.DecodeRune` (and `DecodeRuneInString`): the first rune of `s` and
its width in bytes; `(RuneError, 1)` for an ill-formed sequence, `(RuneError, 0)` for
the empty input.  Masks and shifts are written as `%` and `*`. -/
def DecodeRune : List Nat → Nat × Nat
  | [] => (RuneError, 0)
  | s0 :: rest =>
    if s0 < 0x80 then (s0, 1)
    else if s0 < 0xC2 ∨ 0xF5 ≤ s0 then (RuneError, 1)
    else if rest.length + 1 < firstSize s0 then (RuneError, 1)
    else
      match rest with
      | [] => (RuneError, 1)
      | s1 :: rest1 =>
        if s1 < acceptLo s0 ∨ acceptHi s0 < s1 then (RuneError, 1)
        else if firstSize s0 ≤ 2 then (s0 % 32 * 64 + s1 % 64, 2)
        else
          match rest1 with
          | [] => (RuneError, 1)
          | s2 :: rest2 =>
            if s2 < 0x80 ∨ 0xBF < s2 then (RuneError, 1)
            else if firstSize s0 ≤ 3 then (s0 % 16 * 4096 + s1 % 64 * 64 + s2 % 64, 3)
            else
              match rest2 with
              | [] => (RuneError, 1)
              | s3 :: _ =>
                if s3 < 0x80 ∨ 0xBF < s3 then (RuneError, 1)
                else (s0 % 8 * 262144 + s1 % 64 * 4096 + s2 % 64 * 64 + s3 % 64, 4)

/-- The function `utf8.EncodeRune` (and `AppendRune`): the UTF-8 bytes of rune `r`; a
surrogate or a value above U+10FFFF is written as `RuneError`. -/
def EncodeRune (r : Nat) : List Nat :=
  if r ≤ 0x7F then [r]
  else if r ≤ 0x7FF then [0xC0 + r / 64, 0x80 + r % 64]
  else if 0x10FFFF < r ∨ (0xD800 ≤ r ∧ r ≤ 0xDFFF) then [0xEF, 0xBF, 0xBD]
  else if r ≤ 0xFFFF then [0xE0 + r / 4096, 0x80 + r / 64 % 64, 0x80 + r % 64]
  else [0xF0 + r / 262144, 0x80 + r / 4096 % 64, 0x80 + r / 64 % 64, 0x80 + r % 64]

/-- The function `utf8.Valid` (and `ValidString`): `s` is made of well-formed UTF-8
sequences only. -/
def Valid : List Nat → Bool
  | [] => true
  | s0 :: rest =>
    if s0 < 0x80 then Valid rest
    else if s0 < 0xC2 ∨ 0xF5 ≤ s0 then false
    else
      match rest with
      | [] => false
      | s1 :: rest1 =>
        if s1 < acceptLo s0 ∨ acceptHi s0 < s1 then false
        else if firstSize s0 ≤ 2 then Valid rest1
        else
          match rest1 with
          | [] => false
          | s2 :: rest2 =>
            if s2 < 0x80 ∨ 0xBF < s2 then false
            else if firstSize s0 ≤ 3 then Valid rest2
            else
              match rest2 with
              | [] => false
              | s3 :: rest3 =>
                if s3 < 0x80 ∨ 0xBF < s3 then false else Valid rest3

end utf8

/-- Modelled from the spec: the type `CryptoMyAsset`, whose declaration is in a file that
is not among the sources.  The spec's Record: one string attribute, written under the
key `value` (the tests marshal it to `{"value":"some value"}`). -/
structure CryptoMyAsset where
  Value : GoString
deriving DecidableEq, Repr

/-! ## encoding/json: the encoder -/

namespace json

/-- The digits `hex` of `encoding/json`. -/
def hex : List Nat := [0x30, 0x31, 0x32, 0x33, 0x34, 0x35, 0x36, 0x37, 0x38, 0x39,
  0x61, 0x62, 0x63, 0x64, 0x65, 0x66]

/-- The table `htmlSafeSet`: the ASCII bytes written without an escape when HTML escaping
is on, which is every byte from 0x20 to 0x7F but `"`, `\`, `<`, `>` and `&`. -/
def htmlSafeSet (b : Nat) : Bool :=
  decide (0x20 ≤ b ∧ b < 0x80 ∧ b ≠ 0x22 ∧ b ≠ 0x5C ∧ b ≠ 0x3C ∧ b ≠ 0x3E ∧ b ≠ 0x26)

/-- The escape that `appendString` writes for an ASCII byte outside `htmlSafeSet`.  (Older
releases of Go write `\u0008` and `\u000c` where this one writes `\b` and `\f`; both
forms denote the same byte.) -/
def escapeByte (b : Nat) : Bytes :=
  if b = 0x5C ∨ b = 0x22 then [0x5C, b]
  else if b = 0x08 then [0x5C, 0x62]
  else if b = 0x0C then [0x5C, 0x66]
  else if b = 0x0A then [0x5C, 0x6E]
  else if b = 0x0D then [0x5C, 0x72]
  else if b = 0x09 then [0x5C, 0x74]
  else [0x5C, 0x75, 0x30, 0x30, hex.getD (b / 16) 0, hex.getD (b % 16) 0]

/-- The loop of `appendString` with `escapeHTML` set, from index `i` on, where `src` is
what is left of the string at `i`.  Every turn consumes at least one byte, so a fuel of
`src.length` is never used up.  A byte that begins no well-formed UTF-8 sequence is
written as U+FFFD, bytes EF BF BD.  (Releases of Go whose `encoding/json` is not built on
`encoding/json/v2` write the six bytes of the escape `\ufffd` there; both denote U+FFFD.) -/
def appendStringLoop : Nat → GoString → Bytes
  | 0, _ => []
  | fuel + 1, src =>
    match src with
    | [] => []
    | b :: rest =>
      if b < 0x80 then
        if htmlSafeSet b then b :: appendStringLoop fuel rest
        else escapeByte b ++ appendStringLoop fuel rest
      else
        let (c, size) := utf8.DecodeRune (src.take 4)
        if c = utf8.RuneError ∧ size = 1 then
          [0xEF, 0xBF, 0xBD] ++ appendStringLoop fuel rest
        else if c = 0x2028 ∨ c = 0x2029 then
          [0x5C, 0x75, 0x32, 0x30, 0x32, hex.getD (c % 16) 0]
            ++ appendStringLoop fuel (src.drop size)
        else src.take size ++ appendStringLoop fuel (src.drop size)

/-- The function `appendString(dst, src, true)` on an empty `dst`: `src` as a JSON string. -/
def appendString (src : GoString) : Bytes :=
  [0x22] ++ appendStringLoop src.length src ++ [0x22]

/-- The call `json.Marshal(cryptoMyAsset)` of the struct with the one field
`Value string` tagged `json:"value"`: the bytes, which are an opening brace, `"value":`,
the value as a JSON string and a closing brace, and the error (always nil for this type). -/
def Marshal (v : CryptoMyAsset) : Bytes × Option GoError :=
  (lit "\x7b\"value\":" ++ appendString v.Value ++ lit "\x7d", none)

/-! ## encoding/json: the scanner -/

/-- A JSON value as the scanner delimits it.  A string keeps the bytes between its quotes
and a number its text, both as written. -/
inductive Value where
  | null
  | bool (b : Bool)
  | number (text : Bytes)
  | string (body : Bytes)
  | array (elems : List Value)
  | object (members : List (Bytes × Value))

/-- An entry of the scanner's `parseState` stack (`parseObjectKey`, `parseObjectValue`,
`parseArrayValue`), with what the enclosing object or array holds so far. -/
inductive Frame where
  | parseObjectKey (members : List (Bytes × Value))
  | parseObjectValue (members : List (Bytes × Value)) (key : Bytes)
  | parseArrayValue (elems : List Value)

/-- The scanner's step functions (`stateBeginValue`, `stateInString`, ...). -/
inductive Step where
  | beginValueOrEmpty | beginValue | beginStringOrEmpty | beginString | endValue | endTop
  | inString | inStringEsc | inStringEscU | inStringEscU1 | inStringEscU12 | inStringEscU123
  | neg | s1 | s0 | dot | dot0 | e | eSign | e0
  | t | tr | tru | f | fa | fal | fals | n | nu | nul
  | error
deriving DecidableEq, Repr

/-- The constant `maxNestingDepth`. -/
def maxNestingDepth : Nat := 10000

/-- The `scanner` of `encoding/json`: the step function, the stack of open objects and
arrays (innermost first) and whether the top-level value is complete; with it, the text
of the literal being read and the value that was completed last. -/
structure scanner where
  step : Step
  parseState : List Frame
  endTop : Bool
  text : Bytes
  cur : Option Value

/-- The function `isSpace`. -/
def isSpace (c : Nat) : Bool := decide (c = 0x20 ∨ c = 0x09 ∨ c = 0x0D ∨ c = 0x0A)

/-- The digits `0` to `9`. -/
def isDigit (c : Nat) : Bool := decide (0x30 ≤ c ∧ c ≤ 0x39)

/-- The hexadecimal digits accepted after `\u`. -/
def isHex (c : Nat) : Bool :=
  decide ((0x30 ≤ c ∧ c ≤ 0x39) ∨ (0x61 ≤ c ∧ c ≤ 0x66) ∨ (0x41 ≤ c ∧ c ≤ 0x46))

/-- The method `scanner.reset`. -/
def scanner.reset : scanner :=
  { step := .beginValue, parseState := [], endTop := false, text := [], cur := none }

/-- The method `scanner.error`: record a syntax error. -/
def scanner.error (s : scanner) : scanner := { s with step := .error }

/-- The method `pushParseState`: open an object or array, up to `maxNestingDepth`. -/
def pushParseState (s : scanner) (f : Frame) (next : Step) : scanner :=
  if s.parseState.length + 1 ≤ maxNestingDepth then
    { s with parseState := f :: s.parseState, step := next, cur := none }
  else s.error

/-- The method `popParseState`: close the innermost object or array, which is `v`. -/
def popParseState (s : scanner) (v : Value) : scanner :=
  match s.parseState with
  | [] => s.error
  | _ :: rest =>
    if rest.isEmpty then
      { s with parseState := rest, step := .endTop, endTop := true, cur := some v }
    else { s with parseState := rest, step := .endValue, cur := some v }

/-- The step `stateEndTop`: after the top-level value only space may follow. -/
def stateEndTop (s : scanner) (c : Nat) : scanner :=
  if isSpace c then s else s.error

/-- The step `stateEndValue`: after a value, such as after the closing quote of a string. -/
def stateEndValue (s : scanner) (c : Nat) : scanner :=
  match s.parseState with
  | [] => stateEndTop { s with step := .endTop, endTop := true } c
  | fr :: rest =>
    if isSpace c then { s with step := .endValue }
    else
      match fr with
      | .parseObjectKey members =>
        if c = 0x3A then
          match s.cur with
          | some (.string key) =>
            { s with parseState := .parseObjectValue members key :: rest,
                     step := .beginValue, cur := none }
          | _ => s.error
        else s.error
      | .parseObjectValue members key =>
        let members1 := members ++ s.cur.toList.map (fun v => (key, v))
        if c = 0x2C then
          { s with parseState := .parseObjectKey members1 :: rest,
                   step := .beginString, cur := none }
        else if c = 0x7D then popParseState s (.object members1)
        else s.error
      | .parseArrayValue elems =>
        let elems1 := elems ++ s.cur.toList
        if c = 0x2C then
          { s with parseState := .parseArrayValue elems1 :: rest,
                   step := .beginValue, cur := none }
        else if c = 0x5D then popParseState s (.array elems1)
        else s.error

/-- The step `stateBeginValue`: at the beginning of a value. -/
def stateBeginValue (s : scanner) (c : Nat) : scanner :=
  if isSpace c then s
  else if c = 0x7B then pushParseState s (.parseObjectKey []) .beginStringOrEmpty
  else if c = 0x5B then pushParseState s (.parseArrayValue []) .beginValueOrEmpty
  else if c = 0x22 then { s with step := .inString, text := [], cur := none }
  else if c = 0x2D then { s with step := .neg, text := [c], cur := none }
  else if c = 0x30 then { s with step := .s0, text := [c], cur := none }
  else if c = 0x74 then { s with step := .t, cur := none }
  else if c = 0x66 then { s with step := .f, cur := none }
  else if c = 0x6E then { s with step := .n, cur := none }
  else if 0x31 ≤ c ∧ c ≤ 0x39 then { s with step := .s1, text := [c], cur := none }
  else s.error

/-- The step `stateBeginString`: at the beginning of an object key. -/
def stateBeginString (s : scanner) (c : Nat) : scanner :=
  if isSpace c then s
  else if c = 0x22 then { s with step := .inString, text := [], cur := none }
  else s.error

/-- The step `stateE0` and the steps that hand over to `stateEndValue` at the end of a
number. -/
def stateEndNumber (s : scanner) (c : Nat) : scanner :=
  stateEndValue { s with cur := some (.number s.text) } c

/-- The step `state0`: after a leading `0`, or after the digits of the integer part. -/
def state0 (s : scanner) (c : Nat) : scanner :=
  if c = 0x2E then { s with step := .dot, text := s.text ++ [c] }
  else if c = 0x65 ∨ c = 0x45 then { s with step := .e, text := s.text ++ [c] }
  else stateEndNumber s c

/-- The step `stateESign`: after `e+` or `e-`, or after `e` with no sign. -/
def stateESign (s : scanner) (c : Nat) : scanner :=
  if isDigit c then { s with step := .e0, text := s.text ++ [c] } else s.error

/-- One call `s.step(s, c)` of the scanner, on the byte `c`. -/
def scanner.next (s : scanner) (c : Nat) : scanner :=
  match s.step with
  | .beginValueOrEmpty =>
    if isSpace c then s
    else if c = 0x5D then stateEndValue s c
    else stateBeginValue s c
  | .beginValue => stateBeginValue s c
  | .beginStringOrEmpty =>
    if isSpace c then s
    else if c = 0x7D then
      match s.parseState with
      | .parseObjectKey members :: _ => popParseState s (.object members)
      | _ => s.error
    else stateBeginString s c
  | .beginString => stateBeginString s c
  | .endValue => stateEndValue s c
  | .endTop => stateEndTop s c
  | .inString =>
    if c = 0x22 then { s with step := .endValue, cur := some (.string s.text) }
    else if c = 0x5C then { s with step := .inStringEsc, text := s.text ++ [c] }
    else if c < 0x20 then s.error
    else { s with text := s.text ++ [c] }
  | .inStringEsc =>
    if c = 0x62 ∨ c = 0x66 ∨ c = 0x6E ∨ c = 0x72 ∨ c = 0x74 ∨ c = 0x5C ∨ c = 0x2F ∨ c = 0x22 then
      { s with step := .inString, text := s.text ++ [c] }
    else if c = 0x75 then { s with step := .inStringEscU, text := s.text ++ [c] }
    else s.error
  | .inStringEscU =>
    if isHex c then { s with step := .inStringEscU1, text := s.text ++ [c] } else s.error
  | .inStringEscU1 =>
    if isHex c then { s with step := .inStringEscU12, text := s.text ++ [c] } else s.error
  | .inStringEscU12 =>
    if isHex c then { s with step := .inStringEscU123, text := s.text ++ [c] } else s.error
  | .inStringEscU123 =>
    if isHex c then { s with step := .inString, text := s.text ++ [c] } else s.error
  | .neg =>
    if c = 0x30 then { s with step := .s0, text := s.text ++ [c] }
    else if 0x31 ≤ c ∧ c ≤ 0x39 then { s with step := .s1, text := s.text ++ [c] }
    else s.error
  | .s1 => if isDigit c then { s with text := s.text ++ [c] } else state0 s c
  | .s0 => state0 s c
  | .dot => if isDigit c then { s with step := .dot0, text := s.text ++ [c] } else s.error
  | .dot0 =>
    if isDigit c then { s with text := s.text ++ [c] }
    else if c = 0x65 ∨ c = 0x45 then { s with step := .e, text := s.text ++ [c] }
    else stateEndNumber s c
  | .e =>
    if c = 0x2B ∨ c = 0x2D then { s with step := .eSign, text := s.text ++ [c] }
    else stateESign s c
  | .eSign => stateESign s c
  | .e0 => if isDigit c then { s with text := s.text ++ [c] } else stateEndNumber s c
  | .t => if c = 0x72 then { s with step := .tr } else s.error
  | .tr => if c = 0x75 then { s with step := .tru } else s.error
  | .tru =>
    if c = 0x65 then { s with step := .endValue, cur := some (.bool true) } else s.error
  | .f => if c = 0x61 then { s with step := .fa } else s.error
  | .fa => if c = 0x6C then { s with step := .fal } else s.error
  | .fal => if c = 0x73 then { s with step := .fals } else s.error
  | .fals =>
    if c = 0x65 then { s with step := .endValue, cur := some (.bool false) } else s.error
  | .n => if c = 0x75 then { s with step := .nu } else s.error
  | .nu => if c = 0x6C then { s with step := .nul } else s.error
  | .nul => if c = 0x6C then { s with step := .endValue, cur := some .null } else s.error
  | .error => s

/-- The method `scanner.eof`: the completed top-level value, or `none` for the syntax
error `unexpected end of JSON input` and for an error recorded earlier. -/
def scanner.eof (s : scanner) : Option Value :=
  if s.step = .error then none
  else if s.endTop then s.cur
  else
    let s1 := s.next 0x20
    if s1.endTop then s1.cur else none

/-- The function `checkValid`: scan all of `data`; `none` when `data` is not one JSON
value, else the value. -/
def checkValid (data : Bytes) : Option Value :=
  (data.foldl scanner.next scanner.reset).eof

/-! ## encoding/json: the decoder -/

/-- The kinds of error `json.Unmarshal` returns here: a `*json.SyntaxError` from
`checkValid`, or the `*json.UnmarshalTypeError` saved while decoding. -/
inductive UnmarshalError where
  | SyntaxError
  | UnmarshalTypeError
deriving DecidableEq, Repr

/-- The value of one hexadecimal digit, as in `getu4`. -/
def hexValue (c : Nat) : Option Nat :=
  if 0x30 ≤ c ∧ c ≤ 0x39 then some (c - 0x30)
  else if 0x61 ≤ c ∧ c ≤ 0x66 then some (c - 0x61 + 10)
  else if 0x41 ≤ c ∧ c ≤ 0x46 then some (c - 0x41 + 10)
  else none

/-- The function `getu4`: the number written by a leading `\uXXXX`, or `none` (Go: -1). -/
def getu4 : Bytes → Option Nat
  | 0x5C :: 0x75 :: a :: b :: c :: d :: _ =>
    match hexValue a, hexValue b, hexValue c, hexValue d with
    | some x, some y, some z, some w => some (((x * 16 + y) * 16 + z) * 16 + w)
    | _, _, _, _ => none
  | _ => none

/-- The function `utf16.DecodeRune` on the number of a first escape and what `getu4` found
after it: the rune of a valid surrogate pair, or `none` (Go: U+FFFD). -/
def utf16DecodeRune (r1 : Nat) (r2 : Option Nat) : Option Nat :=
  match r2 with
  | some r2 =>
    if 0xD800 ≤ r1 ∧ r1 < 0xDC00 ∧ 0xDC00 ≤ r2 ∧ r2 < 0xE000 then
      some ((r1 - 0xD800) * 1024 + (r2 - 0xDC00) + 0x10000)
    else none
  | none => none

/-- The first loop of `unquoteBytes`: the number of leading bytes of `s` that need no
unquoting (no backslash, quote or control character, and no ill-formed UTF-8). -/
def unquoteSkip : Nat → Bytes → Nat
  | 0, _ => 0
  | fuel + 1, s =>
    match s with
    | [] => 0
    | c :: rest =>
      if c = 0x5C ∨ c = 0x22 ∨ c < 0x20 then 0
      else if c < 0x80 then 1 + unquoteSkip fuel rest
      else
        let (rr, size) := utf8.DecodeRune s
        if rr = utf8.RuneError ∧ size = 1 then 0
        else size + unquoteSkip fuel (s.drop size)

/-- The second loop of `unquoteBytes`, from index `r` on, where `s` is what is left of the
string body at `r`: escapes are replaced and ill-formed UTF-8 is coerced to U+FFFD.
`none` is the result `ok = false`.  Every turn consumes at least one byte. -/
def unquoteLoop : Nat → Bytes → Option Bytes
  | 0, _ => some []
  | fuel + 1, s =>
    match s with
    | [] => some []
    | c :: rest =>
      if c = 0x5C then
        match rest with
        | [] => none
        | e :: rest1 =>
          if e = 0x22 ∨ e = 0x5C ∨ e = 0x2F ∨ e = 0x27 then (unquoteLoop fuel rest1).map (e :: ·)
          else if e = 0x62 then (unquoteLoop fuel rest1).map (0x08 :: ·)
          else if e = 0x66 then (unquoteLoop fuel rest1).map (0x0C :: ·)
          else if e = 0x6E then (unquoteLoop fuel rest1).map (0x0A :: ·)
          else if e = 0x72 then (unquoteLoop fuel rest1).map (0x0D :: ·)
          else if e = 0x74 then (unquoteLoop fuel rest1).map (0x09 :: ·)
          else if e = 0x75 then
            match getu4 s with
            | none => none
            | some rr =>
              if 0xD800 ≤ rr ∧ rr < 0xE000 then
                match utf16DecodeRune rr (getu4 (s.drop 6)) with
                | some dec =>
                  (unquoteLoop fuel (s.drop 12)).map (utf8.EncodeRune dec ++ ·)
                | none =>
                  (unquoteLoop fuel (s.drop 6)).map (utf8.EncodeRune utf8.RuneError ++ ·)
              else (unquoteLoop fuel (s.drop 6)).map (utf8.EncodeRune rr ++ ·)
          else none
      else if c = 0x22 ∨ c < 0x20 then none
      else if c < 0x80 then (unquoteLoop fuel rest).map (c :: ·)
      else
        let (rr, size) := utf8.DecodeRune s
        (unquoteLoop fuel (s.drop size)).map (utf8.EncodeRune rr ++ ·)

/-- The function `unquoteBytes` on the bytes between the quotes of a string literal: the
string it denotes, or `none` (`ok = false`, which does not occur after `checkValid`). -/
def unquoteBytes (body : Bytes) : Option Bytes :=
  let r := unquoteSkip body.length body
  if r = body.length then some body
  else (unquoteLoop body.length (body.drop r)).map (body.take r ++ ·)

/-- The function `foldName` on ASCII: lower-case letters become upper-case.  (Runes
outside ASCII fold to runes outside ASCII, but for the Kelvin sign and the long s, which
fold to `K` and `S`; neither letter is in `VALUE`.) -/
def foldName (key : GoString) : GoString :=
  key.map (fun c => if 0x61 ≤ c ∧ c ≤ 0x7A then c - 0x20 else c)

/-- The field lookup of `decodeState.object` for `CryptoMyAsset`: the key names the field
`Value` when it is `value` exactly, or equals it under `foldName`. -/
def isFieldValue (key : GoString) : Bool :=
  key = lit "value" || foldName key = foldName (lit "value")

/-- The method `decodeState.saveError`: keep the first error. -/
def saveError (saved : Option UnmarshalError) (err : UnmarshalError) : Option UnmarshalError :=
  match saved with
  | some e => some e
  | none => some err

/-- One turn of the loop of `decodeState.object` into a `CryptoMyAsset`: a member whose
key names the field `Value` stores a string (`literalStore`), has no effect when it is
`null`, and saves an `UnmarshalTypeError` for any other value; other members are skipped. -/
def objectMember (d : CryptoMyAsset × Option UnmarshalError) (m : Bytes × Value) :
    CryptoMyAsset × Option UnmarshalError :=
  match unquoteBytes m.1 with
  | none => (d.1, saveError d.2 .SyntaxError)
  | some key =>
    if isFieldValue key then
      match m.2 with
      | .string body =>
        match unquoteBytes body with
        | some str => ({ Value := str }, d.2)
        | none => (d.1, saveError d.2 .SyntaxError)
      | .null => d
      | _ => (d.1, saveError d.2 .UnmarshalTypeError)
    else d

/-- The method `decodeState.value` on a pointer to a `CryptoMyAsset`: an object is decoded
member by member, `null` has no effect, any other value is an `UnmarshalTypeError`. -/
def decodeValue (j : Value) (v : CryptoMyAsset) : CryptoMyAsset × Option UnmarshalError :=
  match j with
  | .null => (v, none)
  | .object members => members.foldl objectMember (v, none)
  | _ => (v, some .UnmarshalTypeError)

/-- The call `json.Unmarshal(data, v)` with `v` a pointer to a `CryptoMyAsset`: the struct
afterwards and the error returned.  A nil `data` is read as the empty input. -/
def Unmarshal (data : Option Bytes) (v : CryptoMyAsset) :
    CryptoMyAsset × Option UnmarshalError :=
  match checkValid (data.getD []) with
  | none => (v, some .SyntaxError)
  | some j => decodeValue j v

end json

/-! ## fmt -/

namespace fmt

/-- The function `fmt.Sprintf` for formats whose only verbs are `%s`, with string
operands (an `error` operand is passed as its `Error()` text, which is what `%s` prints). -/
def Sprintf : GoString → List GoString → GoString
  | [], _ => []
  | [c], _ => [c]
  | c :: d :: rest, args =>
    match args with
    | a :: args1 =>
      if c = 0x25 ∧ d = 0x73 then a ++ Sprintf rest args1 else c :: Sprintf (d :: rest) args
    | [] => c :: Sprintf (d :: rest) []

/-- The function `fmt.Errorf`: an error whose text is the formatted string. -/
def Errorf (format : String) (args : List GoString) : GoError :=
  { Error := Sprintf (lit format) args }

end fmt

/-! ## The world state -/

/-- The three calls of `shim.ChaincodeStubInterface` that the contract makes, over a store
whose state has type `σ`.  `GetState` returns the pair `([]byte, error)` as Go does: the
bytes are `none` for nil, the error `none` for nil. -/
structure Stub (σ : Type) where
  GetState : GoString → σ → (Option Bytes × Option GoError) × σ
  PutState : GoString → Bytes → σ → Option GoError × σ
  DelState : GoString → σ → Option GoError × σ

/-! ## crypto-my-asset-contract.go -/

variable {σ : Type}

/-- `CryptoMyAssetExists` returns true when asset with given ID exists in world state. -/
def CryptoMyAssetExists (stub : Stub σ) (cryptoMyAssetID : GoString) (s : σ) :
    (Bool × Option GoError) × σ :=
  match stub.GetState cryptoMyAssetID s with
  | ((_, some err), s1) => ((false, some err), s1)
  | ((data, none), s1) => ((data.isSome, none), s1)

/-- `CreateCryptoMyAsset` creates a new instance of CryptoMyAsset. -/
def CreateCryptoMyAsset (stub : Stub σ) (cryptoMyAssetID : GoString) (value : GoString)
    (s : σ) : Option GoError × σ :=
  match CryptoMyAssetExists stub cryptoMyAssetID s with
  | ((_, some err), s1) =>
    (some (fmt.Errorf "Could not read from world state. %s" [err.Error]), s1)
  | ((true, none), s1) =>
    (some (fmt.Errorf "The asset %s already exists" [cryptoMyAssetID]), s1)
  | ((false, none), s1) =>
    let cryptoMyAsset : CryptoMyAsset := { Value := value }
    let bytes := (json.Marshal cryptoMyAsset).1
    stub.PutState cryptoMyAssetID bytes s1

/-- `ReadCryptoMyAsset` retrieves an instance of CryptoMyAsset from the world state. -/
def ReadCryptoMyAsset (stub : Stub σ) (cryptoMyAssetID : GoString) (s : σ) :
    (Option CryptoMyAsset × Option GoError) × σ :=
  match CryptoMyAssetExists stub cryptoMyAssetID s with
  | ((_, some err), s1) =>
    ((none, some (fmt.Errorf "Could not read from world state. %s" [err.Error])), s1)
  | ((false, none), s1) =>
    ((none, some (fmt.Errorf "The asset %s does not exist" [cryptoMyAssetID])), s1)
  | ((true, none), s1) =>
    match stub.GetState cryptoMyAssetID s1 with
    | ((bytes, _), s2) =>
      match json.Unmarshal bytes { Value := [] } with
      | (_, some _) =>
        ((none, some (fmt.Errorf "Could not unmarshal world state data to type CryptoMyAsset" [])),
          s2)
      | (cryptoMyAsset, none) => ((some cryptoMyAsset, none), s2)

/-- `UpdateCryptoMyAsset` retrieves an instance of CryptoMyAsset from the world state and
updates its value. -/
def UpdateCryptoMyAsset (stub : Stub σ) (cryptoMyAssetID : GoString) (newValue : GoString)
    (s : σ) : Option GoError × σ :=
  match CryptoMyAssetExists stub cryptoMyAssetID s with
  | ((_, some err), s1) =>
    (some (fmt.Errorf "Could not read from world state. %s" [err.Error]), s1)
  | ((false, none), s1) =>
    (some (fmt.Errorf "The asset %s does not exist" [cryptoMyAssetID]), s1)
  | ((true, none), s1) =>
    let cryptoMyAsset : CryptoMyAsset := { Value := newValue }
    let bytes := (json.Marshal cryptoMyAsset).1
    stub.PutState cryptoMyAssetID bytes s1

/-- `DeleteCryptoMyAsset` deletes an instance of CryptoMyAsset from the world state. -/
def DeleteCryptoMyAsset (stub : Stub σ) (cryptoMyAssetID : GoString) (s : σ) :
    Option GoError × σ :=
  match CryptoMyAssetExists stub cryptoMyAssetID s with
  | ((_, some err), s1) =>
    (some (fmt.Errorf "Could not read from world state. %s" [err.Error]), s1)
  | ((false, none), s1) =>
    (some (fmt.Errorf "The asset %s does not exist" [cryptoMyAssetID]), s1)
  | ((true, none), s1) => stub.DelState cryptoMyAssetID s1

/-! ## Observing the calls, and stores that keep what is put -/

/-- A call made on the stub, with its arguments. -/
inductive Call where
  | GetState (key : GoString)
  | PutState (key : GoString) (value : Bytes)
  | DelState (key : GoString)
deriving DecidableEq, Repr

/-- The stub `stub` with a record of the calls made on it, oldest first (what the mock of
the tests keeps for `AssertCalled`).  The answers are those of `stub`. -/
def recording (stub : Stub σ) : Stub (σ × List Call) where
  GetState key s :=
    ((stub.GetState key s.1).1, ((stub.GetState key s.1).2, s.2 ++ [Call.GetState key]))
  PutState key value s :=
    ((stub.PutState key value s.1).1,
      ((stub.PutState key value s.1).2, s.2 ++ [Call.PutState key value]))
  DelState key s :=
    ((stub.DelState key s.1).1, ((stub.DelState key s.1).2, s.2 ++ [Call.DelState key]))

/-- A world state without faults: the value under each key, `none` when there is none. -/
abbrev World := GoString → Option Bytes

/-- The stub over a `World`: `GetState` returns what is stored, `PutState` stores,
`DelState` removes, and none of them fails. -/
def World.stub : Stub World where
  GetState key w := ((w key, none), w)
  PutState key value w := (none, fun k => if k = key then some value else w k)
  DelState key w := (none, fun k => if k = key then none else w k)

/-- The empty world state. -/
def World.empty : World := fun _ => none

/-- The world state that holds `bytes` under `key` and nothing else. -/
def World.holding (key : GoString) (bytes : Bytes) : World :=
  fun k => if k = key then some bytes else none

/-- The stub that `configureStub` of the tests sets up: `GetState` fails on `statebad`,
finds nothing under `missingkey`, finds the bytes `some value` under `existingkey` and a
marshalled asset under `cryptoMyAssetkey`; `PutState` and `DelState` return nil.  (A key
the mock is not set up for is answered here as a missing key.) -/
def configureStub : Stub Unit where
  GetState key s :=
    if key = lit "statebad" then ((none, some { Error := lit "world state get error" }), s)
    else if key = lit "missingkey" then ((none, none), s)
    else if key = lit "existingkey" then ((some (lit "some value"), none), s)
    else if key = lit "cryptoMyAssetkey" then
      ((some (json.Marshal { Value := lit "set value" }).1, none), s)
    else ((none, none), s)
  PutState _ _ s := (none, s)
  DelState _ s := (none, s)

/-! ## Notions used to state the theorems -/

/-- The bytes `l` are read by the scanner as part of a string body: from `stateInString`
they lead back to `stateInString`, and are added to the text of the string. -/
def json.StringBody (l : Bytes) : Prop :=
  ∀ ps et text cur,
    l.foldl json.scanner.next ⟨.inString, ps, et, text, cur⟩
      = ⟨.inString, ps, et, text ++ l, cur⟩

/-- The string `src` with every byte that begins no well-formed UTF-8 sequence replaced
by U+FFFD (bytes EF BF BD), by the loop of `appendString`: what is left of `src` at
index `i`, with fuel as in `appendStringLoop`. -/
def json.coerceLoop : Nat → GoString → GoString
  | 0, _ => []
  | fuel + 1, src =>
    match src with
    | [] => []
    | b :: rest =>
      if b < 0x80 then b :: coerceLoop fuel rest
      else
        let (c, size) := utf8.DecodeRune src
        if c = utf8.RuneError ∧ size = 1 then [0xEF, 0xBF, 0xBD] ++ coerceLoop fuel rest
        else src.take size ++ coerceLoop fuel (src.drop size)

/-- The string `src` coerced to well-formed UTF-8, one U+FFFD for each ill-formed byte. -/
def json.toValidUTF8 (src : GoString) : GoString := json.coerceLoop src.length src

/-- A store whose `GetState` returns what was last put: after a `PutState` that succeeded,
`GetState` of the key returns the bytes put, and a `GetState` does not change what the
next `GetState` of the key returns. -/
structure Stub.KeepsPuts (stub : Stub σ) : Prop where
  get_put : ∀ key value s s1, stub.PutState key value s = (none, s1) →
    (stub.GetState key s1).1 = (some value, none)
  get_get : ∀ key s, (stub.GetState key (stub.GetState key s).2).1 = (stub.GetState key s).1

/-- A store whose `DelState` removes the key: after a `DelState` that succeeded,
`GetState` of the key succeeds and returns no value. -/
structure Stub.DeleteRemoves (stub : Stub σ) : Prop where
  get_del : ∀ key s s1, stub.DelState key s = (none, s1) →
    (stub.GetState key s1).1 = (none, none)

/-- The member `m` of an object makes `objectMember` save an error: its key names the
field `Value` and its value is neither a string nor `null`.  (A key or string that
`unquoteBytes` refuses counts too; `checkValid` lets none through.) -/
def json.badMember (m : Bytes × json.Value) : Bool :=
  match json.unquoteBytes m.1 with
  | none => true
  | some key =>
    json.isFieldValue key &&
      match m.2 with
      | .string body => (json.unquoteBytes body).isNone
      | .null => false
      | _ => true

/-- The bytes are rejected by the decoder of `CryptoMyAsset`: they are not one JSON value,
or the value is an array, a string, a number or a boolean, or it is an object with a
member named `value` (in any letter case) that is neither a string nor `null`. -/
def json.Undecodable (bytes : Bytes) : Bool :=
  match json.checkValid bytes with
  | none => true
  | some .null => false
  | some (.object members) => members.any json.badMember
  | some _ => true

/-- The string is made only of characters that the encoder writes as they are: it is
well-formed UTF-8, its ASCII bytes are in `htmlSafeSet` (no control character, quote,
backslash, `<`, `>` or `&`), and it holds neither U+2028 nor U+2029. -/
def json.Unescaped (v : GoString) : Prop :=
  utf8.Valid v = true ∧ (∀ b ∈ v, b < 0x80 → json.htmlSafeSet b = true)
    ∧ ¬ [0xE2, 0x80, 0xA8] <:+: v ∧ ¬ [0xE2, 0x80, 0xA9] <:+: v

/-- A world state together with the faults to come: each call on the stub takes the next
entry of the list and fails with the error there, if there is one; when the list is used
up no call fails. -/
abbrev Faulty := World × List (Option GoError)

/-- The stub over a `Faulty` store: a call that is due to fail returns its error (and nil
bytes) and leaves the world state as it is; any other call acts as on a `World`. -/
def Faulty.stub : Stub Faulty where
  GetState key s :=
    match s.2 with
    | some e :: rest => ((none, some e), (s.1, rest))
    | none :: rest => ((s.1 key, none), (s.1, rest))
    | [] => ((s.1 key, none), s)
  PutState key value s :=
    match s.2 with
    | some e :: rest => (some e, (s.1, rest))
    | none :: rest => (none, (fun k => if k = key then some value else s.1 k, rest))
    | [] => (none, (fun k => if k = key then some value else s.1 k, []))
  DelState key s :=
    match s.2 with
    | some e :: rest => (some e, (s.1, rest))
    | none :: rest => (none, (fun k => if k = key then none else s.1 k, rest))
    | [] => (none, (fun k => if k = key then none else s.1 k, []))

/-- The stub is a store whose contents, in state `s`, are `view s`: `GetState` does not
change the contents and, when it succeeds, returns what is stored under the key; a
`PutState` or `DelState` that succeeds writes or removes its key and nothing else; one
that fails leaves the contents unchanged. -/
structure Stub.Stores (stub : Stub σ) (view : σ → World) : Prop where
  get_view : ∀ key s, view (stub.GetState key s).2 = view s
  get_ok : ∀ key s, (stub.GetState key s).1.2 = none → (stub.GetState key s).1.1 = view s key
  put_ok : ∀ key value s, (stub.PutState key value s).1 = none →
    view (stub.PutState key value s).2 = fun k => if k = key then some value else view s k
  put_fail : ∀ key value s, (stub.PutState key value s).1 ≠ none →
    view (stub.PutState key value s).2 = view s
  del_ok : ∀ key s, (stub.DelState key s).1 = none →
    view (stub.DelState key s).2 = fun k => if k = key then none else view s k
  del_fail : ∀ key s, (stub.DelState key s).1 ≠ none → view (stub.DelState key s).2 = view s

/-- The bytes are the serialization of a Record: what `json.Marshal` writes for some
`CryptoMyAsset`. -/
def IsRecord (bytes : Bytes) : Prop := ∃ r : CryptoMyAsset, bytes = (json.Marshal r).1

/-- Every value held in the world state is the serialization of a Record. -/
def World.Canonical (w : World) : Prop := ∀ key bytes, w key = some bytes → IsRecord bytes

/-- The single-fetch reader that the spec allows in place of `ReadCryptoMyAsset`: one
`GetState`, then the wrapped store fault if it failed, the does-not-exist error if no
value is there, the could-not-unmarshal error if the bytes do not decode, and otherwise
the decoded record. -/
def ReadSingleFetch (stub : Stub σ) (cryptoMyAssetID : GoString) (s : σ) :
    (Option CryptoMyAsset × Option GoError) × σ :=
  match stub.GetState cryptoMyAssetID s with
  | ((_, some err), s1) =>
    ((none, some (fmt.Errorf "Could not read from world state. %s" [err.Error])), s1)
  | ((none, none), s1) =>
    ((none, some (fmt.Errorf "The asset %s does not exist" [cryptoMyAssetID])), s1)
  | ((some bytes, none), s1) =>
    match json.Unmarshal (some bytes) { Value := [] } with
    | (_, some _) =>
      ((none, some (fmt.Errorf "Could not unmarshal world state data to type CryptoMyAsset" [])),
        s1)
    | (cryptoMyAsset, none) => ((some cryptoMyAsset, none), s1)

/-- The string is made only of characters that JSON does not require to be escaped (RFC
8259, section 7): it is well-formed UTF-8 and holds no control character, no quotation
mark and no backslash. -/
def json.NeedsNoEscape (v : GoString) : Prop :=
  utf8.Valid v = true ∧ ∀ b ∈ v, 0x20 ≤ b ∧ b ≠ 0x22 ∧ b ≠ 0x5C

/-! ## JSON texts as RFC 8259 defines them

The grammar of RFC 8259, written down from the RFC and not from `encoding/json`: a value
as it is written (`Doc`), the bytes it is written as (`render`) and the string that the
elements of a JSON string denote (`denote`).  It says what a valid JSON object with a
string member is, for the theorems about stored bytes of that shape. -/

namespace rfc8259

/-- The whitespace of RFC 8259 section 2: space, horizontal tab, line feed, carriage
return. -/
def isWs (c : Nat) : Bool := c = 0x20 || c = 0x09 || c = 0x0A || c = 0x0D

/-- A digit `0` to `9`. -/
def isDecDigit (c : Nat) : Bool := decide (0x30 ≤ c ∧ c ≤ 0x39)

/-- A hexadecimal digit, in either letter case. -/
def isHexDigit (c : Nat) : Bool :=
  decide ((0x30 ≤ c ∧ c ≤ 0x39) ∨ (0x41 ≤ c ∧ c ≤ 0x46) ∨ (0x61 ≤ c ∧ c ≤ 0x66))

/-- The value of a hexadecimal digit. -/
def hexDigitValue (c : Nat) : Nat :=
  if c ≤ 0x39 then c - 0x30 else if c ≤ 0x46 then c - 0x41 + 10 else c - 0x61 + 10

/-- The number that the four hexadecimal digits of a `\u` escape write. -/
def codeUnit (a b c d : Nat) : Nat :=
  ((hexDigitValue a * 16 + hexDigitValue b) * 16 + hexDigitValue c) * 16 + hexDigitValue d

/-- The UTF-8 encoding of the Unicode scalar value `r` (RFC 3629). -/
def utf8Bytes (r : Nat) : Bytes :=
  if r < 0x80 then [r]
  else if r < 0x800 then [0xC0 + r / 64, 0x80 + r % 64]
  else if r < 0x10000 then [0xE0 + r / 4096, 0x80 + r / 64 % 64, 0x80 + r % 64]
  else [0xF0 + r / 262144, 0x80 + r / 4096 % 64, 0x80 + r / 64 % 64, 0x80 + r % 64]

/-- A Unicode scalar value: a code point up to U+10FFFF that is not a surrogate. -/
def isScalar (r : Nat) : Bool := decide (r ≤ 0x10FFFF ∧ ¬ (0xD800 ≤ r ∧ r ≤ 0xDFFF))

/-- One element of a JSON string (RFC 8259 section 7): an unescaped character, a
two-character escape (backslash and the character `c`), or the escape `\u` with four
hexadecimal digits. -/
inductive StrItem where
  | char (r : Nat)
  | esc (c : Nat)
  | u (a b c d : Nat)
deriving DecidableEq, Repr

/-- The element is one the grammar allows: an unescaped character is a scalar value from
U+0020 on other than the quotation mark and the backslash; a two-character escape is one
of `\"`, `\\`, `\/`, `\b`, `\f`, `\n`, `\r`, `\t`. -/
def StrItem.WF : StrItem → Bool
  | .char r => decide (0x20 ≤ r ∧ r ≠ 0x22 ∧ r ≠ 0x5C) && isScalar r
  | .esc c =>
    c = 0x22 || c = 0x5C || c = 0x2F || c = 0x62 || c = 0x66 || c = 0x6E || c = 0x72
      || c = 0x74
  | .u a b c d => isHexDigit a && isHexDigit b && isHexDigit c && isHexDigit d

/-- The bytes of the element in the JSON text. -/
def StrItem.render : StrItem → Bytes
  | .char r => utf8Bytes r
  | .esc c => [0x5C, c]
  | .u a b c d => [0x5C, 0x75, a, b, c, d]

/-- The bytes between the quotation marks of the string made of `items`. -/
def renderItems : List StrItem → Bytes
  | [] => []
  | item :: rest => item.render ++ renderItems rest

/-- The character that the two-character escape with `c` stands for. -/
def unescape (c : Nat) : Nat :=
  if c = 0x62 then 0x08 else if c = 0x66 then 0x0C else if c = 0x6E then 0x0A
  else if c = 0x72 then 0x0D else if c = 0x74 then 0x09 else c

/-- The string that `items` denote, in UTF-8: an unescaped character stands for itself;
`\u` escapes are UTF-16 code units, so that a high surrogate followed by a low surrogate
stands for one character above U+FFFF.  A surrogate that is not part of such a pair stands
for no character; it is read as U+FFFD. -/
def denote : List StrItem → GoString
  | [] => []
  | .char r :: rest => utf8Bytes r ++ denote rest
  | .esc c :: rest => unescape c :: denote rest
  | [.u a b c d] =>
    if 0xD800 ≤ codeUnit a b c d ∧ codeUnit a b c d < 0xE000 then [0xEF, 0xBF, 0xBD]
    else utf8Bytes (codeUnit a b c d)
  | .u a b c d :: next :: rest =>
    if 0xD800 ≤ codeUnit a b c d ∧ codeUnit a b c d < 0xDC00 then
      match next with
      | .u a2 b2 c2 d2 =>
        if 0xDC00 ≤ codeUnit a2 b2 c2 d2 ∧ codeUnit a2 b2 c2 d2 < 0xE000 then
          utf8Bytes ((codeUnit a b c d - 0xD800) * 1024 + (codeUnit a2 b2 c2 d2 - 0xDC00)
            + 0x10000) ++ denote rest
        else [0xEF, 0xBF, 0xBD] ++ denote (next :: rest)
      | _ => [0xEF, 0xBF, 0xBD] ++ denote (next :: rest)
    else if 0xDC00 ≤ codeUnit a b c d ∧ codeUnit a b c d < 0xE000 then
      [0xEF, 0xBF, 0xBD] ++ denote (next :: rest)
    else utf8Bytes (codeUnit a b c d) ++ denote (next :: rest)

/-- The ASCII letters of `name` in lower case. -/
def lower (name : GoString) : GoString :=
  name.map (fun c => if 0x41 ≤ c ∧ c ≤ 0x5A then c + 0x20 else c)

/-- A JSON number (RFC 8259 section 6): an optional minus sign, the digits of the integer
part, an optional fraction (the digits after the point) and an optional exponent (the
letter `e` or `E`, the sign if any, the digits). -/
structure Number where
  minus : Bool
  int : Bytes
  frac : Option Bytes
  exp : Option (Nat × Bytes × Bytes)

/-- The number is one the grammar allows: the integer part is `0` or begins with a digit
from `1` to `9`; a fraction and an exponent have at least one digit. -/
def Number.WF (n : Number) : Bool :=
  (match n.int with
    | [] => false
    | d :: ds =>
      if d = 0x30 then ds.isEmpty else decide (0x31 ≤ d ∧ d ≤ 0x39) && ds.all isDecDigit)
  && (match n.frac with
    | none => true
    | some ds => !ds.isEmpty && ds.all isDecDigit)
  && (match n.exp with
    | none => true
    | some (e, sg, ds) =>
      (e = 0x65 || e = 0x45) && (sg = [] || sg = [0x2B] || sg = [0x2D])
        && !ds.isEmpty && ds.all isDecDigit)

/-- The bytes of the number in the JSON text. -/
def Number.render (n : Number) : Bytes :=
  (if n.minus then [0x2D] else []) ++ n.int
    ++ (match n.frac with
      | none => []
      | some ds => 0x2E :: ds)
    ++ (match n.exp with
      | none => []
      | some (e, sg, ds) => e :: (sg ++ ds))

mutual
/-- A JSON value (RFC 8259 section 3) as it is written, with the whitespace around its
structural characters. -/
inductive Doc where
  | null
  | bool (b : Bool)
  | number (n : Number)
  | string (items : List StrItem)
  | emptyArray (ws : Bytes)
  | array (elems : Elems)
  | emptyObject (ws : Bytes)
  | object (membs : Membs)
/-- The elements of an array, one or more, each with the whitespace before and after. -/
inductive Elems where
  | one (w1 : Bytes) (d : Doc) (w2 : Bytes)
  | cons (w1 : Bytes) (d : Doc) (w2 : Bytes) (rest : Elems)
/-- The members of an object, one or more: whitespace, the name, whitespace, a colon,
whitespace, the value, whitespace. -/
inductive Membs where
  | one (w1 : Bytes) (name : List StrItem) (w2 w3 : Bytes) (d : Doc) (w4 : Bytes)
  | cons (w1 : Bytes) (name : List StrItem) (w2 w3 : Bytes) (d : Doc) (w4 : Bytes)
      (rest : Membs)
end

mutual
/-- The bytes of the value in the JSON text. -/
def Doc.render : Doc → Bytes
  | .null => [0x6E, 0x75, 0x6C, 0x6C]
  | .bool true => [0x74, 0x72, 0x75, 0x65]
  | .bool false => [0x66, 0x61, 0x6C, 0x73, 0x65]
  | .number n => n.render
  | .string items => 0x22 :: (renderItems items ++ [0x22])
  | .emptyArray ws => 0x5B :: (ws ++ [0x5D])
  | .array es => 0x5B :: (es.render ++ [0x5D])
  | .emptyObject ws => 0x7B :: (ws ++ [0x7D])
  | .object ms => 0x7B :: (ms.render ++ [0x7D])
/-- The bytes of the elements, with a comma between two of them. -/
def Elems.render : Elems → Bytes
  | .one w1 d w2 => w1 ++ (d.render ++ w2)
  | .cons w1 d w2 rest => w1 ++ (d.render ++ (w2 ++ 0x2C :: rest.render))
/-- The bytes of the members, with a comma between two of them. -/
def Membs.render : Membs → Bytes
  | .one w1 name w2 w3 d w4 =>
    w1 ++ (0x22 :: (renderItems name ++ 0x22 :: (w2 ++ 0x3A :: (w3 ++ (d.render ++ w4)))))
  | .cons w1 name w2 w3 d w4 rest =>
    w1 ++ (0x22 :: (renderItems name ++ 0x22 :: (w2 ++ 0x3A :: (w3 ++ (d.render
      ++ (w4 ++ 0x2C :: rest.render))))))
end

mutual
/-- The value is one the grammar allows: the whitespace is whitespace, and the numbers
and the elements of the strings are well formed. -/
def Doc.WF : Doc → Bool
  | .null => true
  | .bool _ => true
  | .number n => n.WF
  | .string items => items.all StrItem.WF
  | .emptyArray ws => ws.all isWs
  | .array es => es.WF
  | .emptyObject ws => ws.all isWs
  | .object ms => ms.WF
/-- The elements are ones the grammar allows. -/
def Elems.WF : Elems → Bool
  | .one w1 d w2 => w1.all isWs && d.WF && w2.all isWs
  | .cons w1 d w2 rest => w1.all isWs && d.WF && w2.all isWs && rest.WF
/-- The members are ones the grammar allows. -/
def Membs.WF : Membs → Bool
  | .one w1 name w2 w3 d w4 =>
    w1.all isWs && name.all StrItem.WF && w2.all isWs && w3.all isWs && d.WF && w4.all isWs
  | .cons w1 name w2 w3 d w4 rest =>
    w1.all isWs && name.all StrItem.WF && w2.all isWs && w3.all isWs && d.WF && w4.all isWs
      && rest.WF
end

mutual
/-- The depth of nesting of the value: the greatest number of arrays and objects that
are open at one place of the text. -/
def Doc.depth : Doc → Nat
  | .null => 0
  | .bool _ => 0
  | .number _ => 0
  | .string _ => 0
  | .emptyArray _ => 1
  | .array es => es.depth + 1
  | .emptyObject _ => 1
  | .object ms => ms.depth + 1
/-- The greatest depth of an element. -/
def Elems.depth : Elems → Nat
  | .one _ d _ => d.depth
  | .cons _ d _ rest => max d.depth rest.depth
/-- The greatest depth of the value of a member. -/
def Membs.depth : Membs → Nat
  | .one _ _ _ _ d _ => d.depth
  | .cons _ _ _ _ d _ rest => max d.depth rest.depth
end

/-- The members as a list of names and values. -/
def Membs.toList : Membs → List (List StrItem × Doc)
  | .one _ name _ _ d _ => [(name, d)]
  | .cons _ name _ _ d _ rest => (name, d) :: rest.toList

mutual
/-- The value that the scanner of `encoding/json` is to build for the text: the same
tree, with each string as the bytes between its quotation marks and each number as its
text. -/
def Doc.toValue : Doc → json.Value
  | .null => .null
  | .bool b => .bool b
  | .number n => .number n.render
  | .string items => .string (renderItems items)
  | .emptyArray _ => .array []
  | .array es => .array es.toValues
  | .emptyObject _ => .object []
  | .object ms => .object ms.toMembers
/-- The values of the elements. -/
def Elems.toValues : Elems → List json.Value
  | .one _ d _ => [d.toValue]
  | .cons _ d _ rest => d.toValue :: rest.toValues
/-- The names, as written, and values of the members. -/
def Membs.toMembers : Membs → List (Bytes × json.Value)
  | .one _ name _ _ d _ => [(renderItems name, d.toValue)]
  | .cons _ name _ _ d _ rest => (renderItems name, d.toValue) :: rest.toMembers
end

/-- The empty array nested in `n` arrays: `n + 1` opening brackets, then as many closing
brackets. -/
def nest : Nat → Doc
  | 0 => .emptyArray []
  | n + 1 => .array (.one [] (nest n) [])

end rfc8259

/-- The scanner after the bracket or brace that closes the array or object `v`, with
`outer` left on its stack: what `popParseState` gives. -/
def json.closed (outer : List json.Frame) (text : Bytes) (v : json.Value) : json.scanner :=
  if outer.isEmpty then ⟨.endTop, outer, true, text, some v⟩
  else ⟨.endValue, outer, false, text, some v⟩

/-- The scanner `s` has read the value `v` with `ps` on its stack: it has recorded no
error; whitespace, a comma or a closing bracket or brace that comes next takes it where
`stateEndValue` takes it after `v`; and when it has marked the top-level value complete,
`v` is the value it holds. -/
def json.ValueRead (s : json.scanner) (ps : List json.Frame) (v : json.Value) : Prop :=
  s.step ≠ .error
    ∧ (∀ c, (json.isSpace c = true ∨ c = 0x2C ∨ c = 0x5D ∨ c = 0x7D) →
        ∃ text, s.next c = json.stateEndValue ⟨.endValue, ps, false, text, some v⟩ c)
    ∧ (s.endTop = true → s.cur = some v)

/-! # Theorems -/

open json

/-! ## The error texts -/

theorem errorf_read (e : GoString) :
    fmt.Errorf "Could not read from world state. %s" [e]
      = { Error := lit "Could not read from world state. " ++ e } := by
  have h : fmt.Sprintf (lit "Could not read from world state. %s") [e]
      = lit "Could not read from world state. " ++ (e ++ []) := rfl
  simp [fmt.Errorf, h]

theorem errorf_exists (id : GoString) :
    fmt.Errorf "The asset %s already exists" [id]
      = { Error := lit "The asset " ++ id ++ lit " already exists" } := by
  have h : fmt.Sprintf (lit "The asset %s already exists") [id]
      = lit "The asset " ++ (id ++ lit " already exists") := rfl
  simp [fmt.Errorf, h]

theorem errorf_missing (id : GoString) :
    fmt.Errorf "The asset %s does not exist" [id]
      = { Error := lit "The asset " ++ id ++ lit " does not exist" } := by
  have h : fmt.Sprintf (lit "The asset %s does not exist") [id]
      = lit "The asset " ++ (id ++ lit " does not exist") := rfl
  simp [fmt.Errorf, h]

theorem errorf_unmarshal :
    fmt.Errorf "Could not unmarshal world state data to type CryptoMyAsset" []
      = { Error := lit "Could not unmarshal world state data to type CryptoMyAsset" } := rfl

/-! ## The existence guard -/

/-- C1. When `GetState` fails with cause `e`, each of Create, Read, Update and Delete
returns the error `Could not read from world state. ` followed by the text of `e`, Read
returns no record, and the only call made on the stub is that one `GetState`: no
`PutState` and no `DelState`, and the store is in the state that `GetState` left. -/
theorem store_fault_rejects {σ : Type} (stub : Stub σ) (id value : GoString) (s s1 : σ)
    (calls : List Call) (data : Option Bytes) (e : GoError)
    (hget : stub.GetState id s = ((data, some e), s1)) :
    CreateCryptoMyAsset (recording stub) id value (s, calls)
        = (some { Error := lit "Could not read from world state. " ++ e.Error },
            (s1, calls ++ [Call.GetState id]))
      ∧ ReadCryptoMyAsset (recording stub) id (s, calls)
        = ((none, some { Error := lit "Could not read from world state. " ++ e.Error }),
            (s1, calls ++ [Call.GetState id]))
      ∧ UpdateCryptoMyAsset (recording stub) id value (s, calls)
        = (some { Error := lit "Could not read from world state. " ++ e.Error },
            (s1, calls ++ [Call.GetState id]))
      ∧ DeleteCryptoMyAsset (recording stub) id (s, calls)
        = (some { Error := lit "Could not read from world state. " ++ e.Error },
            (s1, calls ++ [Call.GetState id])) := by
  simp [CreateCryptoMyAsset, ReadCryptoMyAsset, UpdateCryptoMyAsset, DeleteCryptoMyAsset,
    CryptoMyAssetExists, recording, hget, errorf_read]

theorem store_fault_rejects_witness :
    configureStub.GetState (lit "statebad") ()
        = ((none, some { Error := lit "world state get error" }), ())
      ∧ CreateCryptoMyAsset (recording configureStub) (lit "statebad") (lit "some value") ((), [])
        = (some { Error := lit "Could not read from world state. "
                    ++ lit "world state get error" },
            ((), [] ++ [Call.GetState (lit "statebad")]))
      ∧ ReadCryptoMyAsset (recording configureStub) (lit "statebad") ((), [])
        = ((none, some { Error := lit "Could not read from world state. "
                    ++ lit "world state get error" }),
            ((), [] ++ [Call.GetState (lit "statebad")]))
      ∧ UpdateCryptoMyAsset (recording configureStub) (lit "statebad") (lit "some value") ((), [])
        = (some { Error := lit "Could not read from world state. "
                    ++ lit "world state get error" },
            ((), [] ++ [Call.GetState (lit "statebad")]))
      ∧ DeleteCryptoMyAsset (recording configureStub) (lit "statebad") ((), [])
        = (some { Error := lit "Could not read from world state. "
                    ++ lit "world state get error" },
            ((), [] ++ [Call.GetState (lit "statebad")])) :=
  ⟨rfl, store_fault_rejects configureStub (lit "statebad") (lit "some value") () () [] none
    { Error := lit "world state get error" } rfl⟩

/-- C2. When `GetState` succeeds and returns no value, each of Read, Update and Delete
returns the error `The asset <id> does not exist`, Read returns no record, and the only
call made on the stub is that one `GetState`: no `PutState` and no `DelState`. -/
theorem not_found_rejects {σ : Type} (stub : Stub σ) (id value : GoString) (s s1 : σ)
    (calls : List Call) (hget : stub.GetState id s = ((none, none), s1)) :
    ReadCryptoMyAsset (recording stub) id (s, calls)
        = ((none, some { Error := lit "The asset " ++ id ++ lit " does not exist" }),
            (s1, calls ++ [Call.GetState id]))
      ∧ UpdateCryptoMyAsset (recording stub) id value (s, calls)
        = (some { Error := lit "The asset " ++ id ++ lit " does not exist" },
            (s1, calls ++ [Call.GetState id]))
      ∧ DeleteCryptoMyAsset (recording stub) id (s, calls)
        = (some { Error := lit "The asset " ++ id ++ lit " does not exist" },
            (s1, calls ++ [Call.GetState id])) := by
  simp [ReadCryptoMyAsset, UpdateCryptoMyAsset, DeleteCryptoMyAsset,
    CryptoMyAssetExists, recording, hget, errorf_missing]

theorem not_found_rejects_witness :
    configureStub.GetState (lit "missingkey") () = ((none, none), ())
      ∧ ReadCryptoMyAsset (recording configureStub) (lit "missingkey") ((), [])
        = ((none, some { Error := lit "The asset " ++ lit "missingkey" ++ lit " does not exist" }),
            ((), [] ++ [Call.GetState (lit "missingkey")]))
      ∧ UpdateCryptoMyAsset (recording configureStub) (lit "missingkey") (lit "new value") ((), [])
        = (some { Error := lit "The asset " ++ lit "missingkey" ++ lit " does not exist" },
            ((), [] ++ [Call.GetState (lit "missingkey")]))
      ∧ DeleteCryptoMyAsset (recording configureStub) (lit "missingkey") ((), [])
        = (some { Error := lit "The asset " ++ lit "missingkey" ++ lit " does not exist" },
            ((), [] ++ [Call.GetState (lit "missingkey")])) :=
  ⟨rfl, not_found_rejects configureStub (lit "missingkey") (lit "new value") () () [] rfl⟩

/-- C7. When `GetState` succeeds, `CryptoMyAssetExists` returns no error, and returns
true exactly when `GetState` returned a value rather than nil; a value that is the empty
byte sequence counts as present, and in a world state that holds nothing under the id
(such as the empty one) the answer is false. -/
theorem exists_iff_value_present {σ : Type} (stub : Stub σ) (id : GoString) (s s1 : σ)
    (data : Option Bytes) (hget : stub.GetState id s = ((data, none), s1)) :
    (CryptoMyAssetExists stub id s).1.2 = none
      ∧ ((CryptoMyAssetExists stub id s).1.1 = true ↔ ∃ bytes, data = some bytes)
      ∧ (data = some [] → (CryptoMyAssetExists stub id s).1.1 = true)
      ∧ (data = none → (CryptoMyAssetExists stub id s).1.1 = false)
      ∧ (∀ w : World, w id = none → (CryptoMyAssetExists World.stub id w).1 = (false, none))
      ∧ (CryptoMyAssetExists World.stub id World.empty).1 = (false, none) := by
  refine ⟨?_, ?_, ?_, ?_, ?_, ?_⟩
  · simp [CryptoMyAssetExists, hget]
  · cases data <;> simp [CryptoMyAssetExists, hget]
  · intro h; simp [CryptoMyAssetExists, hget, h]
  · intro h; simp [CryptoMyAssetExists, hget, h]
  · intro w hw; simp [CryptoMyAssetExists, World.stub, hw]
  · simp [CryptoMyAssetExists, World.stub, World.empty]

theorem exists_iff_value_present_witness :
    configureStub.GetState (lit "existingkey") () = ((some (lit "some value"), none), ())
      ∧ (CryptoMyAssetExists configureStub (lit "existingkey") ()).1.2 = none
      ∧ ((CryptoMyAssetExists configureStub (lit "existingkey") ()).1.1 = true
          ↔ ∃ bytes, some (lit "some value") = some bytes) :=
  ⟨rfl,
    (exists_iff_value_present configureStub (lit "existingkey") () ()
      (some (lit "some value")) rfl).1,
    (exists_iff_value_present configureStub (lit "existingkey") () ()
      (some (lit "some value")) rfl).2.1⟩

/-- C8. When `GetState` fails with cause `e`, `CryptoMyAssetExists` returns false together
with `e` itself, with no text added: the fault is not reported as a plain false. -/
theorem exists_forwards_fault {σ : Type} (stub : Stub σ) (id : GoString) (s s1 : σ)
    (data : Option Bytes) (e : GoError) (hget : stub.GetState id s = ((data, some e), s1)) :
    CryptoMyAssetExists stub id s = ((false, some e), s1) := by
  simp [CryptoMyAssetExists, hget]

theorem exists_forwards_fault_witness :
    configureStub.GetState (lit "statebad") ()
        = ((none, some { Error := lit "world state get error" }), ())
      ∧ CryptoMyAssetExists configureStub (lit "statebad") ()
        = ((false, some { Error := lit "world state get error" }), ()) :=
  ⟨rfl, exists_forwards_fault configureStub (lit "statebad") () () none
    { Error := lit "world state get error" } rfl⟩

/-! ## unicode/utf8: decoding and encoding agree -/

theorem firstSize_le (s0 : Nat) : 2 ≤ utf8.firstSize s0 ∧ utf8.firstSize s0 ≤ 4 := by
  unfold utf8.firstSize; split_ifs <;> omega

theorem decodeRune_take4 (s : List Nat) : utf8.DecodeRune (s.take 4) = utf8.DecodeRune s := by
  rcases s with _ | ⟨s0, _ | ⟨s1, _ | ⟨s2, _ | ⟨s3, rest⟩⟩⟩⟩ <;> simp [utf8.DecodeRune]
  have := firstSize_le s0
  have h1 : ¬ (4 < utf8.firstSize s0) := by omega
  have h2 : ¬ (rest.length + 1 + 1 + 1 + 1 < utf8.firstSize s0) := by omega
  simp [h1, h2]

theorem valid_decode (s0 : Nat) (rest : List Nat) (h0 : 0x80 ≤ s0)
    (hv : utf8.Valid (s0 :: rest) = true) :
    ¬ ((utf8.DecodeRune (s0 :: rest)).1 = utf8.RuneError ∧ (utf8.DecodeRune (s0 :: rest)).2 = 1)
      ∧ utf8.Valid ((s0 :: rest).drop (utf8.DecodeRune (s0 :: rest)).2) = true := by
  have hs0 : ¬ s0 < 128 := by omega
  rw [utf8.Valid.eq_def] at hv
  by_cases hx : s0 < 0xC2 ∨ 0xF5 ≤ s0
  · simp [hs0, hx] at hv
  rcases rest with _ | ⟨s1, rest1⟩
  · simp [hs0, hx] at hv
  by_cases h1 : s1 < utf8.acceptLo s0 ∨ utf8.acceptHi s0 < s1
  · simp [hs0, hx, h1] at hv
  by_cases hsz2 : s0 < 0xE0
  · have hf : utf8.firstSize s0 = 2 := by simp [utf8.firstSize, hsz2]
    have hd : utf8.DecodeRune (s0 :: s1 :: rest1) = (s0 % 32 * 64 + s1 % 64, 2) := by
      simp [utf8.DecodeRune, hs0, hx, h1, hf]
    rw [hd]
    simp [hs0, hx, h1, hf] at hv
    simp [hv]
  have hf2 : ¬ utf8.firstSize s0 ≤ 2 := by simp [utf8.firstSize, hsz2]; split_ifs <;> omega
  rcases rest1 with _ | ⟨s2, rest2⟩
  · simp [hs0, hx, h1, hf2] at hv
  by_cases h2 : s2 < 0x80 ∨ 0xBF < s2
  · simp [hs0, hx, h1, h2, hf2] at hv
  by_cases hsz3 : s0 < 0xF0
  · have hf : utf8.firstSize s0 = 3 := by simp [utf8.firstSize, hsz2, hsz3]
    have hd : utf8.DecodeRune (s0 :: s1 :: s2 :: rest2)
        = (s0 % 16 * 4096 + s1 % 64 * 64 + s2 % 64, 3) := by
      simp [utf8.DecodeRune, hs0, hx, h1, h2, hf]
    rw [hd]
    simp [hs0, hx, h1, h2, hf] at hv
    simp [hv]
  have hf : utf8.firstSize s0 = 4 := by simp [utf8.firstSize, hsz2, hsz3]
  rcases rest2 with _ | ⟨s3, rest3⟩
  · simp [hs0, hx, h1, h2, hf] at hv
  by_cases h3 : s3 < 0x80 ∨ 0xBF < s3
  · simp [hs0, hx, h1, h2, h3, hf] at hv
  have hd : utf8.DecodeRune (s0 :: s1 :: s2 :: s3 :: rest3)
      = (s0 % 8 * 262144 + s1 % 64 * 4096 + s2 % 64 * 64 + s3 % 64, 4) := by
    simp [utf8.DecodeRune, hs0, hx, h1, h2, h3, hf]
  rw [hd]
  simp [hs0, hx, h1, h2, h3, hf] at hv
  simp [hv]

theorem decodeRune_cases (s0 : Nat) (rest : List Nat) (h0 : 0x80 ≤ s0)
    (h : ¬ ((utf8.DecodeRune (s0 :: rest)).1 = utf8.RuneError
      ∧ (utf8.DecodeRune (s0 :: rest)).2 = 1)) :
    ∃ c chunk tail, s0 :: rest = chunk ++ tail ∧ 2 ≤ chunk.length
      ∧ (∀ x ∈ chunk, 0x80 ≤ x) ∧ utf8.EncodeRune c = chunk
      ∧ ∀ t, utf8.DecodeRune (chunk ++ t) = (c, chunk.length) := by
  have hs0 : ¬ s0 < 128 := by omega
  by_cases hx : s0 < 0xC2 ∨ 0xF5 ≤ s0
  · simp [utf8.DecodeRune, hs0, hx] at h
  have hr : 0xC2 ≤ s0 ∧ s0 ≤ 0xF4 := by omega
  rcases rest with _ | ⟨s1, rest1⟩
  · simp [utf8.DecodeRune, hs0, hx] at h
  by_cases h1 : s1 < utf8.acceptLo s0 ∨ utf8.acceptHi s0 < s1
  · simp [utf8.DecodeRune, hs0, hx, h1] at h
  have hlo : 0x80 ≤ utf8.acceptLo s0 := by unfold utf8.acceptLo; split_ifs <;> omega
  have hhi : utf8.acceptHi s0 ≤ 0xBF := by unfold utf8.acceptHi; split_ifs <;> omega
  have hs1 : 0x80 ≤ s1 ∧ s1 ≤ 0xBF := by omega
  by_cases hsz2 : s0 < 0xE0
  · have hf : utf8.firstSize s0 = 2 := by simp [utf8.firstSize, hsz2]
    refine ⟨s0 % 32 * 64 + s1 % 64, [s0, s1], rest1, rfl, by simp, ?_, ?_, ?_⟩
    · intro x hx; simp at hx; rcases hx with rfl | rfl <;> omega
    · simp only [utf8.EncodeRune]
      rw [if_neg (by omega), if_pos (by omega)]
      simp; omega
    · intro t; simp [utf8.DecodeRune, hs0, hx, h1, hf]
  rcases rest1 with _ | ⟨s2, rest2⟩
  · have hf : 2 < utf8.firstSize s0 := by simp [utf8.firstSize, hsz2]; split_ifs <;> omega
    simp [utf8.DecodeRune, hs0, hx, hf] at h
  by_cases h2 : s2 < 0x80 ∨ 0xBF < s2
  · have hf2 : ¬ utf8.firstSize s0 ≤ 2 := by simp [utf8.firstSize, hsz2]; split_ifs <;> omega
    by_cases hl : rest2.length + 1 + 1 + 1 < utf8.firstSize s0 <;>
      simp [utf8.DecodeRune, hs0, hx, h1, h2, hf2, hl] at h
  by_cases hsz3 : s0 < 0xF0
  · have hf : utf8.firstSize s0 = 3 := by simp [utf8.firstSize, hsz2, hsz3]
    refine ⟨s0 % 16 * 4096 + s1 % 64 * 64 + s2 % 64, [s0, s1, s2], rest2, rfl, by simp,
      ?_, ?_, ?_⟩
    · intro x hx; simp at hx; rcases hx with rfl | rfl | rfl <;> omega
    · simp only [utf8.EncodeRune]
      simp only [utf8.acceptLo, utf8.acceptHi] at h1
      rw [if_neg (by split_ifs at h1 <;> omega), if_neg (by split_ifs at h1 <;> omega),
        if_neg (by split_ifs at h1 <;> omega), if_pos (by omega)]
      simp; omega
    · intro t; simp [utf8.DecodeRune, hs0, hx, h1, h2, hf]
  have hf : utf8.firstSize s0 = 4 := by simp [utf8.firstSize, hsz2, hsz3]
  rcases rest2 with _ | ⟨s3, rest3⟩
  · simp [utf8.DecodeRune, hs0, hx, hf] at h
  by_cases h3 : s3 < 0x80 ∨ 0xBF < s3
  · simp [utf8.DecodeRune, hs0, hx, h1, h2, h3, hf] at h
  refine ⟨s0 % 8 * 262144 + s1 % 64 * 4096 + s2 % 64 * 64 + s3 % 64, [s0, s1, s2, s3], rest3,
    rfl, by simp, ?_, ?_, ?_⟩
  · intro x hx; simp at hx; rcases hx with rfl | rfl | rfl | rfl <;> omega
  · simp only [utf8.EncodeRune]
    simp only [utf8.acceptLo, utf8.acceptHi] at h1
    rw [if_neg (by split_ifs at h1 <;> omega), if_neg (by split_ifs at h1 <;> omega),
      if_neg (by split_ifs at h1 <;> omega), if_neg (by split_ifs at h1 <;> omega)]
    simp; omega
  · intro t; simp [utf8.DecodeRune, hs0, hx, h1, h2, h3, hf]

theorem decodeRune_size_pos (s0 : Nat) (rest : List Nat) :
    1 ≤ (utf8.DecodeRune (s0 :: rest)).2 := by
  by_cases h0 : s0 < 0x80
  · simp [utf8.DecodeRune, h0]
  by_cases h : (utf8.DecodeRune (s0 :: rest)).1 = utf8.RuneError
      ∧ (utf8.DecodeRune (s0 :: rest)).2 = 1
  · omega
  obtain ⟨c, chunk, tail, hs, hl, -, -, hd⟩ := decodeRune_cases s0 rest (by omega) h
  rw [hs, hd]; simp; omega

theorem unquoteLoop_nil (f : Nat) : unquoteLoop f [] = some [] := by
  cases f <;> simp [unquoteLoop]

theorem unquoteLoop_fuel (f1 f2 : Nat) (s : Bytes) (h1 : s.length ≤ f1) (h2 : s.length ≤ f2) :
    unquoteLoop f1 s = unquoteLoop f2 s := by
  induction f1 generalizing f2 s with
  | zero =>
    have : s = [] := by simpa using h1
    subst this; simp [unquoteLoop_nil]
  | succ f1 ih =>
    rcases s with _ | ⟨c, rest⟩
    · simp [unquoteLoop_nil]
    obtain ⟨f2, rfl⟩ : ∃ g, f2 = g + 1 := ⟨f2 - 1, by simp at h2; omega⟩
    simp only [List.length_cons] at h1 h2
    have hsz := decodeRune_size_pos c rest
    have e1 := ih f2 rest (by omega) (by omega)
    have e2 := ih f2 ((c :: rest).drop 6) (by simp; omega) (by simp; omega)
    have e3 := ih f2 ((c :: rest).drop 12) (by simp; omega) (by simp; omega)
    have e4 := ih f2 ((c :: rest).drop (utf8.DecodeRune (c :: rest)).2)
      (by simp only [List.length_drop, List.length_cons]; omega)
      (by simp only [List.length_drop, List.length_cons]; omega)
    rcases rest with _ | ⟨e, rest1⟩
    · rw [unquoteLoop.eq_def, unquoteLoop.eq_def (f2 + 1)]
      simp only [e1, e4]
    · have e5 := ih f2 rest1 (by simp at h1; omega) (by simp at h2; omega)
      rw [unquoteLoop.eq_def, unquoteLoop.eq_def (f2 + 1)]
      simp only [e1, e2, e3, e4, e5]

theorem decodeRune_split (b : Nat) (rest : List Nat) (h0 : 0x80 ≤ b)
    (h : ¬ ((utf8.DecodeRune (b :: rest)).1 = utf8.RuneError
      ∧ (utf8.DecodeRune (b :: rest)).2 = 1)) :
    ∃ c chunk tail, b :: rest = chunk ++ tail
      ∧ utf8.DecodeRune (b :: rest) = (c, chunk.length)
      ∧ (b :: rest).take chunk.length = chunk ∧ (b :: rest).drop chunk.length = tail
      ∧ 2 ≤ chunk.length ∧ (∀ x ∈ chunk, 0x80 ≤ x) ∧ utf8.EncodeRune c = chunk
      ∧ ∀ t, utf8.DecodeRune (chunk ++ t) = (c, chunk.length) := by
  obtain ⟨c, chunk, tail, hs, hl, hx, henc, hd⟩ := decodeRune_cases b rest h0 h
  refine ⟨c, chunk, tail, hs, ?_, ?_, ?_, hl, hx, henc, hd⟩
  · rw [hs]; exact hd tail
  · rw [hs]; simp
  · rw [hs]; simp

/-! ## encoding/json: what the encoder writes is a string body -/

theorem stringBody_nil : StringBody [] := by
  intro ps et text cur; simp

theorem stringBody_append {l1 l2 : Bytes} (h1 : StringBody l1) (h2 : StringBody l2) :
    StringBody (l1 ++ l2) := by
  intro ps et text cur
  rw [List.foldl_append, h1, h2, List.append_assoc]

theorem stringBody_plain (c : Nat) (h1 : 0x20 ≤ c) (h2 : c ≠ 0x22) (h3 : c ≠ 0x5C) :
    StringBody [c] := by
  intro ps et text cur
  have h4 : ¬ c < 32 := by omega
  simp [scanner.next, h2, h3, h4]

theorem stringBody_plain_list (l : Bytes) (h : ∀ c ∈ l, 0x80 ≤ c) : StringBody l := by
  induction l with
  | nil => exact stringBody_nil
  | cons c l ih =>
    have hc := h c (by simp)
    have := stringBody_append (stringBody_plain c (by omega) (by omega) (by omega))
      (ih (fun x hx => h x (by simp [hx])))
    simpa using this

theorem isHex_hex (n : Nat) (h : n < 16) : isHex (hex.getD n 0) = true := by
  interval_cases n <;> decide

theorem stringBody_escapeByte (b : Nat) (hb : b < 0x80) : StringBody (escapeByte b) := by
  intro ps et text cur
  have h1 := isHex_hex (b / 16) (by omega)
  have h2 := isHex_hex (b % 16) (by omega)
  unfold escapeByte
  split_ifs with c1 c2 c3 c4 c5 c6
  · rcases c1 with rfl | rfl <;> simp [scanner.next]
  all_goals simp [scanner.next, isHex, h1, h2]
  simp [isHex] at h1 h2
  simp [h1, h2]

theorem stringBody_ufffd : StringBody [0xEF, 0xBF, 0xBD] :=
  stringBody_plain_list _ (by decide)

theorem stringBody_u202 (c : Nat) (h : c = 0x2028 ∨ c = 0x2029) :
    StringBody [0x5C, 0x75, 0x32, 0x30, 0x32, hex.getD (c % 16) 0] := by
  intro ps et text cur
  rcases h with rfl | rfl <;> simp [scanner.next, isHex, hex]

theorem stringBody_appendStringLoop (fuel : Nat) (src : GoString) :
    StringBody (appendStringLoop fuel src) := by
  induction fuel generalizing src with
  | zero => simpa [appendStringLoop] using stringBody_nil
  | succ fuel ih =>
    rcases src with _ | ⟨b, rest⟩
    · simpa [appendStringLoop] using stringBody_nil
    rw [appendStringLoop]
    by_cases hb : b < 0x80
    · by_cases hs : htmlSafeSet b = true
      · simp only [hb, hs, if_true]
        have hs2 := hs
        simp [htmlSafeSet] at hs2
        exact @stringBody_append [b] _
          (stringBody_plain b (by omega) (by omega) (by omega)) (ih rest)
      · simp only [hb, hs, if_true, if_false]
        exact stringBody_append (stringBody_escapeByte b hb) (ih rest)
    · rw [decodeRune_take4]
      simp only [hb, if_false]
      by_cases he : (utf8.DecodeRune (b :: rest)).1 = utf8.RuneError
          ∧ (utf8.DecodeRune (b :: rest)).2 = 1
      · simp only [he, and_self, if_true]
        exact stringBody_append stringBody_ufffd (ih rest)
      · obtain ⟨c, chunk, tail, -, hd, htk, hdr, -, hx, -, -⟩ :=
          decodeRune_split b rest (by omega) he
        simp only [he, if_false]
        rw [hd]
        simp only [htk, hdr]
        split_ifs with h2
        · exact stringBody_append (stringBody_u202 _ h2) (ih _)
        · exact stringBody_append (stringBody_plain_list _ hx) (ih _)

/-! ## encoding/json: unquoting what the encoder writes -/

theorem unquoteLoop_plain (f c : Nat) (rest : Bytes) (h1 : 0x20 ≤ c) (h2 : c < 0x80)
    (h3 : c ≠ 0x22) (h4 : c ≠ 0x5C) :
    unquoteLoop (f + 1) (c :: rest) = (unquoteLoop f rest).map (c :: ·) := by
  have h5 : ¬ c < 32 := by omega
  rw [unquoteLoop.eq_def]
  simp [h2, h3, h4, h5]

theorem hexValue_hex (n : Nat) (h : n < 16) : hexValue (hex.getD n 0) = some n := by
  interval_cases n <;> decide

theorem unquoteLoop_u (f rr a b c d : Nat) (rest : Bytes)
    (hg : getu4 (0x5C :: 0x75 :: a :: b :: c :: d :: rest) = some rr)
    (hr : ¬ (0xD800 ≤ rr ∧ rr < 0xE000)) :
    unquoteLoop (f + 1) (0x5C :: 0x75 :: a :: b :: c :: d :: rest)
      = (unquoteLoop f rest).map (utf8.EncodeRune rr ++ ·) := by
  rw [unquoteLoop.eq_def]
  simp [hg, hr]

theorem unquoteLoop_escapeByte (f b : Nat) (rest : Bytes) (hb : b < 0x80)
    (hs : htmlSafeSet b = false) :
    unquoteLoop (f + 1) (escapeByte b ++ rest) = (unquoteLoop f rest).map (b :: ·) := by
  unfold escapeByte
  split_ifs with c1 c2 c3 c4 c5 c6
  · rcases c1 with rfl | rfl <;> (rw [unquoteLoop.eq_def]; simp)
  · subst c2; rw [unquoteLoop.eq_def]; simp
  · subst c3; rw [unquoteLoop.eq_def]; simp
  · subst c4; rw [unquoteLoop.eq_def]; simp
  · subst c5; rw [unquoteLoop.eq_def]; simp
  · subst c6; rw [unquoteLoop.eq_def]; simp
  · have h1 := hexValue_hex (b / 16) (by omega)
    have h2 := hexValue_hex (b % 16) (by omega)
    have hg : getu4 (0x5C :: 0x75 :: 0x30 :: 0x30 :: hex.getD (b / 16) 0
        :: hex.getD (b % 16) 0 :: rest) = some b := by
      have h0 : hexValue 0x30 = some 0 := by decide
      simp only [getu4, h0, h1, h2]
      simp; omega
    have := unquoteLoop_u f b 0x30 0x30 (hex.getD (b / 16) 0) (hex.getD (b % 16) 0) rest hg
      (by omega)
    simp only [List.cons_append, List.nil_append]
    rw [this]
    simp [utf8.EncodeRune, show b ≤ 127 by omega]

theorem unquoteLoop_ufffd (f : Nat) (rest : Bytes) :
    unquoteLoop (f + 1) ([0xEF, 0xBF, 0xBD] ++ rest)
      = (unquoteLoop f rest).map ([0xEF, 0xBF, 0xBD] ++ ·) := by
  have hd : utf8.DecodeRune (0xEF :: 0xBF :: 0xBD :: rest) = (0xFFFD, 3) := by
    simp [utf8.DecodeRune, utf8.firstSize, utf8.acceptLo, utf8.acceptHi]
  have he : utf8.EncodeRune 0xFFFD = [0xEF, 0xBF, 0xBD] := by decide
  simp only [List.cons_append, List.nil_append]
  rw [unquoteLoop.eq_def]
  simp [hd, he]

theorem unquoteLoop_u202 (f c : Nat) (rest : Bytes) (h : c = 0x2028 ∨ c = 0x2029) :
    unquoteLoop (f + 1) ([0x5C, 0x75, 0x32, 0x30, 0x32, hex.getD (c % 16) 0] ++ rest)
      = (unquoteLoop f rest).map (utf8.EncodeRune c ++ ·) := by
  have hg : getu4 (0x5C :: 0x75 :: 0x32 :: 0x30 :: 0x32 :: hex.getD (c % 16) 0 :: rest)
      = some c := by
    have h0 : hexValue 0x30 = some 0 := by decide
    have h2 : hexValue 0x32 = some 2 := by decide
    have h8 : hexValue 0x38 = some 8 := by decide
    have h9 : hexValue 0x39 = some 9 := by decide
    rcases h with rfl | rfl
    · have : hex.getD (0x2028 % 16) 0 = 0x38 := by decide
      rw [this]; simp only [getu4, h0, h2, h8]
    · have : hex.getD (0x2029 % 16) 0 = 0x39 := by decide
      rw [this]; simp only [getu4, h0, h2, h9]
  have := unquoteLoop_u f c 0x32 0x30 0x32 (hex.getD (c % 16) 0) rest hg (by omega)
  simp only [List.cons_append, List.nil_append]
  rw [this]

theorem unquoteLoop_chunk (f c : Nat) (chunk t : Bytes) (hl : 2 ≤ chunk.length)
    (hx : ∀ x ∈ chunk, 0x80 ≤ x) (henc : utf8.EncodeRune c = chunk)
    (hd : ∀ t, utf8.DecodeRune (chunk ++ t) = (c, chunk.length)) :
    unquoteLoop (f + 1) (chunk ++ t) = (unquoteLoop f t).map (chunk ++ ·) := by
  rcases chunk with _ | ⟨x, xs⟩
  · simp at hl
  have h0 := hx x (by simp)
  have hd' := hd t
  simp only [List.cons_append] at hd' ⊢
  rw [unquoteLoop.eq_def]
  have h1 : x ≠ 0x5C := by omega
  have h2 : x ≠ 0x22 := by omega
  have h3 : ¬ x < 0x20 := by omega
  have h4 : ¬ x < 0x80 := by omega
  simp only [h1, h2, h3, h4, if_false, or_self, hd', henc]
  have : List.drop (x :: xs).length (x :: (xs ++ t)) = t := by
    have := @List.drop_left' _ (x :: xs) t _ rfl
    simp
  rw [this]
  simp

theorem unquoteLoop_appendStringLoop (fuel : Nat) (src : GoString) (f : Nat)
    (hfuel : src.length ≤ fuel) (hf : (appendStringLoop fuel src).length ≤ f) :
    unquoteLoop f (appendStringLoop fuel src) = some (coerceLoop fuel src) := by
  induction fuel generalizing src f with
  | zero => simp [appendStringLoop, coerceLoop, unquoteLoop_nil]
  | succ fuel ih =>
    rcases src with _ | ⟨b, rest⟩
    · simp [appendStringLoop, coerceLoop, unquoteLoop_nil]
    simp only [List.length_cons] at hfuel
    rw [appendStringLoop] at hf ⊢
    rw [coerceLoop]
    by_cases hb : b < 0x80
    · by_cases hs : htmlSafeSet b = true
      · simp only [hb, hs, if_true] at hf ⊢
        obtain ⟨f, rfl⟩ : ∃ g, f = g + 1 := ⟨f - 1, by simp at hf; omega⟩
        have hs2 := hs
        simp [htmlSafeSet] at hs2
        rw [unquoteLoop_plain f b _ (by omega) hb (by omega) (by omega),
          ih rest f (by omega) (by simp at hf; omega)]
        simp
      · have hs' : htmlSafeSet b = false := by simpa using hs
        simp only [hb, hs', if_true] at hf ⊢
        simp only [Bool.false_eq_true, if_false] at hf ⊢
        have hne : 1 ≤ (escapeByte b).length := by
          unfold escapeByte; split_ifs <;> simp
        obtain ⟨f, rfl⟩ : ∃ g, f = g + 1 := ⟨f - 1, by simp at hf; omega⟩
        rw [unquoteLoop_escapeByte f b _ hb hs',
          ih rest f (by omega) (by simp at hf; omega)]
        simp
    · rw [decodeRune_take4] at hf ⊢
      simp only [hb, if_false] at hf ⊢
      by_cases he : (utf8.DecodeRune (b :: rest)).1 = utf8.RuneError
          ∧ (utf8.DecodeRune (b :: rest)).2 = 1
      · simp only [he, and_self, if_true] at hf ⊢
        obtain ⟨f, rfl⟩ : ∃ g, f = g + 1 := ⟨f - 1, by simp at hf; omega⟩
        rw [unquoteLoop_ufffd, ih rest f (by omega) (by simp at hf; omega)]
        simp
      · obtain ⟨c, chunk, tail, hsplit, hd, htk, hdr, hl, hx, henc, hdt⟩ :=
          decodeRune_split b rest (by omega) he
        have hlen : tail.length + chunk.length = rest.length + 1 := by
          have := congrArg List.length hsplit
          simp at this; omega
        simp only [he, if_false] at hf ⊢
        rw [hd] at hf ⊢
        simp only [htk, hdr] at hf ⊢
        split_ifs at hf ⊢ with h2
        · obtain ⟨f, rfl⟩ : ∃ g, f = g + 1 := ⟨f - 1, by simp at hf; omega⟩
          rw [unquoteLoop_u202 f c _ h2, ih tail f (by omega) (by simp at hf; omega), henc]
          simp
        · obtain ⟨f, rfl⟩ : ∃ g, f = g + 1 := ⟨f - 1, by simp at hf; omega⟩
          rw [unquoteLoop_chunk f c chunk _ hl hx henc hdt,
            ih tail f (by omega) (by simp at hf; omega)]
          simp

theorem coerceLoop_valid (fuel : Nat) (src : GoString) (hfuel : src.length ≤ fuel)
    (hv : utf8.Valid src = true) : coerceLoop fuel src = src := by
  induction fuel generalizing src with
  | zero =>
    have : src = [] := by simpa using hfuel
    subst this; simp [coerceLoop]
  | succ fuel ih =>
    rcases src with _ | ⟨b, rest⟩
    · simp [coerceLoop]
    simp only [List.length_cons] at hfuel
    rw [coerceLoop]
    by_cases hb : b < 0x80
    · rw [utf8.Valid.eq_def] at hv
      simp only [hb, if_true] at hv ⊢
      rw [ih rest (by omega) hv]
    · obtain ⟨he, hv2⟩ := valid_decode b rest (by omega) hv
      obtain ⟨c, chunk, tail, hsplit, hd, htk, hdr, hl, hx, henc, hdt⟩ :=
        decodeRune_split b rest (by omega) he
      have hlen : tail.length + chunk.length = rest.length + 1 := by
        have := congrArg List.length hsplit
        simp at this; omega
      rw [hd] at hv2
      simp only [hdr] at hv2
      simp only [hb, if_false]
      rw [hd]
      have hc : ¬ (c = utf8.RuneError ∧ chunk.length = 1) := by omega
      simp only [hc, if_false, htk, hdr]
      rw [ih tail (by omega) hv2, hsplit]

theorem unquoteSkip_spec (fs : Nat) (s : Bytes) (f : Nat) (hf : s.length ≤ f) :
    (unquoteLoop f (s.drop (unquoteSkip fs s))).map (s.take (unquoteSkip fs s) ++ ·)
      = unquoteLoop f s := by
  induction fs generalizing s f with
  | zero => simp [unquoteSkip]
  | succ fs ih =>
    rcases s with _ | ⟨c, rest⟩
    · simp [unquoteSkip]
    simp only [List.length_cons] at hf
    obtain ⟨f, rfl⟩ : ∃ g, f = g + 1 := ⟨f - 1, by omega⟩
    rw [unquoteSkip]
    by_cases hsp : c = 0x5C ∨ c = 0x22 ∨ c < 0x20
    · simp [hsp]
    simp only [hsp, if_false]
    by_cases hb : c < 0x80
    · simp only [hb, if_true]
      rw [Nat.add_comm 1, List.drop_succ_cons, List.take_succ_cons,
        unquoteLoop_plain f c rest (by omega) hb (by omega) (by omega),
        ← ih rest f (by omega),
        unquoteLoop_fuel (f + 1) f _ (by simp; omega) (by simp; omega)]
      simp [Option.map_map, Function.comp_def]
    · simp only [hb, if_false]
      by_cases he : (utf8.DecodeRune (c :: rest)).1 = utf8.RuneError
          ∧ (utf8.DecodeRune (c :: rest)).2 = 1
      · simp [he]
      · obtain ⟨r, chunk, tail, hsplit, hd, htk, hdr, hl, hx, henc, hdt⟩ :=
          decodeRune_split c rest (by omega) he
        have hlen : tail.length + chunk.length = rest.length + 1 := by
          have := congrArg List.length hsplit
          simp at this; omega
        simp only [he, if_false]
        rw [hd]
        simp only [hdr]
        rw [hsplit, List.drop_append_eq_append_drop, List.take_append_eq_append_take]
        have e1 : chunk.length + unquoteSkip fs tail - chunk.length = unquoteSkip fs tail := by
          omega
        have e2 : List.drop (chunk.length + unquoteSkip fs tail) chunk = [] := by
          apply List.drop_eq_nil_of_le; omega
        have e3 : List.take (chunk.length + unquoteSkip fs tail) chunk = chunk := by
          apply List.take_of_length_le; omega
        rw [e1, e2, e3, unquoteLoop_chunk f r chunk tail hl hx henc hdt, ← ih tail f (by omega),
          List.nil_append,
          unquoteLoop_fuel (f + 1) f _ (by simp; omega) (by simp; omega)]
        simp [Option.map_map, Function.comp_def]

theorem unquoteSkip_le (fs : Nat) (s : Bytes) : unquoteSkip fs s ≤ s.length := by
  induction fs generalizing s with
  | zero => simp [unquoteSkip]
  | succ fs ih =>
    rcases s with _ | ⟨c, rest⟩
    · simp [unquoteSkip]
    rw [unquoteSkip]
    by_cases hsp : c = 0x5C ∨ c = 0x22 ∨ c < 0x20
    · simp [hsp]
    simp only [hsp, if_false]
    by_cases hb : c < 0x80
    · simp only [hb, if_true]
      have := ih rest
      simp; omega
    · simp only [hb, if_false]
      by_cases he : (utf8.DecodeRune (c :: rest)).1 = utf8.RuneError
          ∧ (utf8.DecodeRune (c :: rest)).2 = 1
      · simp [he]
      · obtain ⟨r, chunk, tail, hsplit, hd, htk, hdr, hl, hx, henc, hdt⟩ :=
          decodeRune_split c rest (by omega) he
        have hlen : tail.length + chunk.length = rest.length + 1 := by
          have := congrArg List.length hsplit
          simp at this; omega
        simp only [he, if_false]
        rw [hd]
        simp only [hdr]
        have := ih tail
        simp; omega

theorem unquoteBytes_eq_loop (body : Bytes) :
    unquoteBytes body = unquoteLoop body.length body := by
  unfold unquoteBytes
  have h := unquoteSkip_spec body.length body body.length (le_refl _)
  by_cases hr : unquoteSkip body.length body = body.length
  · rw [hr] at h
    simp only [hr, if_true]
    rw [← h]
    simp [unquoteLoop_nil]
  · simp only [hr, if_false]
    exact h

theorem scan_prefix :
    (lit "\x7b\"value\":" ++ [0x22]).foldl scanner.next scanner.reset
      = ⟨.inString, [.parseObjectValue [] (lit "value")], false, [], none⟩ := by
  rfl

theorem checkValid_object (body : Bytes) (h : StringBody body) :
    checkValid (lit "\x7b\"value\":" ++ ([0x22] ++ body ++ [0x22]) ++ lit "\x7d")
      = some (.object [(lit "value", .string body)]) := by
  have e : lit "\x7b\"value\":" ++ ([0x22] ++ body ++ [0x22]) ++ lit "\x7d"
      = (lit "\x7b\"value\":" ++ [0x22]) ++ (body ++ [0x22, 0x7D]) := by
    have : lit "\x7d" = [0x7D] := rfl
    rw [this]; simp
  rw [e]
  unfold checkValid
  rw [List.foldl_append, scan_prefix, List.foldl_append, h]
  simp [scanner.next, stateEndValue, popParseState, isSpace, scanner.eof]

/-- Unmarshalling the bytes that `Marshal` writes for a `CryptoMyAsset` succeeds, and
gives the value coerced to well-formed UTF-8. -/
theorem unmarshal_marshal (v d : CryptoMyAsset) :
    Unmarshal (some (Marshal v).1) d = ({ Value := toValidUTF8 v.Value }, none) := by
  have hk : unquoteBytes (lit "value") = some (lit "value") := by decide
  have hf : isFieldValue (lit "value") = true := by decide
  have hb : unquoteBytes (appendStringLoop v.Value.length v.Value)
      = some (coerceLoop v.Value.length v.Value) := by
    rw [unquoteBytes_eq_loop]
    exact unquoteLoop_appendStringLoop _ _ _ (le_refl _) (le_refl _)
  simp only [Unmarshal, Marshal, appendString, Option.getD_some]
  rw [checkValid_object _ (stringBody_appendStringLoop _ _)]
  simp [decodeValue, objectMember, hk, hf, hb, toValidUTF8]

/-- For a value that is well-formed UTF-8, unmarshalling what `Marshal` writes gives the
value back. -/
theorem unmarshal_marshal_valid (value : GoString) (d : CryptoMyAsset)
    (hv : utf8.Valid value = true) :
    Unmarshal (some (Marshal { Value := value }).1) d = ({ Value := value }, none) := by
  rw [unmarshal_marshal]
  simp [toValidUTF8, coerceLoop_valid _ _ (le_refl _) hv]

/-! ## The operations over a store that keeps what is put -/

theorem World.keepsPuts : World.stub.KeepsPuts where
  get_put := by
    intro key value s s1 h
    simp [World.stub] at h
    subst h
    simp [World.stub]
  get_get := by intro key s; rfl

theorem World.deleteRemoves : World.stub.DeleteRemoves where
  get_del := by
    intro key s s1 h
    simp [World.stub] at h
    subst h
    simp [World.stub]

theorem create_success (stub : Stub σ) (id value : GoString) (s s2 : σ)
    (h : CreateCryptoMyAsset stub id value s = (none, s2)) :
    ∃ s1, stub.GetState id s = ((none, none), s1)
      ∧ stub.PutState id (Marshal { Value := value }).1 s1 = (none, s2) := by
  rcases hg : stub.GetState id s with ⟨⟨data, err⟩, s1⟩
  rcases err with _ | e
  · rcases data with _ | bytes
    · refine ⟨s1, rfl, ?_⟩
      simpa [CreateCryptoMyAsset, CryptoMyAssetExists, hg] using h
    · simp [CreateCryptoMyAsset, CryptoMyAssetExists, hg, fmt.Errorf] at h
  · simp [CreateCryptoMyAsset, CryptoMyAssetExists, hg, fmt.Errorf] at h

theorem update_success (stub : Stub σ) (id value : GoString) (s s2 : σ)
    (h : UpdateCryptoMyAsset stub id value s = (none, s2)) :
    ∃ bytes s1, stub.GetState id s = ((some bytes, none), s1)
      ∧ stub.PutState id (Marshal { Value := value }).1 s1 = (none, s2) := by
  rcases hg : stub.GetState id s with ⟨⟨data, err⟩, s1⟩
  rcases err with _ | e
  · rcases data with _ | bytes
    · simp [UpdateCryptoMyAsset, CryptoMyAssetExists, hg, fmt.Errorf] at h
    · refine ⟨bytes, s1, rfl, ?_⟩
      simpa [UpdateCryptoMyAsset, CryptoMyAssetExists, hg] using h
  · simp [UpdateCryptoMyAsset, CryptoMyAssetExists, hg, fmt.Errorf] at h

theorem exists_of_get (stub : Stub σ) (id : GoString) (s : σ) (data : Option Bytes)
    (h : (stub.GetState id s).1 = (data, none)) :
    CryptoMyAssetExists stub id s = ((data.isSome, none), (stub.GetState id s).2) := by
  rcases hg : stub.GetState id s with ⟨⟨data1, err⟩, s1⟩
  rw [hg] at h
  simp at h
  obtain ⟨rfl, rfl⟩ := h
  simp [CryptoMyAssetExists, hg]

theorem read_of_get (stub : Stub σ) (hlaw : stub.KeepsPuts) (id : GoString) (s : σ)
    (bytes : Bytes) (h : (stub.GetState id s).1 = (some bytes, none)) :
    (ReadCryptoMyAsset stub id s).1
      = match Unmarshal (some bytes) { Value := [] } with
        | (_, some _) =>
          (none, some
            { Error := lit "Could not unmarshal world state data to type CryptoMyAsset" })
        | (cryptoMyAsset, none) => (some cryptoMyAsset, none) := by
  have h2 := hlaw.get_get id s
  rw [h] at h2
  rcases hg2 : stub.GetState id (stub.GetState id s).2 with ⟨⟨data2, err2⟩, s2⟩
  rw [hg2] at h2
  simp at h2
  obtain ⟨rfl, rfl⟩ := h2
  rw [ReadCryptoMyAsset, exists_of_get stub id s _ h]
  simp only [Option.isSome_some, hg2]
  rcases Unmarshal (some bytes) { Value := [] } with ⟨v, _ | e⟩ <;> simp [errorf_unmarshal]

theorem read_after_put (stub : Stub σ) (hlaw : stub.KeepsPuts) (id value : GoString)
    (s s1 : σ) (h : stub.PutState id (Marshal { Value := value }).1 s = (none, s1)) :
    (CryptoMyAssetExists stub id s1).1 = (true, none)
      ∧ (ReadCryptoMyAsset stub id s1).1 = (some { Value := toValidUTF8 value }, none) := by
  have hg := hlaw.get_put id _ s s1 h
  constructor
  · rw [exists_of_get stub id s1 _ hg]; rfl
  · rw [read_of_get stub hlaw id s1 _ hg, unmarshal_marshal]

theorem toValidUTF8_valid (v : GoString) (hv : utf8.Valid v = true) : toValidUTF8 v = v :=
  coerceLoop_valid _ _ (le_refl _) hv

/-! ## Create, Update and Delete, then Read -/

/-- C4 (amended). Over a store whose `GetState` returns what was last put, after
`CreateCryptoMyAsset(id, value)` succeeds, `CryptoMyAssetExists(id)` returns true and
`ReadCryptoMyAsset(id)` succeeds with the value coerced to well-formed UTF-8; so for
every value that is well-formed UTF-8 (quotes, backslashes, control characters, `<`, `>`
and `&` included) Read returns a record whose Value is the value created. -/
theorem create_then_read (stub : Stub σ) (hlaw : stub.KeepsPuts) (id value : GoString)
    (s s1 : σ) (hc : CreateCryptoMyAsset stub id value s = (none, s1)) :
    (CryptoMyAssetExists stub id s1).1 = (true, none)
      ∧ (ReadCryptoMyAsset stub id s1).1 = (some { Value := toValidUTF8 value }, none)
      ∧ (utf8.Valid value = true →
          (ReadCryptoMyAsset stub id s1).1 = (some { Value := value }, none)) := by
  obtain ⟨s0, -, hput⟩ := create_success stub id value s s1 hc
  obtain ⟨h1, h2⟩ := read_after_put stub hlaw id value s0 s1 hput
  refine ⟨h1, h2, ?_⟩
  intro hv
  rw [h2, toValidUTF8_valid value hv]

theorem create_then_read_witness :
    World.stub.KeepsPuts
      ∧ CreateCryptoMyAsset World.stub (lit "a") (lit "q\"b\\c\n<>&é") World.empty
          = (none, (CreateCryptoMyAsset World.stub (lit "a") (lit "q\"b\\c\n<>&é")
              World.empty).2)
      ∧ utf8.Valid (lit "q\"b\\c\n<>&é") = true
      ∧ (ReadCryptoMyAsset World.stub (lit "a")
          (CreateCryptoMyAsset World.stub (lit "a") (lit "q\"b\\c\n<>&é") World.empty).2).1
          = (some { Value := lit "q\"b\\c\n<>&é" }, none) :=
  ⟨World.keepsPuts, rfl, by decide,
    (create_then_read World.stub World.keepsPuts (lit "a") (lit "q\"b\\c\n<>&é")
      World.empty _ rfl).2.2 (by decide)⟩

/-- C4 as stated fails: the value `\xff`, a byte sequence a Go string can hold, is created
with success, and Read then returns U+FFFD (bytes EF BF BD), not the value. -/
theorem create_then_read_ill_formed :
    (CreateCryptoMyAsset World.stub (lit "a") [0xFF] World.empty).1 = none
      ∧ (CryptoMyAssetExists World.stub (lit "a")
          (CreateCryptoMyAsset World.stub (lit "a") [0xFF] World.empty).2).1 = (true, none)
      ∧ (ReadCryptoMyAsset World.stub (lit "a")
          (CreateCryptoMyAsset World.stub (lit "a") [0xFF] World.empty).2).1
          = (some { Value := [0xEF, 0xBF, 0xBD] }, none)
      ∧ (ReadCryptoMyAsset World.stub (lit "a")
          (CreateCryptoMyAsset World.stub (lit "a") [0xFF] World.empty).2).1
          ≠ (some { Value := [0xFF] }, none) := by
  refine ⟨rfl, rfl, rfl, ?_⟩
  decide

/-- C5 (amended). Over a store whose `GetState` returns what was last put, after
`CreateCryptoMyAsset(id, v1)` and then `UpdateCryptoMyAsset(id, newValue)` succeed,
`ReadCryptoMyAsset(id)` returns exactly the record whose Value is `newValue` coerced to
well-formed UTF-8, which is `newValue` itself when that is well-formed UTF-8; `v1` has no
part in the result. -/
theorem update_then_read (stub : Stub σ) (hlaw : stub.KeepsPuts) (id v1 newValue : GoString)
    (s0 s s1 : σ) (_hc : CreateCryptoMyAsset stub id v1 s0 = (none, s))
    (hu : UpdateCryptoMyAsset stub id newValue s = (none, s1)) :
    (ReadCryptoMyAsset stub id s1).1 = (some { Value := toValidUTF8 newValue }, none)
      ∧ (utf8.Valid newValue = true →
          (ReadCryptoMyAsset stub id s1).1 = (some { Value := newValue }, none)) := by
  obtain ⟨bytes, s2, -, hput⟩ := update_success stub id newValue s s1 hu
  obtain ⟨-, h2⟩ := read_after_put stub hlaw id newValue s2 s1 hput
  refine ⟨h2, ?_⟩
  intro hv
  rw [h2, toValidUTF8_valid newValue hv]

theorem update_then_read_witness :
    World.stub.KeepsPuts
      ∧ CreateCryptoMyAsset World.stub (lit "a") (lit "1") World.empty
          = (none, (CreateCryptoMyAsset World.stub (lit "a") (lit "1") World.empty).2)
      ∧ UpdateCryptoMyAsset World.stub (lit "a") (lit "2")
            (CreateCryptoMyAsset World.stub (lit "a") (lit "1") World.empty).2
          = (none, (UpdateCryptoMyAsset World.stub (lit "a") (lit "2")
              (CreateCryptoMyAsset World.stub (lit "a") (lit "1") World.empty).2).2)
      ∧ utf8.Valid (lit "2") = true
      ∧ (ReadCryptoMyAsset World.stub (lit "a")
          (UpdateCryptoMyAsset World.stub (lit "a") (lit "2")
            (CreateCryptoMyAsset World.stub (lit "a") (lit "1") World.empty).2).2).1
          = (some { Value := lit "2" }, none) :=
  ⟨World.keepsPuts, rfl, rfl, by decide,
    (update_then_read World.stub World.keepsPuts (lit "a") (lit "1") (lit "2")
      World.empty _ _ rfl rfl).2 (by decide)⟩

/-- C5 as stated fails: after Create and an Update with the new value `\xff`, both with
success, Read returns U+FFFD (bytes EF BF BD), not the record with the new value. -/
theorem update_then_read_ill_formed :
    (CreateCryptoMyAsset World.stub (lit "a") (lit "1") World.empty).1 = none
      ∧ (UpdateCryptoMyAsset World.stub (lit "a") [0xFF]
          (CreateCryptoMyAsset World.stub (lit "a") (lit "1") World.empty).2).1 = none
      ∧ (ReadCryptoMyAsset World.stub (lit "a")
          (UpdateCryptoMyAsset World.stub (lit "a") [0xFF]
            (CreateCryptoMyAsset World.stub (lit "a") (lit "1") World.empty).2).2).1
          = (some { Value := [0xEF, 0xBF, 0xBD] }, none)
      ∧ (ReadCryptoMyAsset World.stub (lit "a")
          (UpdateCryptoMyAsset World.stub (lit "a") [0xFF]
            (CreateCryptoMyAsset World.stub (lit "a") (lit "1") World.empty).2).2).1
          ≠ (some { Value := [0xFF] }, none) := by
  refine ⟨rfl, rfl, rfl, ?_⟩
  decide

/-- C6. For an id present in the store, over a store whose `DelState` removes the key: if
`DeleteCryptoMyAsset(id)` succeeds then the calls it made are `GetState(id)` and
`DelState(id)`, a following `CryptoMyAssetExists(id)` returns false, and a following
`ReadCryptoMyAsset(id)` fails with `The asset <id> does not exist`. -/
theorem delete_then_absent (stub : Stub σ) (hlaw : stub.DeleteRemoves) (id : GoString)
    (s s1 s2 : σ) (calls : List Call) (bytes : Bytes)
    (hget : stub.GetState id s = ((some bytes, none), s1))
    (hd : DeleteCryptoMyAsset stub id s = (none, s2)) :
    DeleteCryptoMyAsset (recording stub) id (s, calls)
        = (none, (s2, calls ++ [Call.GetState id, Call.DelState id]))
      ∧ (CryptoMyAssetExists stub id s2).1 = (false, none)
      ∧ (ReadCryptoMyAsset stub id s2).1
        = (none, some { Error := lit "The asset " ++ id ++ lit " does not exist" }) := by
  have hdel : stub.DelState id s1 = (none, s2) := by
    simpa [DeleteCryptoMyAsset, CryptoMyAssetExists, hget] using hd
  have hg := hlaw.get_del id s1 s2 hdel
  have he := exists_of_get stub id s2 none hg
  refine ⟨?_, ?_, ?_⟩
  · simp [DeleteCryptoMyAsset, CryptoMyAssetExists, recording, hget, hdel]
  · rw [he]; rfl
  · rw [ReadCryptoMyAsset, he]
    simp [errorf_missing]

theorem delete_then_absent_witness :
    World.stub.DeleteRemoves
      ∧ World.stub.GetState (lit "a") (World.holding (lit "a") (lit "1"))
          = ((some (lit "1"), none), World.holding (lit "a") (lit "1"))
      ∧ DeleteCryptoMyAsset World.stub (lit "a") (World.holding (lit "a") (lit "1"))
          = (none,
              (DeleteCryptoMyAsset World.stub (lit "a") (World.holding (lit "a") (lit "1"))).2)
      ∧ DeleteCryptoMyAsset (recording World.stub) (lit "a")
            (World.holding (lit "a") (lit "1"), [])
          = (none,
              ((DeleteCryptoMyAsset World.stub (lit "a") (World.holding (lit "a") (lit "1"))).2,
                [] ++ [Call.GetState (lit "a"), Call.DelState (lit "a")]))
      ∧ (CryptoMyAssetExists World.stub (lit "a")
          (DeleteCryptoMyAsset World.stub (lit "a") (World.holding (lit "a") (lit "1"))).2).1
          = (false, none)
      ∧ (ReadCryptoMyAsset World.stub (lit "a")
          (DeleteCryptoMyAsset World.stub (lit "a") (World.holding (lit "a") (lit "1"))).2).1
          = (none, some { Error := lit "The asset " ++ lit "a" ++ lit " does not exist" }) :=
  ⟨World.deleteRemoves, rfl, rfl,
    delete_then_absent World.stub World.deleteRemoves (lit "a")
      (World.holding (lit "a") (lit "1")) (World.holding (lit "a") (lit "1")) _ []
      (lit "1") rfl rfl⟩

/-- C3 (amended). For an id present in the store (with any stored bytes) and any value,
`CreateCryptoMyAsset` fails with `The asset <id> already exists`; its only call is the
one `GetState`, so it issues no put, and over a store whose `GetState` returns what was
last put the bytes under the id are as before.  In particular, when the id is present
because `CreateCryptoMyAsset(id, v1)` succeeded, the bytes are those of `v1`, and Read
returns `v1` coerced to well-formed UTF-8: `v1` itself when it is well-formed UTF-8. -/
theorem create_rejects_present (stub : Stub σ) (id value : GoString) (s s1 : σ)
    (calls : List Call) (bytes : Bytes)
    (hget : stub.GetState id s = ((some bytes, none), s1)) :
    CreateCryptoMyAsset (recording stub) id value (s, calls)
        = (some { Error := lit "The asset " ++ id ++ lit " already exists" },
            (s1, calls ++ [Call.GetState id]))
      ∧ (stub.KeepsPuts → (stub.GetState id s1).1 = (some bytes, none))
      ∧ (stub.KeepsPuts → ∀ v1 s0, CreateCryptoMyAsset stub id v1 s0 = (none, s) →
          bytes = (Marshal { Value := v1 }).1
            ∧ (ReadCryptoMyAsset stub id s1).1 = (some { Value := toValidUTF8 v1 }, none)
            ∧ (utf8.Valid v1 = true →
                (ReadCryptoMyAsset stub id s1).1 = (some { Value := v1 }, none))) := by
  have hkeep : stub.KeepsPuts → (stub.GetState id s1).1 = (some bytes, none) := by
    intro hlaw
    have := hlaw.get_get id s
    rwa [hget] at this
  refine ⟨?_, hkeep, ?_⟩
  · simp [CreateCryptoMyAsset, CryptoMyAssetExists, recording, hget, errorf_exists]
  · intro hlaw v1 s0 hc
    obtain ⟨s0', -, hput⟩ := create_success stub id v1 s0 s hc
    have hg := hlaw.get_put id _ s0' s hput
    rw [hget] at hg
    simp at hg
    subst hg
    have hr : (ReadCryptoMyAsset stub id s1).1 = (some { Value := toValidUTF8 v1 }, none) := by
      rw [read_of_get stub hlaw id s1 _ (hkeep hlaw), unmarshal_marshal]
    refine ⟨rfl, hr, ?_⟩
    intro hv
    rw [hr, toValidUTF8_valid v1 hv]

theorem create_rejects_present_witness :
    World.stub.GetState (lit "a")
          (CreateCryptoMyAsset World.stub (lit "a") (lit "1") World.empty).2
        = ((some (Marshal { Value := lit "1" }).1, none),
            (CreateCryptoMyAsset World.stub (lit "a") (lit "1") World.empty).2)
      ∧ World.stub.KeepsPuts
      ∧ CreateCryptoMyAsset World.stub (lit "a") (lit "1") World.empty
          = (none, (CreateCryptoMyAsset World.stub (lit "a") (lit "1") World.empty).2)
      ∧ utf8.Valid (lit "1") = true
      ∧ CreateCryptoMyAsset (recording World.stub) (lit "a") (lit "2")
            ((CreateCryptoMyAsset World.stub (lit "a") (lit "1") World.empty).2, [])
          = (some { Error := lit "The asset " ++ lit "a" ++ lit " already exists" },
              ((CreateCryptoMyAsset World.stub (lit "a") (lit "1") World.empty).2,
                [] ++ [Call.GetState (lit "a")]))
      ∧ (ReadCryptoMyAsset World.stub (lit "a")
          (CreateCryptoMyAsset World.stub (lit "a") (lit "1") World.empty).2).1
          = (some { Value := lit "1" }, none) :=
  ⟨rfl, World.keepsPuts, rfl, by decide,
    (create_rejects_present World.stub (lit "a") (lit "2")
      (CreateCryptoMyAsset World.stub (lit "a") (lit "1") World.empty).2
      (CreateCryptoMyAsset World.stub (lit "a") (lit "1") World.empty).2 []
      (Marshal { Value := lit "1" }).1 rfl).1,
    ((create_rejects_present World.stub (lit "a") (lit "2")
      (CreateCryptoMyAsset World.stub (lit "a") (lit "1") World.empty).2
      (CreateCryptoMyAsset World.stub (lit "a") (lit "1") World.empty).2 []
      (Marshal { Value := lit "1" }).1 rfl).2.2
      World.keepsPuts (lit "1") World.empty rfl).2.2 (by decide)⟩

/-- C3 as stated fails: after `Create(a, \xff)` succeeds, the second Create is rejected
with the already-exists error, but Read returns U+FFFD (bytes EF BF BD), not `\xff`. -/
theorem create_twice_ill_formed :
    (CreateCryptoMyAsset World.stub (lit "a") [0xFF] World.empty).1 = none
      ∧ (CreateCryptoMyAsset World.stub (lit "a") (lit "2")
          (CreateCryptoMyAsset World.stub (lit "a") [0xFF] World.empty).2).1
          = some { Error := lit "The asset a already exists" }
      ∧ (ReadCryptoMyAsset World.stub (lit "a")
          (CreateCryptoMyAsset World.stub (lit "a") (lit "2")
            (CreateCryptoMyAsset World.stub (lit "a") [0xFF] World.empty).2).2).1
          = (some { Value := [0xEF, 0xBF, 0xBD] }, none)
      ∧ (ReadCryptoMyAsset World.stub (lit "a")
          (CreateCryptoMyAsset World.stub (lit "a") (lit "2")
            (CreateCryptoMyAsset World.stub (lit "a") [0xFF] World.empty).2).2).1
          ≠ (some { Value := [0xFF] }, none) := by
  refine ⟨rfl, rfl, rfl, ?_⟩
  decide

/-! ## Stored bytes that the decoder rejects -/

theorem saveError_ne_none (saved : Option UnmarshalError) (err : UnmarshalError) :
    saveError saved err ≠ none := by
  cases saved <;> simp [saveError]

theorem objectMember_snd (d : CryptoMyAsset × Option UnmarshalError) (m : Bytes × Value) :
    (objectMember d m).2 = none ↔ d.2 = none ∧ badMember m = false := by
  obtain ⟨v, e⟩ := d
  obtain ⟨k, j⟩ := m
  unfold objectMember badMember
  rcases hk : unquoteBytes k with _ | key
  · simp [saveError_ne_none]
  · by_cases hf : isFieldValue key = true
    · cases j with
      | string body =>
        rcases hb : unquoteBytes body with _ | str <;> simp [hf, hb, saveError_ne_none]
      | null => simp [hf]
      | bool b => simp [hf, saveError_ne_none]
      | number t => simp [hf, saveError_ne_none]
      | array xs => simp [hf, saveError_ne_none]
      | object ms => simp [hf, saveError_ne_none]
    · simp [hf]

theorem foldl_objectMember_snd (ms : List (Bytes × Value))
    (d : CryptoMyAsset × Option UnmarshalError) :
    (ms.foldl objectMember d).2 = none ↔ d.2 = none ∧ ms.any badMember = false := by
  induction ms generalizing d with
  | nil => simp
  | cons m ms ih =>
    rw [List.foldl_cons, ih, objectMember_snd]
    simp [and_assoc]

/-- The decoder returns an error exactly on the bytes `Undecodable` describes. -/
theorem unmarshal_error_iff (bytes : Bytes) (d : CryptoMyAsset) :
    (Unmarshal (some bytes) d).2 = none ↔ Undecodable bytes = false := by
  unfold Unmarshal Undecodable
  simp only [Option.getD_some]
  rcases checkValid bytes with _ | j
  · simp
  · cases j with
    | object ms => simp [decodeValue, foldl_objectMember_snd]
    | null => simp [decodeValue]
    | bool b => simp [decodeValue]
    | number t => simp [decodeValue]
    | string t => simp [decodeValue]
    | array xs => simp [decodeValue]

theorem decodeFault_ne_notFound (id : GoString) :
    lit "Could not unmarshal world state data to type CryptoMyAsset"
      ≠ lit "The asset " ++ id ++ lit " does not exist" := by
  have h1 : lit "The asset " = 0x54 :: lit "he asset " := rfl
  have h2 : lit "Could not unmarshal world state data to type CryptoMyAsset"
      = 0x43 :: lit "ould not unmarshal world state data to type CryptoMyAsset" := rfl
  rw [h1, h2]
  simp

theorem appendStringLoop_unescaped (fuel : Nat) (v : GoString) (hfuel : v.length ≤ fuel)
    (hv : utf8.Valid v = true) (hs : ∀ b ∈ v, b < 0x80 → htmlSafeSet b = true)
    (h8 : ¬ [0xE2, 0x80, 0xA8] <:+: v) (h9 : ¬ [0xE2, 0x80, 0xA9] <:+: v) :
    appendStringLoop fuel v = v := by
  induction fuel generalizing v with
  | zero =>
    have : v = [] := by simpa using hfuel
    subst this; simp [appendStringLoop]
  | succ fuel ih =>
    rcases v with _ | ⟨b, rest⟩
    · simp [appendStringLoop]
    simp only [List.length_cons] at hfuel
    rw [appendStringLoop]
    by_cases hb : b < 0x80
    · have hsafe := hs b (by simp) hb
      rw [utf8.Valid.eq_def] at hv
      simp only [hb, if_true] at hv
      simp only [hb, hsafe, if_true]
      rw [ih rest (by omega) hv (fun x hx => hs x (by simp [hx]))
        (fun h => h8 (List.infix_cons h)) (fun h => h9 (List.infix_cons h))]
    · obtain ⟨he, hv2⟩ := valid_decode b rest (by omega) hv
      obtain ⟨c, chunk, tail, hsplit, hd, htk, hdr, hl, hx, henc, hdt⟩ :=
        decodeRune_split b rest (by omega) he
      have hlen : tail.length + chunk.length = rest.length + 1 := by
        have := congrArg List.length hsplit
        simp at this; omega
      rw [hd] at hv2
      simp only [hdr] at hv2
      rw [decodeRune_take4]
      simp only [hb, if_false]
      rw [hd]
      have hc : ¬ (c = utf8.RuneError ∧ chunk.length = 1) := by omega
      have hpre : chunk <:+: b :: rest := by
        rw [hsplit]; exact (List.prefix_append chunk tail).isInfix
      have hc2 : ¬ (c = 0x2028 ∨ c = 0x2029) := by
        rintro (rfl | rfl)
        · have : utf8.EncodeRune 0x2028 = [0xE2, 0x80, 0xA8] := by decide
          rw [this] at henc; rw [← henc] at hpre; exact h8 hpre
        · have : utf8.EncodeRune 0x2029 = [0xE2, 0x80, 0xA9] := by decide
          rw [this] at henc; rw [← henc] at hpre; exact h9 hpre
      simp only [hc, hc2, if_false, htk, hdr]
      have hsuf : tail <:+: b :: rest := by
        rw [hsplit]; exact (List.suffix_append chunk tail).isInfix
      rw [ih tail (by omega) hv2 (fun x hx => hs x (hsuf.subset hx))
        (fun h => h8 (h.trans hsuf)) (fun h => h9 (h.trans hsuf)), hsplit]

/-- C10 (amended). For an absent id, `CreateCryptoMyAsset(id, value)` makes exactly one
`PutState` call, with key `id` and the bytes `json.Marshal` writes for the record; for a
present id, `UpdateCryptoMyAsset(id, value)` makes exactly one `PutState` call with the
same key and bytes.  The bytes are a JSON object with the single member `value`, a string
that denotes the value.  For a value made only of characters the encoder does not escape
(well-formed UTF-8 with no control character, quotation mark, backslash, `<`, `>`, `&`,
U+2028 or U+2029), they are an opening brace, `"value":"`, the value, `"` and a closing
brace, with no space (so for `some value`); the result of either operation is that of the
`PutState`. -/
theorem put_bytes (stub : Stub σ) (id value : GoString) (s s1 : σ) (calls : List Call) :
    (stub.GetState id s = ((none, none), s1) →
        CreateCryptoMyAsset (recording stub) id value (s, calls)
          = ((stub.PutState id (Marshal { Value := value }).1 s1).1,
              ((stub.PutState id (Marshal { Value := value }).1 s1).2,
                calls ++ [Call.GetState id,
                  Call.PutState id (Marshal { Value := value }).1])))
      ∧ (∀ bytes, stub.GetState id s = ((some bytes, none), s1) →
        UpdateCryptoMyAsset (recording stub) id value (s, calls)
          = ((stub.PutState id (Marshal { Value := value }).1 s1).1,
              ((stub.PutState id (Marshal { Value := value }).1 s1).2,
                calls ++ [Call.GetState id,
                  Call.PutState id (Marshal { Value := value }).1])))
      ∧ checkValid (Marshal { Value := value }).1
          = some (.object [(lit "value", .string (appendStringLoop value.length value))])
      ∧ unquoteBytes (appendStringLoop value.length value) = some (toValidUTF8 value)
      ∧ (Unescaped value →
          (Marshal { Value := value }).1 = lit "\x7b\"value\":\"" ++ value ++ lit "\"\x7d")
      ∧ (Marshal { Value := lit "some value" }).1 = lit "\x7b\"value\":\"some value\"\x7d" := by
  refine ⟨?_, ?_, ?_, ?_, ?_, by decide⟩
  · intro hget
    simp [CreateCryptoMyAsset, CryptoMyAssetExists, recording, hget]
  · intro bytes hget
    simp [UpdateCryptoMyAsset, CryptoMyAssetExists, recording, hget]
  · simp only [Marshal, appendString]
    exact checkValid_object _ (stringBody_appendStringLoop _ _)
  · rw [unquoteBytes_eq_loop]
    exact unquoteLoop_appendStringLoop _ _ _ (le_refl _) (le_refl _)
  · rintro ⟨hv, hs, h8, h9⟩
    have h1 : lit "\x7b\"value\":\"" = lit "\x7b\"value\":" ++ [0x22] := rfl
    have h2 : lit "\"\x7d" = [0x22] ++ lit "\x7d" := rfl
    simp only [Marshal, appendString, appendStringLoop_unescaped _ _ (le_refl _) hv hs h8 h9,
      h1, h2]
    simp

theorem put_bytes_witness :
    configureStub.GetState (lit "missingkey") () = ((none, none), ())
      ∧ configureStub.GetState (lit "cryptoMyAssetkey") ()
          = ((some (Marshal { Value := lit "set value" }).1, none), ())
      ∧ Unescaped (lit "some value")
      ∧ CreateCryptoMyAsset (recording configureStub) (lit "missingkey") (lit "some value")
            ((), [])
          = ((configureStub.PutState (lit "missingkey")
                (Marshal { Value := lit "some value" }).1 ()).1,
              ((configureStub.PutState (lit "missingkey")
                (Marshal { Value := lit "some value" }).1 ()).2,
                [] ++ [Call.GetState (lit "missingkey"),
                  Call.PutState (lit "missingkey") (Marshal { Value := lit "some value" }).1]))
      ∧ UpdateCryptoMyAsset (recording configureStub) (lit "cryptoMyAssetkey")
            (lit "new value") ((), [])
          = ((configureStub.PutState (lit "cryptoMyAssetkey")
                (Marshal { Value := lit "new value" }).1 ()).1,
              ((configureStub.PutState (lit "cryptoMyAssetkey")
                (Marshal { Value := lit "new value" }).1 ()).2,
                [] ++ [Call.GetState (lit "cryptoMyAssetkey"),
                  Call.PutState (lit "cryptoMyAssetkey")
                    (Marshal { Value := lit "new value" }).1]))
      ∧ (Marshal { Value := lit "some value" }).1
          = lit "\x7b\"value\":\"" ++ lit "some value" ++ lit "\"\x7d" :=
  have hu : Unescaped (lit "some value") := ⟨by decide, by decide, by decide, by decide⟩
  ⟨rfl, rfl, hu,
    (put_bytes configureStub (lit "missingkey") (lit "some value") () () []).1 rfl,
    (put_bytes configureStub (lit "cryptoMyAssetkey") (lit "new value") () () []).2.1 _ rfl,
    (put_bytes configureStub (lit "missingkey") (lit "some value") () () []).2.2.2.2.1 hu⟩

/-! ## Stores with contents, and stores with faults -/

theorem World.stores : World.stub.Stores (fun w => w) where
  get_view := by intro key s; rfl
  get_ok := by intro key s _; rfl
  put_ok := by intro key value s _; rfl
  put_fail := by intro key value s h; simp [World.stub] at h
  del_ok := by intro key s _; rfl
  del_fail := by intro key s h; simp [World.stub] at h

theorem Faulty.faultyStores : Faulty.stub.Stores (fun s => s.1) where
  get_view := by
    rintro key ⟨w, _ | ⟨_ | e, rest⟩⟩ <;> rfl
  get_ok := by
    rintro key ⟨w, _ | ⟨_ | e, rest⟩⟩ h
    · rfl
    · rfl
    · simp [Faulty.stub] at h
  put_ok := by
    rintro key value ⟨w, _ | ⟨_ | e, rest⟩⟩ h
    · rfl
    · rfl
    · simp [Faulty.stub] at h
  put_fail := by
    rintro key value ⟨w, _ | ⟨_ | e, rest⟩⟩ h
    · simp [Faulty.stub] at h
    · simp [Faulty.stub] at h
    · rfl
  del_ok := by
    rintro key ⟨w, _ | ⟨_ | e, rest⟩⟩ h
    · rfl
    · rfl
    · simp [Faulty.stub] at h
  del_fail := by
    rintro key ⟨w, _ | ⟨_ | e, rest⟩⟩ h
    · simp [Faulty.stub] at h
    · simp [Faulty.stub] at h
    · rfl

/-! ## The write after the guard -/

/-- C18. Once the existence guard has passed, the operation returns what its one write
returns: for an absent id `CreateCryptoMyAsset` returns what `PutState(id, bytes)` returns,
for a present id `UpdateCryptoMyAsset` returns what `PutState` returns and
`DeleteCryptoMyAsset` what `DelState(id)` returns.  So a fault `e` of the write is
returned as `e` itself, with no text added, and the operation succeeds exactly when the
write does. -/
theorem write_result (stub : Stub σ) (id value : GoString) (s s1 : σ) :
    (stub.GetState id s = ((none, none), s1) →
        CreateCryptoMyAsset stub id value s
            = stub.PutState id (Marshal { Value := value }).1 s1
          ∧ (∀ e, (stub.PutState id (Marshal { Value := value }).1 s1).1 = some e →
              (CreateCryptoMyAsset stub id value s).1 = some e)
          ∧ ((CreateCryptoMyAsset stub id value s).1 = none
              ↔ (stub.PutState id (Marshal { Value := value }).1 s1).1 = none))
      ∧ (∀ bytes, stub.GetState id s = ((some bytes, none), s1) →
        UpdateCryptoMyAsset stub id value s
            = stub.PutState id (Marshal { Value := value }).1 s1
          ∧ DeleteCryptoMyAsset stub id s = stub.DelState id s1
          ∧ (∀ e, (stub.PutState id (Marshal { Value := value }).1 s1).1 = some e →
              (UpdateCryptoMyAsset stub id value s).1 = some e)
          ∧ (∀ e, (stub.DelState id s1).1 = some e →
              (DeleteCryptoMyAsset stub id s).1 = some e)
          ∧ ((UpdateCryptoMyAsset stub id value s).1 = none
              ↔ (stub.PutState id (Marshal { Value := value }).1 s1).1 = none)
          ∧ ((DeleteCryptoMyAsset stub id s).1 = none ↔ (stub.DelState id s1).1 = none)) := by
  constructor
  · intro hget
    have h : CreateCryptoMyAsset stub id value s
        = stub.PutState id (Marshal { Value := value }).1 s1 := by
      simp [CreateCryptoMyAsset, CryptoMyAssetExists, hget]
    refine ⟨h, ?_, ?_⟩
    · intro e he; rw [h]; exact he
    · rw [h]
  · intro bytes hget
    have hu : UpdateCryptoMyAsset stub id value s
        = stub.PutState id (Marshal { Value := value }).1 s1 := by
      simp [UpdateCryptoMyAsset, CryptoMyAssetExists, hget]
    have hd : DeleteCryptoMyAsset stub id s = stub.DelState id s1 := by
      simp [DeleteCryptoMyAsset, CryptoMyAssetExists, hget]
    refine ⟨hu, hd, ?_, ?_, ?_, ?_⟩
    · intro e he; rw [hu]; exact he
    · intro e he; rw [hd]; exact he
    · rw [hu]
    · rw [hd]

theorem write_result_witness :
    Faulty.stub.GetState (lit "a")
        (World.empty, [none, some { Error := lit "put fault" }])
        = ((none, none), (World.empty, [some { Error := lit "put fault" }]))
      ∧ (Faulty.stub.PutState (lit "a") (Marshal { Value := lit "1" }).1
          (World.empty, [some { Error := lit "put fault" }])).1
          = some { Error := lit "put fault" }
      ∧ (CreateCryptoMyAsset Faulty.stub (lit "a") (lit "1")
          (World.empty, [none, some { Error := lit "put fault" }])).1
          = some { Error := lit "put fault" }
      ∧ Faulty.stub.GetState (lit "a")
          (World.holding (lit "a") (lit "x"), [none, some { Error := lit "del fault" }])
        = ((some (lit "x"), none),
            (World.holding (lit "a") (lit "x"), [some { Error := lit "del fault" }]))
      ∧ (DeleteCryptoMyAsset Faulty.stub (lit "a")
          (World.holding (lit "a") (lit "x"), [none, some { Error := lit "del fault" }])).1
          = some { Error := lit "del fault" } :=
  ⟨rfl, rfl,
    ((write_result Faulty.stub (lit "a") (lit "1")
      (World.empty, [none, some { Error := lit "put fault" }])
      (World.empty, [some { Error := lit "put fault" }])).1 rfl).2.1 _ rfl,
    rfl,
    ((write_result Faulty.stub (lit "a") (lit "1")
      (World.holding (lit "a") (lit "x"), [none, some { Error := lit "del fault" }])
      (World.holding (lit "a") (lit "x"), [some { Error := lit "del fault" }])).2
        (lit "x") rfl).2.2.2.1 _ rfl⟩

/-- C12 (amended). `CreateCryptoMyAsset` makes exactly one `PutState` call when it
returns success.  When it returns a failure, either the failure comes from the guard (a
`GetState` fault, or the id is present) and no `PutState` call was made, or the one
`PutState` call was made and the failure is the error that call returned. -/
theorem create_put_calls (stub : Stub σ) (id value : GoString) (s : σ) (calls : List Call) :
    ((CreateCryptoMyAsset (recording stub) id value (s, calls)).1 = none →
        (CreateCryptoMyAsset (recording stub) id value (s, calls)).2.2
          = calls ++ [Call.GetState id, Call.PutState id (Marshal { Value := value }).1])
      ∧ (∀ e, (CreateCryptoMyAsset (recording stub) id value (s, calls)).1 = some e →
        ((stub.GetState id s).1 ≠ (none, none)
            ∧ (CreateCryptoMyAsset (recording stub) id value (s, calls)).2.2
              = calls ++ [Call.GetState id])
          ∨ ((stub.GetState id s).1 = (none, none)
            ∧ (stub.PutState id (Marshal { Value := value }).1 (stub.GetState id s).2).1
              = some e
            ∧ (CreateCryptoMyAsset (recording stub) id value (s, calls)).2.2
              = calls ++ [Call.GetState id,
                  Call.PutState id (Marshal { Value := value }).1])) := by
  rcases hg : stub.GetState id s with ⟨⟨data, err⟩, s1⟩
  rcases err with _ | e0
  · rcases data with _ | bytes
    · constructor
      · intro _
        simp [CreateCryptoMyAsset, CryptoMyAssetExists, recording, hg]
      · intro e he
        right
        simpa [CreateCryptoMyAsset, CryptoMyAssetExists, recording, hg] using he
    · constructor
      · intro h
        simp [CreateCryptoMyAsset, CryptoMyAssetExists, recording, hg, fmt.Errorf] at h
      · intro e _
        left
        simp [CreateCryptoMyAsset, CryptoMyAssetExists, recording, hg]
  · constructor
    · intro h
      simp [CreateCryptoMyAsset, CryptoMyAssetExists, recording, hg, fmt.Errorf] at h
    · intro e _
      left
      simp [CreateCryptoMyAsset, CryptoMyAssetExists, recording, hg]

theorem create_put_calls_witness :
    (CreateCryptoMyAsset (recording World.stub) (lit "a") (lit "1") (World.empty, [])).1 = none
      ∧ (CreateCryptoMyAsset (recording World.stub) (lit "a") (lit "1")
          (World.empty, [])).2.2
          = [] ++ [Call.GetState (lit "a"),
              Call.PutState (lit "a") (Marshal { Value := lit "1" }).1] :=
  ⟨rfl, (create_put_calls World.stub (lit "a") (lit "1") World.empty []).1 rfl⟩

/-- C12 as stated fails: when the guard passes and the `PutState` call itself fails,
`CreateCryptoMyAsset` returns a failure, and a `PutState` call was made. -/
theorem create_fails_after_put :
    (CreateCryptoMyAsset (recording Faulty.stub) (lit "a") (lit "1")
        ((World.empty, [none, some { Error := lit "put fault" }]), [])).1
        = some { Error := lit "put fault" }
      ∧ (CreateCryptoMyAsset (recording Faulty.stub) (lit "a") (lit "1")
          ((World.empty, [none, some { Error := lit "put fault" }]), [])).2.2
        = [Call.GetState (lit "a"),
            Call.PutState (lit "a") (Marshal { Value := lit "1" }).1] := by
  exact ⟨rfl, rfl⟩

/-- C11. Over a store in which a `PutState` or `DelState` that fails leaves the contents
unchanged: when Create, Update or Delete returns a failure, of any kind, the contents
of the store after the call are those before it; and when it succeeds its write is
applied: the id then holds the bytes written, or nothing after Delete, which is what a
later `GetState` that succeeds returns. -/
theorem all_or_nothing (stub : Stub σ) (view : σ → World) (hlaw : stub.Stores view)
    (id value : GoString) (s : σ) :
    (∀ e s1, CreateCryptoMyAsset stub id value s = (some e, s1) → view s1 = view s)
      ∧ (∀ e s1, UpdateCryptoMyAsset stub id value s = (some e, s1) → view s1 = view s)
      ∧ (∀ e s1, DeleteCryptoMyAsset stub id s = (some e, s1) → view s1 = view s)
      ∧ (∀ s1, CreateCryptoMyAsset stub id value s = (none, s1) →
          view s1 id = some (Marshal { Value := value }).1
            ∧ ((stub.GetState id s1).1.2 = none →
                (stub.GetState id s1).1.1 = some (Marshal { Value := value }).1))
      ∧ (∀ s1, UpdateCryptoMyAsset stub id value s = (none, s1) →
          view s1 id = some (Marshal { Value := value }).1
            ∧ ((stub.GetState id s1).1.2 = none →
                (stub.GetState id s1).1.1 = some (Marshal { Value := value }).1))
      ∧ (∀ s1, DeleteCryptoMyAsset stub id s = (none, s1) →
          view s1 id = none
            ∧ ((stub.GetState id s1).1.2 = none → (stub.GetState id s1).1.1 = none)) := by
  have hv := hlaw.get_view id s
  rcases hg : stub.GetState id s with ⟨⟨data, err⟩, s0⟩
  rw [hg] at hv
  simp only at hv
  have hput_fail : ∀ bytes e s1, stub.PutState id bytes s0 = (some e, s1) → view s1 = view s := by
    intro bytes e s1 h
    have := hlaw.put_fail id bytes s0 (by rw [h]; simp)
    rw [h] at this
    rw [this, hv]
  have hput_ok : ∀ bytes s1, stub.PutState id bytes s0 = (none, s1) →
      view s1 id = some bytes
        ∧ ((stub.GetState id s1).1.2 = none → (stub.GetState id s1).1.1 = some bytes) := by
    intro bytes s1 h
    have := hlaw.put_ok id bytes s0 (by rw [h])
    rw [h] at this
    have h1 : view s1 id = some bytes := by rw [this]; simp
    exact ⟨h1, fun hok => by rw [hlaw.get_ok id s1 hok, h1]⟩
  have hdel_fail : ∀ e s1, stub.DelState id s0 = (some e, s1) → view s1 = view s := by
    intro e s1 h
    have := hlaw.del_fail id s0 (by rw [h]; simp)
    rw [h] at this
    rw [this, hv]
  have hdel_ok : ∀ s1, stub.DelState id s0 = (none, s1) →
      view s1 id = none
        ∧ ((stub.GetState id s1).1.2 = none → (stub.GetState id s1).1.1 = none) := by
    intro s1 h
    have := hlaw.del_ok id s0 (by rw [h])
    rw [h] at this
    have h1 : view s1 id = none := by rw [this]; simp
    exact ⟨h1, fun hok => by rw [hlaw.get_ok id s1 hok, h1]⟩
  rcases err with _ | e0
  · rcases data with _ | bytes
    · refine ⟨?_, ?_, ?_, ?_, ?_, ?_⟩
      · intro e s1 h
        exact hput_fail _ e s1
          (by simpa [CreateCryptoMyAsset, CryptoMyAssetExists, hg] using h)
      · intro e s1 h
        simp [UpdateCryptoMyAsset, CryptoMyAssetExists, hg] at h
        rw [← h.2, hv]
      · intro e s1 h
        simp [DeleteCryptoMyAsset, CryptoMyAssetExists, hg] at h
        rw [← h.2, hv]
      · intro s1 h
        exact hput_ok _ s1 (by simpa [CreateCryptoMyAsset, CryptoMyAssetExists, hg] using h)
      · intro s1 h
        simp [UpdateCryptoMyAsset, CryptoMyAssetExists, hg, fmt.Errorf] at h
      · intro s1 h
        simp [DeleteCryptoMyAsset, CryptoMyAssetExists, hg, fmt.Errorf] at h
    · refine ⟨?_, ?_, ?_, ?_, ?_, ?_⟩
      · intro e s1 h
        simp [CreateCryptoMyAsset, CryptoMyAssetExists, hg] at h
        rw [← h.2, hv]
      · intro e s1 h
        exact hput_fail _ e s1
          (by simpa [UpdateCryptoMyAsset, CryptoMyAssetExists, hg] using h)
      · intro e s1 h
        exact hdel_fail e s1
          (by simpa [DeleteCryptoMyAsset, CryptoMyAssetExists, hg] using h)
      · intro s1 h
        simp [CreateCryptoMyAsset, CryptoMyAssetExists, hg, fmt.Errorf] at h
      · intro s1 h
        exact hput_ok _ s1 (by simpa [UpdateCryptoMyAsset, CryptoMyAssetExists, hg] using h)
      · intro s1 h
        exact hdel_ok s1 (by simpa [DeleteCryptoMyAsset, CryptoMyAssetExists, hg] using h)
  · refine ⟨?_, ?_, ?_, ?_, ?_, ?_⟩
    · intro e s1 h
      simp [CreateCryptoMyAsset, CryptoMyAssetExists, hg] at h
      rw [← h.2, hv]
    · intro e s1 h
      simp [UpdateCryptoMyAsset, CryptoMyAssetExists, hg] at h
      rw [← h.2, hv]
    · intro e s1 h
      simp [DeleteCryptoMyAsset, CryptoMyAssetExists, hg] at h
      rw [← h.2, hv]
    · intro s1 h
      simp [CreateCryptoMyAsset, CryptoMyAssetExists, hg, fmt.Errorf] at h
    · intro s1 h
      simp [UpdateCryptoMyAsset, CryptoMyAssetExists, hg, fmt.Errorf] at h
    · intro s1 h
      simp [DeleteCryptoMyAsset, CryptoMyAssetExists, hg, fmt.Errorf] at h

theorem all_or_nothing_witness :
    Faulty.stub.Stores (fun s => s.1)
      ∧ CreateCryptoMyAsset Faulty.stub (lit "a") (lit "1")
          (World.empty, [none, some { Error := lit "put fault" }])
        = (some { Error := lit "put fault" }, (World.empty, []))
      ∧ (fun s : Faulty => s.1) (World.empty, [])
        = (fun s : Faulty => s.1) (World.empty, [none, some { Error := lit "put fault" }])
      ∧ CreateCryptoMyAsset Faulty.stub (lit "a") (lit "1") (World.empty, [])
        = (none, (CreateCryptoMyAsset Faulty.stub (lit "a") (lit "1") (World.empty, [])).2)
      ∧ (fun s : Faulty => s.1)
          (CreateCryptoMyAsset Faulty.stub (lit "a") (lit "1") (World.empty, [])).2 (lit "a")
        = some (Marshal { Value := lit "1" }).1 :=
  ⟨Faulty.faultyStores, rfl,
    (all_or_nothing Faulty.stub (fun s => s.1) Faulty.faultyStores (lit "a") (lit "1")
      (World.empty, [none, some { Error := lit "put fault" }])).1 _ _ rfl,
    rfl,
    ((all_or_nothing Faulty.stub (fun s => s.1) Faulty.faultyStores (lit "a") (lit "1")
      (World.empty, [])).2.2.2.1 _ rfl).1⟩

/-- C13 fails on the second `GetState` of `ReadCryptoMyAsset`: when the guard's `GetState`
finds a marshalled asset and the second `GetState` fails with `world state get error`,
Read returns the could-not-unmarshal error, in which the text of the fault does not
occur. -/
theorem read_swallows_second_fault :
    ReadCryptoMyAsset Faulty.stub (lit "a")
        (World.holding (lit "a") (Marshal { Value := lit "1" }).1,
          [none, some { Error := lit "world state get error" }])
      = ((none, some
          { Error := lit "Could not unmarshal world state data to type CryptoMyAsset" }),
          (World.holding (lit "a") (Marshal { Value := lit "1" }).1, []))
      ∧ ¬ lit "world state get error"
          <:+: lit "Could not unmarshal world state data to type CryptoMyAsset" := by
  refine ⟨rfl, ?_⟩
  decide

/-- C15. On a store without faults that starts empty: `Create(a, 1)` succeeds, then
`Exists(a)` returns true, `Read(a)` returns the record with value `1`, `Update(a, 2)`
succeeds, `Read(a)` returns the record with value `2`, `Delete(a)` succeeds, and
`Exists(a)` returns false. -/
theorem lifecycle :
    (CreateCryptoMyAsset World.stub (lit "a") (lit "1") World.empty).1 = none
      ∧ (CryptoMyAssetExists World.stub (lit "a")
          (CreateCryptoMyAsset World.stub (lit "a") (lit "1") World.empty).2).1
        = (true, none)
      ∧ (ReadCryptoMyAsset World.stub (lit "a")
          (CryptoMyAssetExists World.stub (lit "a")
            (CreateCryptoMyAsset World.stub (lit "a") (lit "1") World.empty).2).2).1
        = (some { Value := lit "1" }, none)
      ∧ (UpdateCryptoMyAsset World.stub (lit "a") (lit "2")
          (ReadCryptoMyAsset World.stub (lit "a")
            (CryptoMyAssetExists World.stub (lit "a")
              (CreateCryptoMyAsset World.stub (lit "a") (lit "1") World.empty).2).2).2).1
        = none
      ∧ (ReadCryptoMyAsset World.stub (lit "a")
          (UpdateCryptoMyAsset World.stub (lit "a") (lit "2")
            (ReadCryptoMyAsset World.stub (lit "a")
              (CryptoMyAssetExists World.stub (lit "a")
                (CreateCryptoMyAsset World.stub (lit "a") (lit "1") World.empty).2).2).2).2).1
        = (some { Value := lit "2" }, none)
      ∧ (DeleteCryptoMyAsset World.stub (lit "a")
          (ReadCryptoMyAsset World.stub (lit "a")
            (UpdateCryptoMyAsset World.stub (lit "a") (lit "2")
              (ReadCryptoMyAsset World.stub (lit "a")
                (CryptoMyAssetExists World.stub (lit "a")
                  (CreateCryptoMyAsset World.stub (lit "a") (lit "1")
                    World.empty).2).2).2).2).2).1
        = none
      ∧ (CryptoMyAssetExists World.stub (lit "a")
          (DeleteCryptoMyAsset World.stub (lit "a")
            (ReadCryptoMyAsset World.stub (lit "a")
              (UpdateCryptoMyAsset World.stub (lit "a") (lit "2")
                (ReadCryptoMyAsset World.stub (lit "a")
                  (CryptoMyAssetExists World.stub (lit "a")
                    (CreateCryptoMyAsset World.stub (lit "a") (lit "1")
                      World.empty).2).2).2).2).2).2).1
        = (false, none) :=
  ⟨rfl, rfl, rfl, rfl, rfl, rfl, rfl⟩

/-- C17. Over a store in which a `GetState` does not change what the next `GetState` of
the key returns, `ReadCryptoMyAsset`, which fetches twice, returns what the single-fetch
reader returns: the wrapped store fault if `GetState` failed, else the does-not-exist
error if no value is there, else the could-not-unmarshal error if the bytes do not
decode, else the decoded record.  Where `GetState` leaves the state as it is, the two
leave the same state too. -/
theorem read_single_fetch (stub : Stub σ) (id : GoString) (s : σ)
    (hstable : ∀ key s, (stub.GetState key (stub.GetState key s).2).1
      = (stub.GetState key s).1) :
    (ReadCryptoMyAsset stub id s).1 = (ReadSingleFetch stub id s).1
      ∧ ((∀ key s, (stub.GetState key s).2 = s) →
          ReadCryptoMyAsset stub id s = ReadSingleFetch stub id s) := by
  have h2 := hstable id s
  rcases hg : stub.GetState id s with ⟨⟨data, err⟩, s1⟩
  rw [hg] at h2
  simp only at h2
  rcases err with _ | e
  · rcases data with _ | bytes
    · simp [ReadCryptoMyAsset, ReadSingleFetch, CryptoMyAssetExists, hg]
    · rcases hg2 : stub.GetState id s1 with ⟨⟨data2, err2⟩, s2⟩
      rw [hg2] at h2
      simp at h2
      obtain ⟨rfl, rfl⟩ := h2
      constructor
      · simp only [ReadCryptoMyAsset, ReadSingleFetch, CryptoMyAssetExists, hg, hg2,
          Option.isSome_some]
        rcases Unmarshal (some bytes) { Value := [] } with ⟨v, _ | e⟩ <;> rfl
      · intro hpure
        have e1 := hpure id s
        have e2 := hpure id s1
        rw [hg] at e1
        rw [hg2] at e2
        simp only at e1 e2
        subst e1
        subst e2
        simp only [ReadCryptoMyAsset, ReadSingleFetch, CryptoMyAssetExists, hg,
          Option.isSome_some]
  · simp [ReadCryptoMyAsset, ReadSingleFetch, CryptoMyAssetExists, hg]

theorem read_single_fetch_witness :
    (∀ key s, (configureStub.GetState key (configureStub.GetState key s).2).1
        = (configureStub.GetState key s).1)
      ∧ (ReadCryptoMyAsset configureStub (lit "cryptoMyAssetkey") ()).1
        = (ReadSingleFetch configureStub (lit "cryptoMyAssetkey") ()).1
      ∧ (ReadSingleFetch configureStub (lit "cryptoMyAssetkey") ()).1
        = (some { Value := lit "set value" }, none) :=
  ⟨fun _ _ => rfl,
    (read_single_fetch configureStub (lit "cryptoMyAssetkey") () (fun _ _ => rfl)).1, rfl⟩

/-! ## The calls of each operation, and the contents of the store after it -/

theorem calls_of (stub : Stub σ) (id value : GoString) (s : σ) (calls : List Call) :
    (CryptoMyAssetExists (recording stub) id (s, calls)).2.2 = calls ++ [Call.GetState id]
      ∧ ((ReadCryptoMyAsset (recording stub) id (s, calls)).2.2 = calls ++ [Call.GetState id]
        ∨ (ReadCryptoMyAsset (recording stub) id (s, calls)).2.2
          = calls ++ [Call.GetState id, Call.GetState id])
      ∧ ((CreateCryptoMyAsset (recording stub) id value (s, calls)).2.2
          = calls ++ [Call.GetState id]
        ∨ (CreateCryptoMyAsset (recording stub) id value (s, calls)).2.2
          = calls ++ [Call.GetState id, Call.PutState id (Marshal { Value := value }).1])
      ∧ ((UpdateCryptoMyAsset (recording stub) id value (s, calls)).2.2
          = calls ++ [Call.GetState id]
        ∨ (UpdateCryptoMyAsset (recording stub) id value (s, calls)).2.2
          = calls ++ [Call.GetState id, Call.PutState id (Marshal { Value := value }).1])
      ∧ ((DeleteCryptoMyAsset (recording stub) id (s, calls)).2.2
          = calls ++ [Call.GetState id]
        ∨ (DeleteCryptoMyAsset (recording stub) id (s, calls)).2.2
          = calls ++ [Call.GetState id, Call.DelState id]) := by
  rcases hg : stub.GetState id s with ⟨⟨data, err⟩, s1⟩
  rcases err with _ | e
  · rcases data with _ | bytes
    · simp [CryptoMyAssetExists, ReadCryptoMyAsset, CreateCryptoMyAsset, UpdateCryptoMyAsset,
        DeleteCryptoMyAsset, recording, hg]
    · refine ⟨?_, ?_, ?_, ?_, ?_⟩
      · simp [CryptoMyAssetExists, recording, hg]
      · right
        simp only [ReadCryptoMyAsset, CryptoMyAssetExists, recording, hg, Option.isSome_some]
        rcases Unmarshal (stub.GetState id s1).1.1 { Value := [] } with ⟨v, _ | e⟩ <;> simp
      · simp [CryptoMyAssetExists, CreateCryptoMyAsset, recording, hg]
      · simp [CryptoMyAssetExists, UpdateCryptoMyAsset, recording, hg]
      · simp [CryptoMyAssetExists, DeleteCryptoMyAsset, recording, hg]
  · simp [CryptoMyAssetExists, ReadCryptoMyAsset, CreateCryptoMyAsset, UpdateCryptoMyAsset,
      DeleteCryptoMyAsset, recording, hg]

theorem view_after (stub : Stub σ) (view : σ → World) (hlaw : stub.Stores view)
    (id value : GoString) (s : σ) :
    view (CryptoMyAssetExists stub id s).2 = view s
      ∧ view (ReadCryptoMyAsset stub id s).2 = view s
      ∧ (view (CreateCryptoMyAsset stub id value s).2 = view s
        ∨ view (CreateCryptoMyAsset stub id value s).2
          = fun k => if k = id then some (Marshal { Value := value }).1 else view s k)
      ∧ (view (UpdateCryptoMyAsset stub id value s).2 = view s
        ∨ view (UpdateCryptoMyAsset stub id value s).2
          = fun k => if k = id then some (Marshal { Value := value }).1 else view s k)
      ∧ (view (DeleteCryptoMyAsset stub id s).2 = view s
        ∨ view (DeleteCryptoMyAsset stub id s).2
          = fun k => if k = id then none else view s k) := by
  have hv := hlaw.get_view id s
  rcases hg : stub.GetState id s with ⟨⟨data, err⟩, s1⟩
  rw [hg] at hv
  simp only at hv
  have hput : ∀ bytes, view (stub.PutState id bytes s1).2 = view s
      ∨ view (stub.PutState id bytes s1).2 = fun k => if k = id then some bytes else view s k := by
    intro bytes
    by_cases h : (stub.PutState id bytes s1).1 = none
    · right; rw [hlaw.put_ok id bytes s1 h, hv]
    · left; rw [hlaw.put_fail id bytes s1 h, hv]
  have hdel : view (stub.DelState id s1).2 = view s
      ∨ view (stub.DelState id s1).2 = fun k => if k = id then none else view s k := by
    by_cases h : (stub.DelState id s1).1 = none
    · right; rw [hlaw.del_ok id s1 h, hv]
    · left; rw [hlaw.del_fail id s1 h, hv]
  rcases err with _ | e
  · rcases data with _ | bytes
    · refine ⟨?_, ?_, ?_, ?_, ?_⟩
      · simp [CryptoMyAssetExists, hg, hv]
      · simp [ReadCryptoMyAsset, CryptoMyAssetExists, hg, hv]
      · simpa [CreateCryptoMyAsset, CryptoMyAssetExists, hg] using hput _
      · simp [UpdateCryptoMyAsset, CryptoMyAssetExists, hg, hv]
      · simp [DeleteCryptoMyAsset, CryptoMyAssetExists, hg, hv]
    · refine ⟨?_, ?_, ?_, ?_, ?_⟩
      · simp [CryptoMyAssetExists, hg, hv]
      · have hv2 := hlaw.get_view id s1
        simp only [ReadCryptoMyAsset, CryptoMyAssetExists, hg, Option.isSome_some]
        rcases Unmarshal (stub.GetState id s1).1.1 { Value := [] } with ⟨v, _ | e⟩ <;>
          simp [hv2, hv]
      · simp [CreateCryptoMyAsset, CryptoMyAssetExists, hg, hv]
      · simpa [UpdateCryptoMyAsset, CryptoMyAssetExists, hg] using hput _
      · simpa [DeleteCryptoMyAsset, CryptoMyAssetExists, hg] using hdel
  · simp [CryptoMyAssetExists, ReadCryptoMyAsset, CreateCryptoMyAsset, UpdateCryptoMyAsset,
      DeleteCryptoMyAsset, hg, hv]

theorem canonical_put (w : World) (id value : GoString) (hc : w.Canonical) :
    World.Canonical (fun k => if k = id then some (Marshal { Value := value }).1 else w k) := by
  intro key bytes h
  by_cases hk : key = id
  · simp [hk] at h
    exact ⟨{ Value := value }, h.symm⟩
  · simp [hk] at h
    exact hc key bytes h

theorem canonical_del (w : World) (id : GoString) (hc : w.Canonical) :
    World.Canonical (fun k => if k = id then none else w k) := by
  intro key bytes h
  by_cases hk : key = id
  · simp [hk] at h
  · simp [hk] at h
    exact hc key bytes h

/-- C14. Over a store in which a write that fails leaves the contents unchanged: if every
value held in the store is the serialization of a Record, then so is every value held
after one call of Exists, Create, Read, Update or Delete, whatever the arguments and the
outcome.  Every byte sequence that an operation passes to `PutState` is the serialization
of a Record, and the decoder of Read accepts every such byte sequence. -/
theorem canonical_preserved (stub : Stub σ) (view : σ → World) (hlaw : stub.Stores view)
    (id value : GoString) (s : σ) (hc : (view s).Canonical) :
    (view (CryptoMyAssetExists stub id s).2).Canonical
      ∧ (view (CreateCryptoMyAsset stub id value s).2).Canonical
      ∧ (view (ReadCryptoMyAsset stub id s).2).Canonical
      ∧ (view (UpdateCryptoMyAsset stub id value s).2).Canonical
      ∧ (view (DeleteCryptoMyAsset stub id s).2).Canonical
      ∧ (∀ key bytes,
          Call.PutState key bytes ∈ (CryptoMyAssetExists (recording stub) id (s, [])).2.2
            ∨ Call.PutState key bytes
              ∈ (CreateCryptoMyAsset (recording stub) id value (s, [])).2.2
            ∨ Call.PutState key bytes ∈ (ReadCryptoMyAsset (recording stub) id (s, [])).2.2
            ∨ Call.PutState key bytes
              ∈ (UpdateCryptoMyAsset (recording stub) id value (s, [])).2.2
            ∨ Call.PutState key bytes ∈ (DeleteCryptoMyAsset (recording stub) id (s, [])).2.2 →
          IsRecord bytes)
      ∧ (∀ bytes d, IsRecord bytes → (Unmarshal (some bytes) d).2 = none) := by
  obtain ⟨h1, h2, h3, h4, h5⟩ := view_after stub view hlaw id value s
  obtain ⟨c1, c2, c3, c4, c5⟩ := calls_of stub id value s []
  refine ⟨by rw [h1]; exact hc, ?_, by rw [h2]; exact hc, ?_, ?_, ?_, ?_⟩
  · rcases h3 with h | h <;> rw [h]
    · exact hc
    · exact canonical_put _ _ _ hc
  · rcases h4 with h | h <;> rw [h]
    · exact hc
    · exact canonical_put _ _ _ hc
  · rcases h5 with h | h <;> rw [h]
    · exact hc
    · exact canonical_del _ _ hc
  · intro key bytes h
    rcases h with h | h | h | h | h
    · rw [c1] at h; simp at h
    · rcases c3 with c | c <;> rw [c] at h <;> simp at h
      exact ⟨{ Value := value }, h.2⟩
    · rcases c2 with c | c <;> rw [c] at h <;> simp at h
    · rcases c4 with c | c <;> rw [c] at h <;> simp at h
      exact ⟨{ Value := value }, h.2⟩
    · rcases c5 with c | c <;> rw [c] at h <;> simp at h
  · rintro bytes d ⟨r, rfl⟩
    rw [unmarshal_marshal]

theorem canonical_preserved_witness :
    World.stub.Stores (fun w => w)
      ∧ World.Canonical ((fun w : World => w) World.empty)
      ∧ World.Canonical ((fun w : World => w)
          (CreateCryptoMyAsset World.stub (lit "a") (lit "1") World.empty).2) :=
  ⟨World.stores, fun _ _ h => by simp [World.empty] at h,
    (canonical_preserved World.stub (fun w => w) World.stores (lit "a") (lit "1") World.empty
      (fun _ _ h => by simp [World.empty] at h)).2.1⟩

/-- C19. `CryptoMyAssetExists` and `ReadCryptoMyAsset` make `GetState` calls on the id
only, no `PutState` and no `DelState`, and leave the contents of the store unchanged.
`CreateCryptoMyAsset`, `UpdateCryptoMyAsset` and `DeleteCryptoMyAsset` called on an id
make their calls on that id only, and what the store holds under every other key is the
same after the call as before. -/
theorem key_isolation (stub : Stub σ) (view : σ → World) (hlaw : stub.Stores view)
    (id value : GoString) (s : σ) (calls : List Call) :
    (CryptoMyAssetExists (recording stub) id (s, calls)).2.2 = calls ++ [Call.GetState id]
      ∧ ((ReadCryptoMyAsset (recording stub) id (s, calls)).2.2 = calls ++ [Call.GetState id]
        ∨ (ReadCryptoMyAsset (recording stub) id (s, calls)).2.2
          = calls ++ [Call.GetState id, Call.GetState id])
      ∧ view (CryptoMyAssetExists stub id s).2 = view s
      ∧ view (ReadCryptoMyAsset stub id s).2 = view s
      ∧ ((CreateCryptoMyAsset (recording stub) id value (s, calls)).2.2
          = calls ++ [Call.GetState id]
        ∨ (CreateCryptoMyAsset (recording stub) id value (s, calls)).2.2
          = calls ++ [Call.GetState id, Call.PutState id (Marshal { Value := value }).1])
      ∧ ((UpdateCryptoMyAsset (recording stub) id value (s, calls)).2.2
          = calls ++ [Call.GetState id]
        ∨ (UpdateCryptoMyAsset (recording stub) id value (s, calls)).2.2
          = calls ++ [Call.GetState id, Call.PutState id (Marshal { Value := value }).1])
      ∧ ((DeleteCryptoMyAsset (recording stub) id (s, calls)).2.2
          = calls ++ [Call.GetState id]
        ∨ (DeleteCryptoMyAsset (recording stub) id (s, calls)).2.2
          = calls ++ [Call.GetState id, Call.DelState id])
      ∧ (∀ k, k ≠ id →
          view (CreateCryptoMyAsset stub id value s).2 k = view s k
            ∧ view (UpdateCryptoMyAsset stub id value s).2 k = view s k
            ∧ view (DeleteCryptoMyAsset stub id s).2 k = view s k) := by
  obtain ⟨h1, h2, h3, h4, h5⟩ := view_after stub view hlaw id value s
  obtain ⟨c1, c2, c3, c4, c5⟩ := calls_of stub id value s calls
  refine ⟨c1, c2, h1, h2, c3, c4, c5, ?_⟩
  intro k hk
  refine ⟨?_, ?_, ?_⟩
  · rcases h3 with h | h <;> rw [h]; simp [hk]
  · rcases h4 with h | h <;> rw [h]; simp [hk]
  · rcases h5 with h | h <;> rw [h]; simp [hk]

theorem key_isolation_witness :
    World.stub.Stores (fun w => w)
      ∧ (lit "b" ≠ lit "a" →
          (fun w : World => w)
              (CreateCryptoMyAsset World.stub (lit "a") (lit "1")
                (World.holding (lit "b") (lit "x"))).2 (lit "b")
            = (fun w : World => w) (World.holding (lit "b") (lit "x")) (lit "b")) :=
  ⟨World.stores, fun h =>
    ((key_isolation World.stub (fun w => w) World.stores (lit "a") (lit "1")
      (World.holding (lit "b") (lit "x")) []).2.2.2.2.2.2.2 (lit "b") h).1⟩

/-! ## Stored objects with other members -/

theorem objectMember_other (d : CryptoMyAsset × Option UnmarshalError) (m : Bytes × Value)
    (h : ∃ key, unquoteBytes m.1 = some key ∧ isFieldValue key = false) :
    objectMember d m = d := by
  obtain ⟨key, hk, hf⟩ := h
  simp [objectMember, hk, hf]

theorem foldl_objectMember_other (ms : List (Bytes × Value))
    (d : CryptoMyAsset × Option UnmarshalError)
    (h : ∀ m ∈ ms, ∃ key, unquoteBytes m.1 = some key ∧ isFieldValue key = false) :
    ms.foldl objectMember d = d := by
  induction ms generalizing d with
  | nil => rfl
  | cons m ms ih =>
    rw [List.foldl_cons, objectMember_other d m (h m (by simp))]
    exact ih d (fun x hx => h x (by simp [hx]))

/-- When the scanner reads the stored bytes as an object with a member `value` that is a
string which unquotes to `v`, and no other member has a name that the decoder matches to
the field, `ReadCryptoMyAsset` returns the record with value `v`. -/
theorem read_object_members (stub : Stub σ) (id : GoString) (s s1 s2 : σ)
    (bytes : Bytes) (e2 : Option GoError) (pre post : List (Bytes × Value))
    (k body : Bytes) (v : GoString)
    (hget1 : stub.GetState id s = ((some bytes, none), s1))
    (hget2 : stub.GetState id s1 = ((some bytes, e2), s2))
    (hjson : checkValid bytes = some (.object (pre ++ (k, .string body) :: post)))
    (hk : unquoteBytes k = some (lit "value"))
    (hv : unquoteBytes body = some v)
    (hother : ∀ m ∈ pre ++ post,
      ∃ key, unquoteBytes m.1 = some key ∧ isFieldValue key = false) :
    ReadCryptoMyAsset stub id s = ((some { Value := v }, none), s2) := by
  have hf : isFieldValue (lit "value") = true := by decide
  have hu : Unmarshal (some bytes) { Value := [] } = ({ Value := v }, none) := by
    simp only [Unmarshal, Option.getD_some, hjson, decodeValue]
    rw [List.foldl_append, List.foldl_cons,
      foldl_objectMember_other pre _ (fun m hm => hother m (by simp [hm]))]
    have : objectMember ({ Value := [] }, none) (k, .string body) = ({ Value := v }, none) := by
      simp [objectMember, hk, hf, hv]
    rw [this]
    exact foldl_objectMember_other post _ (fun m hm => hother m (by simp [hm]))
  simp [ReadCryptoMyAsset, CryptoMyAssetExists, hget1, hget2, hu]

/-! ## Update and Delete over stored bytes of any shape -/

theorem decodeFault_ne_alreadyExists (id : GoString) :
    lit "Could not unmarshal world state data to type CryptoMyAsset"
      ≠ lit "The asset " ++ id ++ lit " already exists" := by
  have h1 : lit "The asset " = 0x54 :: lit "he asset " := rfl
  have h2 : lit "Could not unmarshal world state data to type CryptoMyAsset"
      = 0x43 :: lit "ould not unmarshal world state data to type CryptoMyAsset" := rfl
  rw [h1, h2]
  simp

/-- C20 (amended). On a store without faults, for an id under which any bytes are stored,
also bytes that Read rejects with the could-not-unmarshal error: `UpdateCryptoMyAsset`
succeeds and a following Read returns the record with the new value coerced to
well-formed UTF-8, the new value itself when it is well-formed UTF-8;
`DeleteCryptoMyAsset` succeeds and a following Exists returns false.  On such a store
Exists, Create, Update and Delete never return the could-not-unmarshal error. -/
theorem update_delete_ignore_stored (w : World) (id value : GoString) (bytes : Bytes)
    (hw : w id = some bytes) :
    (Undecodable bytes = true →
        (ReadCryptoMyAsset World.stub id w).1
          = (none, some
              { Error := lit "Could not unmarshal world state data to type CryptoMyAsset" }))
      ∧ (UpdateCryptoMyAsset World.stub id value w).1 = none
      ∧ (ReadCryptoMyAsset World.stub id (UpdateCryptoMyAsset World.stub id value w).2).1
        = (some { Value := toValidUTF8 value }, none)
      ∧ (utf8.Valid value = true →
          (ReadCryptoMyAsset World.stub id (UpdateCryptoMyAsset World.stub id value w).2).1
            = (some { Value := value }, none))
      ∧ (DeleteCryptoMyAsset World.stub id w).1 = none
      ∧ (CryptoMyAssetExists World.stub id (DeleteCryptoMyAsset World.stub id w).2).1
        = (false, none)
      ∧ (∀ (w1 : World) (id1 value1 : GoString),
          (CryptoMyAssetExists World.stub id1 w1).1.2 = none
            ∧ (CreateCryptoMyAsset World.stub id1 value1 w1).1 ≠ some
                { Error := lit "Could not unmarshal world state data to type CryptoMyAsset" }
            ∧ (UpdateCryptoMyAsset World.stub id1 value1 w1).1 ≠ some
                { Error := lit "Could not unmarshal world state data to type CryptoMyAsset" }
            ∧ (DeleteCryptoMyAsset World.stub id1 w1).1 ≠ some
                { Error := lit "Could not unmarshal world state data to type CryptoMyAsset" }) := by
  have hg : World.stub.GetState id w = ((some bytes, none), w) := by
    simp [World.stub, hw]
  have hu : UpdateCryptoMyAsset World.stub id value w
      = World.stub.PutState id (Marshal { Value := value }).1 w := by
    simp [UpdateCryptoMyAsset, CryptoMyAssetExists, hg]
  have hd : DeleteCryptoMyAsset World.stub id w = World.stub.DelState id w := by
    simp [DeleteCryptoMyAsset, CryptoMyAssetExists, hg]
  have hr := read_after_put World.stub World.keepsPuts id value w
    (World.stub.PutState id (Marshal { Value := value }).1 w).2 rfl
  refine ⟨?_, ?_, ?_, ?_, ?_, ?_, ?_⟩
  · intro hbad
    have hne : (Unmarshal (some bytes) { Value := [] }).2 ≠ none := by
      rw [Ne, unmarshal_error_iff]; simp [hbad]
    rcases hm : Unmarshal (some bytes) { Value := [] } with ⟨v, _ | err⟩
    · rw [hm] at hne; simp at hne
    · simp [ReadCryptoMyAsset, CryptoMyAssetExists, hg, hm, errorf_unmarshal]
  · rw [hu]; rfl
  · rw [hu]; exact hr.2
  · intro hv
    rw [hu, hr.2, toValidUTF8_valid value hv]
  · rw [hd]; rfl
  · rw [hd]
    simp [CryptoMyAssetExists, World.stub]
  · intro w1 id1 value1
    have h1 := decodeFault_ne_alreadyExists id1
    have h2 := decodeFault_ne_notFound id1
    refine ⟨?_, ?_, ?_, ?_⟩
    · simp [CryptoMyAssetExists, World.stub]
    · rcases hw1 : w1 id1 with _ | b <;>
        simp [CreateCryptoMyAsset, CryptoMyAssetExists, World.stub, hw1, errorf_exists]
      exact fun h => h1 h.symm
    · rcases hw1 : w1 id1 with _ | b <;>
        simp [UpdateCryptoMyAsset, CryptoMyAssetExists, World.stub, hw1, errorf_missing]
      exact fun h => h2 h.symm
    · rcases hw1 : w1 id1 with _ | b <;>
        simp [DeleteCryptoMyAsset, CryptoMyAssetExists, World.stub, hw1, errorf_missing]
      exact fun h => h2 h.symm

theorem update_delete_ignore_stored_witness :
    World.holding (lit "y") (lit "some value") (lit "y") = some (lit "some value")
      ∧ Undecodable (lit "some value") = true
      ∧ utf8.Valid (lit "new value") = true
      ∧ (UpdateCryptoMyAsset World.stub (lit "y") (lit "new value")
          (World.holding (lit "y") (lit "some value"))).1 = none
      ∧ (ReadCryptoMyAsset World.stub (lit "y")
          (UpdateCryptoMyAsset World.stub (lit "y") (lit "new value")
            (World.holding (lit "y") (lit "some value"))).2).1
        = (some { Value := lit "new value" }, none) :=
  ⟨rfl, by decide, by decide,
    (update_delete_ignore_stored (World.holding (lit "y") (lit "some value")) (lit "y")
      (lit "new value") (lit "some value") rfl).2.1,
    (update_delete_ignore_stored (World.holding (lit "y") (lit "some value")) (lit "y")
      (lit "new value") (lit "some value") rfl).2.2.2.1 (by decide)⟩

/-- C20 as stated fails: over the stored bytes `some value`, which Read rejects, an Update
with the new value `\xff` succeeds, and the following Read returns U+FFFD (bytes EF BF
BD), not the new value. -/
theorem update_repairs_with_coerced_value :
    (ReadCryptoMyAsset World.stub (lit "y") (World.holding (lit "y") (lit "some value"))).1
        = (none, some
            { Error := lit "Could not unmarshal world state data to type CryptoMyAsset" })
      ∧ (UpdateCryptoMyAsset World.stub (lit "y") [0xFF]
          (World.holding (lit "y") (lit "some value"))).1 = none
      ∧ (ReadCryptoMyAsset World.stub (lit "y")
          (UpdateCryptoMyAsset World.stub (lit "y") [0xFF]
            (World.holding (lit "y") (lit "some value"))).2).1
        = (some { Value := [0xEF, 0xBF, 0xBD] }, none)
      ∧ (ReadCryptoMyAsset World.stub (lit "y")
          (UpdateCryptoMyAsset World.stub (lit "y") [0xFF]
            (World.holding (lit "y") (lit "some value"))).2).1
        ≠ (some { Value := [0xFF] }, none) := by
  refine ⟨rfl, rfl, rfl, ?_⟩
  decide

/-- C10 as stated fails: `<`, `>` and `&` are characters that JSON does not escape, yet
for the value `a<b>&` the bytes that Create puts hold the escapes `\u003c`, `\u003e` and
`\u0026` in their place, and are not the value between `"value":"` and `"`. -/
theorem put_bytes_html_escaped :
    NeedsNoEscape (lit "a<b>&")
      ∧ CreateCryptoMyAsset (recording configureStub) (lit "missingkey") (lit "a<b>&") ((), [])
        = (none, ((), [Call.GetState (lit "missingkey"),
            Call.PutState (lit "missingkey")
              (lit "\x7b\"value\":\"a\\u003cb\\u003e\\u0026\"\x7d")]))
      ∧ lit "\x7b\"value\":\"a\\u003cb\\u003e\\u0026\"\x7d"
        ≠ lit "\x7b\"value\":\"" ++ lit "a<b>&" ++ lit "\"\x7d" := by
  refine ⟨⟨by decide, by decide⟩, rfl, by decide⟩


open rfc8259

/-! ## RFC 8259 strings: the scanner reads them and the decoder unquotes them -/

theorem utf8Bytes_eq (r : Nat) (h : isScalar r = true) : utf8Bytes r = utf8.EncodeRune r := by
  simp only [isScalar, decide_eq_true_eq] at h
  unfold utf8Bytes utf8.EncodeRune
  by_cases h1 : r < 0x80
  · simp [h1, show r ≤ 0x7F by omega]
  by_cases h2 : r < 0x800
  · simp [h1, h2, show ¬ r ≤ 0x7F by omega, show r ≤ 0x7FF by omega]
  have h3 : ¬ (0x10FFFF < r ∨ (0xD800 ≤ r ∧ r ≤ 0xDFFF)) := by omega
  by_cases h4 : r < 0x10000
  · simp only [h1, h2, h4, h3, show ¬ r ≤ 0x7F by omega, show ¬ r ≤ 0x7FF by omega,
      show r ≤ 0xFFFF by omega, if_true, if_false]
  · simp only [h1, h2, h4, h3, show ¬ r ≤ 0x7F by omega, show ¬ r ≤ 0x7FF by omega,
      show ¬ r ≤ 0xFFFF by omega, if_true, if_false]

theorem decodeRune_utf8Bytes (r : Nat) (h : isScalar r = true) (h0 : 0x80 ≤ r) (t : Bytes) :
    utf8.DecodeRune (utf8Bytes r ++ t) = (r, (utf8Bytes r).length) := by
  simp only [isScalar, decide_eq_true_eq] at h
  unfold utf8Bytes
  have h1 : ¬ r < 0x80 := by omega
  by_cases h2 : r < 0x800
  · simp only [h1, h2, if_true, if_false, List.cons_append, List.nil_append]
    rw [utf8.DecodeRune.eq_def]
    have a1 : ¬ (0xC0 + r / 64 < 0x80) := by omega
    have a2 : ¬ (0xC0 + r / 64 < 0xC2 ∨ 0xF5 ≤ 0xC0 + r / 64) := by omega
    have a3 : utf8.firstSize (0xC0 + r / 64) = 2 := by
      unfold utf8.firstSize; rw [if_pos (by omega)]
    have a4 : utf8.acceptLo (0xC0 + r / 64) = 0x80 := by
      unfold utf8.acceptLo; rw [if_neg (by omega), if_neg (by omega)]
    have a5 : utf8.acceptHi (0xC0 + r / 64) = 0xBF := by
      unfold utf8.acceptHi; rw [if_neg (by omega), if_neg (by omega)]
    simp only [a1, a2, a3, a4, a5, if_false, List.length_cons]
    rw [if_neg (by omega), if_neg (by omega), if_pos (by omega)]
    simp only [List.length_nil, Prod.mk.injEq, and_true]
    omega
  by_cases h4 : r < 0x10000
  · simp only [h1, h2, h4, if_true, if_false, List.cons_append, List.nil_append]
    rw [utf8.DecodeRune.eq_def]
    have a1 : ¬ (0xE0 + r / 4096 < 0x80) := by omega
    have a2 : ¬ (0xE0 + r / 4096 < 0xC2 ∨ 0xF5 ≤ 0xE0 + r / 4096) := by omega
    have a3 : utf8.firstSize (0xE0 + r / 4096) = 3 := by
      unfold utf8.firstSize; rw [if_neg (by omega), if_pos (by omega)]
    have a4 : ¬ (0x80 + r / 64 % 64 < utf8.acceptLo (0xE0 + r / 4096)
        ∨ utf8.acceptHi (0xE0 + r / 4096) < 0x80 + r / 64 % 64) := by
      unfold utf8.acceptLo utf8.acceptHi
      split_ifs <;> omega
    simp only [a1, a2, a3, a4, if_false, List.length_cons]
    rw [if_neg (by omega), if_neg (by omega), if_neg (by omega), if_pos (by omega)]
    simp only [List.length_nil, Prod.mk.injEq, and_true]
    omega
  · simp only [h1, h2, h4, if_true, if_false, List.cons_append, List.nil_append]
    rw [utf8.DecodeRune.eq_def]
    have a1 : ¬ (0xF0 + r / 262144 < 0x80) := by omega
    have a2 : ¬ (0xF0 + r / 262144 < 0xC2 ∨ 0xF5 ≤ 0xF0 + r / 262144) := by omega
    have a3 : utf8.firstSize (0xF0 + r / 262144) = 4 := by
      unfold utf8.firstSize; rw [if_neg (by omega), if_neg (by omega)]
    have a4 : ¬ (0x80 + r / 4096 % 64 < utf8.acceptLo (0xF0 + r / 262144)
        ∨ utf8.acceptHi (0xF0 + r / 262144) < 0x80 + r / 4096 % 64) := by
      unfold utf8.acceptLo utf8.acceptHi
      split_ifs <;> omega
    simp only [a1, a2, a3, a4, if_false, List.length_cons]
    rw [if_neg (by omega), if_neg (by omega), if_neg (by omega), if_neg (by omega),
      if_neg (by omega)]
    simp only [List.length_nil, Prod.mk.injEq, and_true]
    omega

theorem utf8Bytes_high (r : Nat) (h0 : 0x80 ≤ r) (h : r ≤ 0x10FFFF) :
    2 ≤ (utf8Bytes r).length ∧ ∀ x ∈ utf8Bytes r, 0x80 ≤ x := by
  unfold utf8Bytes
  split_ifs
  · omega
  all_goals (simp; omega)

theorem isHex_of_isHexDigit (c : Nat) (h : isHexDigit c = true) : isHex c = true := by
  simp only [isHexDigit, isHex, decide_eq_true_eq] at h ⊢
  omega

theorem stringBody_item (item : StrItem) (h : item.WF = true) : StringBody item.render := by
  cases item with
  | char r =>
    simp only [StrItem.WF, Bool.and_eq_true, decide_eq_true_eq, isScalar] at h
    by_cases h1 : r < 0x80
    · have : utf8Bytes r = [r] := by simp [utf8Bytes, h1]
      simp only [StrItem.render, this]
      exact stringBody_plain r h.1.1 h.1.2.1 h.1.2.2
    · exact stringBody_plain_list _ (utf8Bytes_high r (by omega) h.2.1).2
  | esc c =>
    simp only [StrItem.WF, Bool.or_eq_true, decide_eq_true_eq] at h
    intro ps et text cur
    rcases h with ((((((rfl | rfl) | rfl) | rfl) | rfl) | rfl) | rfl) | rfl <;>
      simp [StrItem.render, scanner.next]
  | u a b c d =>
    simp only [StrItem.WF, Bool.and_eq_true] at h
    obtain ⟨⟨⟨ha, hb⟩, hc⟩, hd⟩ := h
    intro ps et text cur
    simp [StrItem.render, scanner.next, isHex_of_isHexDigit _ ha, isHex_of_isHexDigit _ hb,
      isHex_of_isHexDigit _ hc, isHex_of_isHexDigit _ hd]

theorem stringBody_renderItems (items : List StrItem) (h : items.all StrItem.WF = true) :
    StringBody (renderItems items) := by
  induction items with
  | nil => exact stringBody_nil
  | cons item rest ih =>
    simp only [List.all_cons, Bool.and_eq_true] at h
    exact stringBody_append (stringBody_item item h.1) (ih h.2)

theorem hexValue_hexDigit (c : Nat) (h : isHexDigit c = true) :
    hexValue c = some (hexDigitValue c) := by
  simp only [isHexDigit, decide_eq_true_eq] at h
  unfold hexValue hexDigitValue
  split_ifs <;> first | rfl | omega

theorem getu4_render (a b c d : Nat) (t : Bytes) (h : (StrItem.u a b c d).WF = true) :
    getu4 (0x5C :: 0x75 :: a :: b :: c :: d :: t) = some (codeUnit a b c d) := by
  simp only [StrItem.WF, Bool.and_eq_true] at h
  obtain ⟨⟨⟨ha, hb⟩, hc⟩, hd⟩ := h
  simp only [getu4, hexValue_hexDigit _ ha, hexValue_hexDigit _ hb, hexValue_hexDigit _ hc,
    hexValue_hexDigit _ hd, codeUnit]

theorem getu4_other (x : Nat) (t : Bytes) (h : x ≠ 0x5C) : getu4 (x :: t) = none := by
  rw [getu4.eq_def]
  split
  · simp_all
  · rfl

theorem getu4_esc (c : Nat) (t : Bytes) (h : c ≠ 0x75) : getu4 (0x5C :: c :: t) = none := by
  rw [getu4.eq_def]
  split
  · simp_all
  · rfl

theorem getu4_nil : getu4 [] = none := rfl

/-- What follows a `\u` escape in the text is four more hexadecimal digits after `\u`
only when the next element of the string is a `\u` escape. -/
theorem getu4_renderItems (rest : List StrItem) (h : rest.all StrItem.WF = true) :
    getu4 (renderItems rest)
      = match rest with
        | .u a b c d :: _ => some (codeUnit a b c d)
        | _ => none := by
  rcases rest with _ | ⟨item, rest⟩
  · rfl
  simp only [List.all_cons, Bool.and_eq_true] at h
  cases item with
  | char r =>
    have hw := h.1
    simp only [StrItem.WF, Bool.and_eq_true, decide_eq_true_eq, isScalar] at hw
    simp only [renderItems, StrItem.render]
    by_cases h1 : r < 0x80
    · have : utf8Bytes r = [r] := by simp [utf8Bytes, h1]
      rw [this]
      exact getu4_other _ _ hw.1.2.2
    · have hh := utf8Bytes_high r (by omega) hw.2.1
      rcases hu : utf8Bytes r with _ | ⟨x, xs⟩
      · rw [hu] at hh; simp at hh
      · have := hh.2 x (by rw [hu]; simp)
        exact getu4_other _ _ (by omega)
  | esc c =>
    have hw := h.1
    simp only [StrItem.WF, Bool.or_eq_true, decide_eq_true_eq] at hw
    simp only [renderItems, StrItem.render]
    exact getu4_esc _ _ (by omega)
  | u a b c d =>
    simp only [renderItems, StrItem.render]
    exact getu4_render a b c d _ h.1

theorem unquoteLoop_esc (f c : Nat) (t : Bytes) (h : (StrItem.esc c).WF = true) :
    unquoteLoop (f + 1) (0x5C :: c :: t) = (unquoteLoop f t).map (unescape c :: ·) := by
  simp only [StrItem.WF, Bool.or_eq_true, decide_eq_true_eq] at h
  rcases h with ((((((rfl | rfl) | rfl) | rfl) | rfl) | rfl) | rfl) | rfl <;>
    (rw [unquoteLoop.eq_def]; simp [unescape])

theorem unquoteLoop_surrogate (f rr a b c d : Nat) (t : Bytes)
    (hg : getu4 (0x5C :: 0x75 :: a :: b :: c :: d :: t) = some rr)
    (hr : 0xD800 ≤ rr ∧ rr < 0xE000) :
    unquoteLoop (f + 1) (0x5C :: 0x75 :: a :: b :: c :: d :: t)
      = match utf16DecodeRune rr (getu4 t) with
        | some dec => (unquoteLoop f (t.drop 6)).map (utf8.EncodeRune dec ++ ·)
        | none => (unquoteLoop f t).map ([0xEF, 0xBF, 0xBD] ++ ·) := by
  have he : utf8.EncodeRune utf8.RuneError = [0xEF, 0xBF, 0xBD] := by decide
  rw [unquoteLoop.eq_def]
  cases hu : utf16DecodeRune rr (getu4 t) <;> simp [hg, hr, he, hu]

theorem codeUnit_lt (a b c d : Nat) (h : (StrItem.u a b c d).WF = true) :
    codeUnit a b c d < 0x10000 := by
  simp only [StrItem.WF, Bool.and_eq_true, isHexDigit, decide_eq_true_eq] at h
  obtain ⟨⟨⟨ha, hb⟩, hc⟩, hd⟩ := h
  have e : ∀ x, ((0x30 ≤ x ∧ x ≤ 0x39) ∨ (0x41 ≤ x ∧ x ≤ 0x46) ∨ (0x61 ≤ x ∧ x ≤ 0x66)) →
      hexDigitValue x < 16 := by
    intro x hx
    unfold hexDigitValue
    split_ifs <;> omega
  have := e a ha
  have := e b hb
  have := e c hc
  have := e d hd
  unfold codeUnit
  omega

theorem denote_u_single (a b c d : Nat) :
    denote [.u a b c d]
      = if 0xD800 ≤ codeUnit a b c d ∧ codeUnit a b c d < 0xE000 then [0xEF, 0xBF, 0xBD]
        else utf8Bytes (codeUnit a b c d) := rfl

theorem denote_u_cons (a b c d : Nat) (next : StrItem) (rest : List StrItem) :
    denote (.u a b c d :: next :: rest)
      = if 0xD800 ≤ codeUnit a b c d ∧ codeUnit a b c d < 0xDC00 then
          match next with
          | .u a2 b2 c2 d2 =>
            if 0xDC00 ≤ codeUnit a2 b2 c2 d2 ∧ codeUnit a2 b2 c2 d2 < 0xE000 then
              utf8Bytes ((codeUnit a b c d - 0xD800) * 1024 + (codeUnit a2 b2 c2 d2 - 0xDC00)
                + 0x10000) ++ denote rest
            else [0xEF, 0xBF, 0xBD] ++ denote (next :: rest)
          | _ => [0xEF, 0xBF, 0xBD] ++ denote (next :: rest)
        else if 0xDC00 ≤ codeUnit a b c d ∧ codeUnit a b c d < 0xE000 then
          [0xEF, 0xBF, 0xBD] ++ denote (next :: rest)
        else utf8Bytes (codeUnit a b c d) ++ denote (next :: rest) := by
  cases next <;> rfl

theorem denote_u_pair (a b c d a2 b2 c2 d2 : Nat) (rest : List StrItem)
    (h : 0xD800 ≤ codeUnit a b c d ∧ codeUnit a b c d < 0xDC00
      ∧ 0xDC00 ≤ codeUnit a2 b2 c2 d2 ∧ codeUnit a2 b2 c2 d2 < 0xE000) :
    denote (.u a b c d :: .u a2 b2 c2 d2 :: rest)
      = utf8Bytes ((codeUnit a b c d - 0xD800) * 1024 + (codeUnit a2 b2 c2 d2 - 0xDC00)
          + 0x10000) ++ denote rest := by
  rw [denote_u_cons]
  simp only
  rw [if_pos ⟨h.1, h.2.1⟩, if_pos h.2.2]

theorem denote_u_lone (a b c d : Nat) (next : StrItem) (rest : List StrItem)
    (hs : 0xD800 ≤ codeUnit a b c d ∧ codeUnit a b c d < 0xE000)
    (h : ∀ a2 b2 c2 d2, next = .u a2 b2 c2 d2 →
      ¬ (0xD800 ≤ codeUnit a b c d ∧ codeUnit a b c d < 0xDC00
        ∧ 0xDC00 ≤ codeUnit a2 b2 c2 d2 ∧ codeUnit a2 b2 c2 d2 < 0xE000)) :
    denote (.u a b c d :: next :: rest) = [0xEF, 0xBF, 0xBD] ++ denote (next :: rest) := by
  rw [denote_u_cons]
  cases next with
  | char r => simp only; split_ifs <;> first | rfl | omega
  | esc e => simp only; split_ifs <;> first | rfl | omega
  | u a2 b2 c2 d2 =>
    have := h a2 b2 c2 d2 rfl
    simp only
    split_ifs <;> first | omega | rfl

theorem denote_u_plain (a b c d : Nat) (rest : List StrItem)
    (hs : ¬ (0xD800 ≤ codeUnit a b c d ∧ codeUnit a b c d < 0xE000)) :
    denote (.u a b c d :: rest) = utf8Bytes (codeUnit a b c d) ++ denote rest := by
  rcases rest with _ | ⟨next, rest⟩
  · rw [denote_u_single, if_neg hs]; simp [denote]
  · rw [denote_u_cons, if_neg (by omega), if_neg (by omega)]

theorem unquoteLoop_renderItems (n : Nat) :
    ∀ items : List StrItem, items.length ≤ n → items.all StrItem.WF = true →
      ∀ f, (renderItems items).length ≤ f →
        unquoteLoop f (renderItems items) = some (denote items) := by
  induction n with
  | zero =>
    intro items hn _ f _
    have : items = [] := by simpa using hn
    subst this
    simp [renderItems, denote, unquoteLoop_nil]
  | succ n ih =>
    intro items hn hwf f hf
    rcases items with _ | ⟨item, rest⟩
    · simp [renderItems, denote, unquoteLoop_nil]
    simp only [List.all_cons, Bool.and_eq_true] at hwf
    obtain ⟨hw, hwr⟩ := hwf
    simp only [List.length_cons, Nat.add_le_add_iff_right] at hn
    cases item with
    | char r =>
      have hw2 := hw
      simp only [StrItem.WF, Bool.and_eq_true, decide_eq_true_eq] at hw2
      have hsc := hw2.2
      simp only [isScalar, decide_eq_true_eq] at hsc
      simp only [renderItems, StrItem.render, denote] at hf ⊢
      by_cases h1 : r < 0x80
      · have e : utf8Bytes r = [r] := by simp [utf8Bytes, h1]
        rw [e] at hf ⊢
        simp only [List.cons_append, List.nil_append, List.length_cons] at hf ⊢
        obtain ⟨f, rfl⟩ : ∃ g, f = g + 1 := ⟨f - 1, by omega⟩
        rw [unquoteLoop_plain f r _ hw2.1.1 h1 hw2.1.2.1 hw2.1.2.2,
          ih rest hn hwr f (by omega)]
        rfl
      · have hh := utf8Bytes_high r (by omega) hsc.1
        simp only [List.length_append] at hf
        obtain ⟨f, rfl⟩ : ∃ g, f = g + 1 := ⟨f - 1, by omega⟩
        rw [unquoteLoop_chunk f r (utf8Bytes r) _ hh.1 hh.2 (utf8Bytes_eq r hw2.2).symm
            (decodeRune_utf8Bytes r hw2.2 (by omega)),
          ih rest hn hwr f (by omega)]
        rfl
    | esc c =>
      simp only [renderItems, StrItem.render, denote, List.cons_append, List.nil_append,
        List.length_cons] at hf ⊢
      obtain ⟨f, rfl⟩ : ∃ g, f = g + 1 := ⟨f - 1, by omega⟩
      rw [unquoteLoop_esc f c _ hw, ih rest hn hwr f (by omega)]
      rfl
    | u a b c d =>
      have hg := getu4_render a b c d (renderItems rest) hw
      have hlt := codeUnit_lt a b c d hw
      have hgr := getu4_renderItems rest hwr
      simp only [renderItems, StrItem.render, List.cons_append, List.nil_append,
        List.length_cons] at hf ⊢
      obtain ⟨f, rfl⟩ : ∃ g, f = g + 1 := ⟨f - 1, by omega⟩
      have ihr := ih rest hn hwr f (by omega)
      by_cases hs : 0xD800 ≤ codeUnit a b c d ∧ codeUnit a b c d < 0xE000
      · rw [unquoteLoop_surrogate f _ a b c d _ hg hs, hgr]
        rcases rest with _ | ⟨next, rest2⟩
        · simp [utf16DecodeRune, renderItems, unquoteLoop_nil, denote_u_single, hs]
        · have hwr2 := hwr
          simp only [List.all_cons, Bool.and_eq_true] at hwr2
          have ih2 := ih rest2 (by simp at hn; omega) hwr2.2 f
            (by simp only [renderItems, List.length_append] at hf; omega)
          cases next with
          | char r =>
            simp only [utf16DecodeRune, ihr, Option.map_some']
            rw [denote_u_lone a b c d _ _ hs (by intro _ _ _ _ h; cases h)]
          | esc e =>
            simp only [utf16DecodeRune, ihr, Option.map_some']
            rw [denote_u_lone a b c d _ _ hs (by intro _ _ _ _ h; cases h)]
          | u a2 b2 c2 d2 =>
            have hlt2 := codeUnit_lt a2 b2 c2 d2 hwr2.1
            by_cases hp : 0xD800 ≤ codeUnit a b c d ∧ codeUnit a b c d < 0xDC00
                ∧ 0xDC00 ≤ codeUnit a2 b2 c2 d2 ∧ codeUnit a2 b2 c2 d2 < 0xE000
            · have hd6 : List.drop 6 (renderItems (StrItem.u a2 b2 c2 d2 :: rest2))
                  = renderItems rest2 := by
                simp [renderItems, StrItem.render]
              have hsc : isScalar ((codeUnit a b c d - 0xD800) * 1024
                  + (codeUnit a2 b2 c2 d2 - 0xDC00) + 0x10000) = true :=
                decide_eq_true (by omega)
              rw [denote_u_pair a b c d a2 b2 c2 d2 rest2 hp]
              simp only [utf16DecodeRune, hp, and_self, if_true, hd6, ih2, Option.map_some',
                ← utf8Bytes_eq _ hsc]
            · rw [denote_u_lone a b c d _ _ hs
                (by intro _ _ _ _ h; cases h; exact hp)]
              simp only [utf16DecodeRune, hp, if_false, ihr, Option.map_some']
      · rw [unquoteLoop_u f _ a b c d _ hg hs, ihr]
        have hsc : isScalar (codeUnit a b c d) = true := decide_eq_true (by omega)
        rw [← utf8Bytes_eq _ hsc, denote_u_plain a b c d rest hs]
        rfl

theorem unquoteBytes_renderItems (items : List StrItem) (h : items.all StrItem.WF = true) :
    unquoteBytes (renderItems items) = some (denote items) := by
  rw [unquoteBytes_eq_loop]
  exact unquoteLoop_renderItems items.length items (le_refl _) h _ (le_refl _)

/-! ## The scanner reads the texts of RFC 8259 -/

theorem isSpace_of_isWs (c : Nat) (h : isWs c = true) : isSpace c = true := by
  simp only [isWs, Bool.or_eq_true, decide_eq_true_eq] at h
  simp only [isSpace, decide_eq_true_eq]
  omega

theorem stateEndValue_step (step : Step) (ps : List Frame) (et : Bool) (text : Bytes)
    (cur : Option Value) (c : Nat) :
    stateEndValue ⟨step, ps, et, text, cur⟩ c = stateEndValue ⟨.endValue, ps, et, text, cur⟩ c := by
  rcases ps with _ | ⟨fr, rest⟩
  · rfl
  · cases fr <;> rfl

theorem skip_ws_begin (step : Step) (ps : List Frame) (et : Bool) (text : Bytes)
    (cur : Option Value)
    (hs : step = .beginValue ∨ step = .beginValueOrEmpty ∨ step = .beginString
      ∨ step = .beginStringOrEmpty)
    (ws : Bytes) (hws : ws.all isWs = true) :
    ws.foldl scanner.next ⟨step, ps, et, text, cur⟩ = ⟨step, ps, et, text, cur⟩ := by
  induction ws with
  | nil => rfl
  | cons w ws ih =>
    simp only [List.all_cons, Bool.and_eq_true] at hws
    have hsp := isSpace_of_isWs w hws.1
    have : scanner.next ⟨step, ps, et, text, cur⟩ w = ⟨step, ps, et, text, cur⟩ := by
      rcases hs with rfl | rfl | rfl | rfl <;>
        simp [scanner.next, stateBeginValue, stateBeginString, hsp]
    rw [List.foldl_cons, this]
    exact ih hws.2

theorem skip_ws_endValue (fr : Frame) (rest : List Frame) (et : Bool) (text : Bytes)
    (cur : Option Value) (ws : Bytes) (hws : ws.all isWs = true) :
    ws.foldl scanner.next ⟨.endValue, fr :: rest, et, text, cur⟩
      = ⟨.endValue, fr :: rest, et, text, cur⟩ := by
  induction ws with
  | nil => rfl
  | cons w ws ih =>
    simp only [List.all_cons, Bool.and_eq_true] at hws
    have hsp := isSpace_of_isWs w hws.1
    have : scanner.next ⟨.endValue, fr :: rest, et, text, cur⟩ w
        = ⟨.endValue, fr :: rest, et, text, cur⟩ := by
      simp [scanner.next, stateEndValue, hsp]
    rw [List.foldl_cons, this]
    exact ih hws.2

theorem skip_ws_endTop (ps : List Frame) (et : Bool) (text : Bytes)
    (cur : Option Value) (ws : Bytes) (hws : ws.all isWs = true) :
    ws.foldl scanner.next ⟨.endTop, ps, et, text, cur⟩ = ⟨.endTop, ps, et, text, cur⟩ := by
  induction ws with
  | nil => rfl
  | cons w ws ih =>
    simp only [List.all_cons, Bool.and_eq_true] at hws
    have hsp := isSpace_of_isWs w hws.1
    have : scanner.next ⟨.endTop, ps, et, text, cur⟩ w = ⟨.endTop, ps, et, text, cur⟩ := by
      simp [scanner.next, stateEndTop, hsp]
    rw [List.foldl_cons, this]
    exact ih hws.2

theorem valueRead_endValue (ps : List Frame) (text : Bytes) (v : Value) :
    ValueRead ⟨.endValue, ps, false, text, some v⟩ ps v := by
  refine ⟨by simp, fun c _ => ⟨text, rfl⟩, by simp⟩

theorem valueRead_closed (outer : List Frame) (text : Bytes) (v : Value) :
    ValueRead (closed outer text v) outer v := by
  rcases outer with _ | ⟨fr, rest⟩
  · refine ⟨by simp [closed], fun c _ => ⟨text, ?_⟩, by simp [closed]⟩
    simp [closed, scanner.next, stateEndValue]
  · simpa [closed] using valueRead_endValue (fr :: rest) text v

theorem valueRead_number (step : Step) (ps : List Frame) (text : Bytes) (cur : Option Value)
    (hs : step = .s0 ∨ step = .s1 ∨ step = .dot0 ∨ step = .e0) :
    ValueRead ⟨step, ps, false, text, cur⟩ ps (.number text) := by
  refine ⟨by rcases hs with rfl | rfl | rfl | rfl <;> simp, fun c hc => ⟨text, ?_⟩, by simp⟩
  have h1 : json.isDigit c = false := by
    simp only [json.isDigit, isSpace, decide_eq_true_eq, decide_eq_false_iff_not] at hc ⊢
    omega
  have h2 : c ≠ 0x2E ∧ c ≠ 0x65 ∧ c ≠ 0x45 := by
    simp only [isSpace, decide_eq_true_eq] at hc
    omega
  rw [← stateEndValue_step step]
  rcases hs with rfl | rfl | rfl | rfl <;>
    simp [scanner.next, state0, stateEndNumber, h1, h2]

theorem valueRead_delim (s : scanner) (fr : Frame) (rest : List Frame) (v : Value)
    (h : ValueRead s (fr :: rest) v) (ws : Bytes) (hws : ws.all isWs = true) (c : Nat)
    (hc : c = 0x2C ∨ c = 0x5D ∨ c = 0x7D) :
    ∃ text, (ws.foldl scanner.next s).next c
      = stateEndValue ⟨.endValue, fr :: rest, false, text, some v⟩ c := by
  rcases ws with _ | ⟨w, ws⟩
  · exact h.2.1 c (Or.inr hc)
  · simp only [List.all_cons, Bool.and_eq_true] at hws
    have hsp := isSpace_of_isWs w hws.1
    obtain ⟨text, ht⟩ := h.2.1 w (Or.inl hsp)
    refine ⟨text, ?_⟩
    have e : stateEndValue ⟨.endValue, fr :: rest, false, text, some v⟩ w
        = ⟨.endValue, fr :: rest, false, text, some v⟩ := by
      simp [stateEndValue, hsp]
    rw [List.foldl_cons, ht, e, skip_ws_endValue _ _ _ _ _ _ hws.2]
    rfl

theorem valueRead_eof (s : scanner) (v : Value) (h : ValueRead s [] v) (ws : Bytes)
    (hws : ws.all isWs = true) :
    (ws.foldl scanner.next s).eof = some v := by
  rcases ws with _ | ⟨w, ws⟩
  · obtain ⟨text, ht⟩ := h.2.1 0x20 (Or.inl (by decide))
    have h1 := h.1
    simp only [List.foldl_nil, scanner.eof, h1, if_false]
    by_cases he : s.endTop = true
    · simp [he, h.2.2 he]
    · simp [he, ht, stateEndValue, stateEndTop, isSpace]
  · simp only [List.all_cons, Bool.and_eq_true] at hws
    have hsp := isSpace_of_isWs w hws.1
    obtain ⟨text, ht⟩ := h.2.1 w (Or.inl hsp)
    have e : stateEndValue ⟨.endValue, [], false, text, some v⟩ w
        = ⟨.endTop, [], true, text, some v⟩ := by
      simp [stateEndValue, stateEndTop, hsp]
    rw [List.foldl_cons, ht, e, skip_ws_endTop _ _ _ _ _ hws.2]
    simp [scanner.eof]

theorem scan_null (step : Step) (ps : List Frame) (text : Bytes) (cur : Option Value)
    (hs : step = .beginValue ∨ step = .beginValueOrEmpty) :
    [0x6E, 0x75, 0x6C, 0x6C].foldl scanner.next ⟨step, ps, false, text, cur⟩
      = ⟨.endValue, ps, false, text, some .null⟩ := by
  rcases hs with rfl | rfl <;> simp [scanner.next, stateBeginValue, isSpace]

theorem scan_true (step : Step) (ps : List Frame) (text : Bytes) (cur : Option Value)
    (hs : step = .beginValue ∨ step = .beginValueOrEmpty) :
    [0x74, 0x72, 0x75, 0x65].foldl scanner.next ⟨step, ps, false, text, cur⟩
      = ⟨.endValue, ps, false, text, some (.bool true)⟩ := by
  rcases hs with rfl | rfl <;> simp [scanner.next, stateBeginValue, isSpace]

theorem scan_false (step : Step) (ps : List Frame) (text : Bytes) (cur : Option Value)
    (hs : step = .beginValue ∨ step = .beginValueOrEmpty) :
    [0x66, 0x61, 0x6C, 0x73, 0x65].foldl scanner.next ⟨step, ps, false, text, cur⟩
      = ⟨.endValue, ps, false, text, some (.bool false)⟩ := by
  rcases hs with rfl | rfl <;> simp [scanner.next, stateBeginValue, isSpace]

theorem scan_string (step : Step) (ps : List Frame) (text : Bytes) (cur : Option Value)
    (hs : step = .beginValue ∨ step = .beginValueOrEmpty ∨ step = .beginString
      ∨ step = .beginStringOrEmpty)
    (items : List StrItem) (hwf : items.all StrItem.WF = true) :
    scanner.next ((renderItems items).foldl scanner.next
        (scanner.next ⟨step, ps, false, text, cur⟩ 0x22)) 0x22
      = ⟨.endValue, ps, false, renderItems items, some (.string (renderItems items))⟩ := by
  have h1 : scanner.next ⟨step, ps, false, text, cur⟩ 0x22 = ⟨.inString, ps, false, [], none⟩ := by
    rcases hs with rfl | rfl | rfl | rfl <;>
      simp [scanner.next, stateBeginValue, stateBeginString, isSpace]
  rw [h1, stringBody_renderItems items hwf]
  simp [scanner.next]

theorem scan_open_array (step : Step) (ps : List Frame) (text : Bytes) (cur : Option Value)
    (hs : step = .beginValue ∨ step = .beginValueOrEmpty)
    (hd : ps.length + 1 ≤ maxNestingDepth) :
    scanner.next ⟨step, ps, false, text, cur⟩ 0x5B
      = ⟨.beginValueOrEmpty, .parseArrayValue [] :: ps, false, text, none⟩ := by
  rcases hs with rfl | rfl <;>
    simp [scanner.next, stateBeginValue, isSpace, pushParseState, hd]

theorem scan_open_object (step : Step) (ps : List Frame) (text : Bytes) (cur : Option Value)
    (hs : step = .beginValue ∨ step = .beginValueOrEmpty)
    (hd : ps.length + 1 ≤ maxNestingDepth) :
    scanner.next ⟨step, ps, false, text, cur⟩ 0x7B
      = ⟨.beginStringOrEmpty, .parseObjectKey [] :: ps, false, text, none⟩ := by
  rcases hs with rfl | rfl <;>
    simp [scanner.next, stateBeginValue, isSpace, pushParseState, hd]

theorem scan_close_empty_array (ps : List Frame) (text : Bytes) :
    scanner.next ⟨.beginValueOrEmpty, .parseArrayValue [] :: ps, false, text, none⟩ 0x5D
      = closed ps text (.array []) := by
  rcases ps with _ | ⟨fr, rest⟩ <;>
    simp [scanner.next, stateEndValue, isSpace, popParseState, closed]

theorem scan_close_empty_object (ps : List Frame) (text : Bytes) :
    scanner.next ⟨.beginStringOrEmpty, .parseObjectKey [] :: ps, false, text, none⟩ 0x7D
      = closed ps text (.object []) := by
  rcases ps with _ | ⟨fr, rest⟩ <;>
    simp [scanner.next, isSpace, popParseState, closed]

/-! ### Numbers -/

theorem isDigit_of_isDecDigit (c : Nat) (h : isDecDigit c = true) : json.isDigit c = true := h

theorem scan_digits (step : Step) (ps : List Frame) (et : Bool) (text : Bytes)
    (cur : Option Value) (hs : step = .s1 ∨ step = .dot0 ∨ step = .e0)
    (ds : Bytes) (hds : ds.all isDecDigit = true) :
    ds.foldl scanner.next ⟨step, ps, et, text, cur⟩ = ⟨step, ps, et, text ++ ds, cur⟩ := by
  induction ds generalizing text with
  | nil => simp
  | cons d ds ih =>
    simp only [List.all_cons, Bool.and_eq_true] at hds
    have hd : json.isDigit d = true := hds.1
    have : scanner.next ⟨step, ps, et, text, cur⟩ d = ⟨step, ps, et, text ++ [d], cur⟩ := by
      rcases hs with rfl | rfl | rfl <;> simp [scanner.next, hd]
    rw [List.foldl_cons, this, ih _ hds.2]
    simp

theorem scan_int (step : Step) (ps : List Frame) (text : Bytes) (cur : Option Value)
    (hs : step = .beginValue ∨ step = .beginValueOrEmpty) (minus : Bool) (d : Nat) (ds : Bytes)
    (hwf : (if d = 0x30 then ds.isEmpty
      else decide (0x31 ≤ d ∧ d ≤ 0x39) && ds.all isDecDigit) = true) :
    ∃ step1, (step1 = .s0 ∨ step1 = .s1)
      ∧ ((if minus then [0x2D] else []) ++ d :: ds).foldl scanner.next
          ⟨step, ps, false, text, cur⟩
        = ⟨step1, ps, false, (if minus then [0x2D] else []) ++ d :: ds, none⟩ := by
  by_cases h0 : d = 0x30
  · subst h0
    simp only [if_true, List.isEmpty_iff] at hwf
    subst hwf
    refine ⟨.s0, Or.inl rfl, ?_⟩
    cases minus <;> rcases hs with rfl | rfl <;>
      simp [scanner.next, stateBeginValue, isSpace]
  · simp only [h0, if_false, Bool.and_eq_true, decide_eq_true_eq] at hwf
    refine ⟨.s1, Or.inr rfl, ?_⟩
    have h1 : ¬ (d = 0x20 ∨ d = 0x09 ∨ d = 0x0D ∨ d = 0x0A) := by omega
    have h2 : d ≠ 0x7B ∧ d ≠ 0x5B ∧ d ≠ 0x22 ∧ d ≠ 0x2D ∧ d ≠ 0x74 ∧ d ≠ 0x66 ∧ d ≠ 0x6E
        ∧ d ≠ 0x5D := by omega
    cases minus
    · have : scanner.next ⟨step, ps, false, text, cur⟩ d = ⟨.s1, ps, false, [d], none⟩ := by
        rcases hs with rfl | rfl <;>
          simp [scanner.next, stateBeginValue, isSpace, h0, h1, h2, hwf.1]
      simp only [Bool.false_eq_true, if_false, List.nil_append, List.foldl_cons, this]
      rw [scan_digits _ _ _ _ _ (Or.inl rfl) ds hwf.2]
      rfl
    · have e1 : scanner.next ⟨step, ps, false, text, cur⟩ 0x2D
          = ⟨.neg, ps, false, [0x2D], none⟩ := by
        rcases hs with rfl | rfl <;> simp [scanner.next, stateBeginValue, isSpace]
      have e2 : scanner.next ⟨.neg, ps, false, [0x2D], none⟩ d
          = ⟨.s1, ps, false, [0x2D, d], none⟩ := by
        simp [scanner.next, h0, hwf.1]
      simp only [if_true, List.cons_append, List.nil_append, List.foldl_cons, e1, e2]
      rw [scan_digits _ _ _ _ _ (Or.inl rfl) ds hwf.2]
      rfl

theorem scan_frac (step : Step) (ps : List Frame) (text : Bytes) (cur : Option Value)
    (hs : step = .s0 ∨ step = .s1) (ds : Bytes)
    (hwf : (!ds.isEmpty && ds.all isDecDigit) = true) :
    (0x2E :: ds).foldl scanner.next ⟨step, ps, false, text, cur⟩
      = ⟨.dot0, ps, false, text ++ 0x2E :: ds, cur⟩ := by
  rcases ds with _ | ⟨d, ds⟩
  · simp at hwf
  simp only [List.isEmpty_cons, Bool.not_false, Bool.true_and, List.all_cons,
    Bool.and_eq_true] at hwf
  have hd : json.isDigit d = true := hwf.1
  have e1 : scanner.next ⟨step, ps, false, text, cur⟩ 0x2E
      = ⟨.dot, ps, false, text ++ [0x2E], cur⟩ := by
    rcases hs with rfl | rfl <;> simp [scanner.next, state0, json.isDigit]
  have e2 : scanner.next ⟨.dot, ps, false, text ++ [0x2E], cur⟩ d
      = ⟨.dot0, ps, false, text ++ [0x2E] ++ [d], cur⟩ := by
    simp [scanner.next, hd]
  rw [List.foldl_cons, e1, List.foldl_cons, e2, scan_digits _ _ _ _ _ (Or.inr (Or.inl rfl)) ds
    hwf.2]
  simp

theorem scan_exp (step : Step) (ps : List Frame) (text : Bytes) (cur : Option Value)
    (hs : step = .s0 ∨ step = .s1 ∨ step = .dot0) (e : Nat) (sg ds : Bytes)
    (hwf : ((e = 0x65 || e = 0x45) && (sg = [] || sg = [0x2B] || sg = [0x2D])
      && !ds.isEmpty && ds.all isDecDigit) = true) :
    (e :: (sg ++ ds)).foldl scanner.next ⟨step, ps, false, text, cur⟩
      = ⟨.e0, ps, false, text ++ e :: (sg ++ ds), cur⟩ := by
  rcases ds with _ | ⟨d, ds⟩
  · simp at hwf
  simp only [List.isEmpty_cons, Bool.not_false, Bool.and_true, List.all_cons,
    Bool.and_eq_true, Bool.or_eq_true, decide_eq_true_eq] at hwf
  obtain ⟨⟨he, hsg⟩, hd, hds⟩ := hwf
  have hd1 : json.isDigit d = true := hd
  have hd2 : d ≠ 0x2B ∧ d ≠ 0x2D := by
    simp only [isDecDigit, decide_eq_true_eq] at hd
    omega
  have e1 : scanner.next ⟨step, ps, false, text, cur⟩ e
      = ⟨.e, ps, false, text ++ [e], cur⟩ := by
    rcases he with rfl | rfl <;> rcases hs with rfl | rfl | rfl <;>
      simp [scanner.next, state0, json.isDigit]
  rw [List.foldl_cons, e1]
  rcases hsg with (rfl | rfl) | rfl
  · have e2 : scanner.next ⟨.e, ps, false, text ++ [e], cur⟩ d
        = ⟨.e0, ps, false, text ++ [e] ++ [d], cur⟩ := by
      simp [scanner.next, stateESign, hd1, hd2]
    rw [List.nil_append, List.foldl_cons, e2,
      scan_digits _ _ _ _ _ (Or.inr (Or.inr rfl)) ds hds]
    simp
  · have e2 : scanner.next ⟨.e, ps, false, text ++ [e], cur⟩ 0x2B
        = ⟨.eSign, ps, false, text ++ [e] ++ [0x2B], cur⟩ := by
      simp [scanner.next]
    have e3 : scanner.next ⟨.eSign, ps, false, text ++ [e] ++ [0x2B], cur⟩ d
        = ⟨.e0, ps, false, text ++ [e] ++ [0x2B] ++ [d], cur⟩ := by
      simp [scanner.next, stateESign, hd1]
    simp only [List.cons_append, List.nil_append, List.foldl_cons]
    rw [e2, e3, scan_digits _ _ _ _ _ (Or.inr (Or.inr rfl)) ds hds]
    simp
  · have e2 : scanner.next ⟨.e, ps, false, text ++ [e], cur⟩ 0x2D
        = ⟨.eSign, ps, false, text ++ [e] ++ [0x2D], cur⟩ := by
      simp [scanner.next]
    have e3 : scanner.next ⟨.eSign, ps, false, text ++ [e] ++ [0x2D], cur⟩ d
        = ⟨.e0, ps, false, text ++ [e] ++ [0x2D] ++ [d], cur⟩ := by
      simp [scanner.next, stateESign, hd1]
    simp only [List.cons_append, List.nil_append, List.foldl_cons]
    rw [e2, e3, scan_digits _ _ _ _ _ (Or.inr (Or.inr rfl)) ds hds]
    simp

theorem scan_number (step : Step) (ps : List Frame) (text : Bytes) (cur : Option Value)
    (hs : step = .beginValue ∨ step = .beginValueOrEmpty) (n : Number) (hwf : n.WF = true) :
    ∃ step1, (step1 = .s0 ∨ step1 = .s1 ∨ step1 = .dot0 ∨ step1 = .e0)
      ∧ n.render.foldl scanner.next ⟨step, ps, false, text, cur⟩
        = ⟨step1, ps, false, n.render, none⟩ := by
  obtain ⟨minus, int, frac, exp⟩ := n
  simp only [Number.WF, Bool.and_eq_true] at hwf
  obtain ⟨⟨hi, hf⟩, he⟩ := hwf
  rcases int with _ | ⟨d, ds⟩
  · simp at hi
  obtain ⟨step1, hs1, h1⟩ := scan_int step ps text cur hs minus d ds hi
  simp only [Number.render, List.foldl_append, h1]
  rcases frac with _ | fr
  · rcases exp with _ | ⟨e, sg, eds⟩
    · exact ⟨step1, by tauto, by simp⟩
    · refine ⟨.e0, by simp, ?_⟩
      simp only [List.foldl_nil]
      rw [scan_exp step1 _ _ _ (by tauto) e sg eds he]
      simp
  · have h2 := scan_frac step1 ps ((if minus then [0x2D] else []) ++ d :: ds) none hs1 fr hf
    simp only [h2]
    rcases exp with _ | ⟨e, sg, eds⟩
    · exact ⟨.dot0, by simp, by simp⟩
    · refine ⟨.e0, by simp, ?_⟩
      rw [scan_exp .dot0 _ _ _ (by simp) e sg eds he]

/-! ### Arrays and objects -/

theorem scan_elem_comma (s : scanner) (acc : List Value) (outer : List Frame) (v : Value)
    (h : ValueRead s (.parseArrayValue acc :: outer) v) (ws : Bytes)
    (hws : ws.all isWs = true) :
    ∃ text, (ws.foldl scanner.next s).next 0x2C
      = ⟨.beginValue, .parseArrayValue (acc ++ [v]) :: outer, false, text, none⟩ := by
  obtain ⟨text, ht⟩ := valueRead_delim s _ _ v h ws hws 0x2C (by simp)
  exact ⟨text, by rw [ht]; simp [stateEndValue, isSpace]⟩

theorem scan_elem_close (s : scanner) (acc : List Value) (outer : List Frame) (v : Value)
    (h : ValueRead s (.parseArrayValue acc :: outer) v) (ws : Bytes)
    (hws : ws.all isWs = true) :
    ∃ text, (ws.foldl scanner.next s).next 0x5D = closed outer text (.array (acc ++ [v])) := by
  obtain ⟨text, ht⟩ := valueRead_delim s _ _ v h ws hws 0x5D (by simp)
  refine ⟨text, ?_⟩
  rw [ht]
  rcases outer with _ | ⟨fr, rest⟩ <;> simp [stateEndValue, isSpace, popParseState, closed]

theorem scan_member_comma (s : scanner) (acc : List (Bytes × Value)) (key : Bytes)
    (outer : List Frame) (v : Value)
    (h : ValueRead s (.parseObjectValue acc key :: outer) v) (ws : Bytes)
    (hws : ws.all isWs = true) :
    ∃ text, (ws.foldl scanner.next s).next 0x2C
      = ⟨.beginString, .parseObjectKey (acc ++ [(key, v)]) :: outer, false, text, none⟩ := by
  obtain ⟨text, ht⟩ := valueRead_delim s _ _ v h ws hws 0x2C (by simp)
  exact ⟨text, by rw [ht]; simp [stateEndValue, isSpace]⟩

theorem scan_member_close (s : scanner) (acc : List (Bytes × Value)) (key : Bytes)
    (outer : List Frame) (v : Value)
    (h : ValueRead s (.parseObjectValue acc key :: outer) v) (ws : Bytes)
    (hws : ws.all isWs = true) :
    ∃ text, (ws.foldl scanner.next s).next 0x7D
      = closed outer text (.object (acc ++ [(key, v)])) := by
  obtain ⟨text, ht⟩ := valueRead_delim s _ _ v h ws hws 0x7D (by simp)
  refine ⟨text, ?_⟩
  rw [ht]
  rcases outer with _ | ⟨fr, rest⟩ <;> simp [stateEndValue, isSpace, popParseState, closed]

theorem scan_member_name (step : Step) (acc : List (Bytes × Value)) (outer : List Frame)
    (text : Bytes) (cur : Option Value)
    (hs : step = .beginString ∨ step = .beginStringOrEmpty)
    (w1 : Bytes) (name : List StrItem) (w2 w3 : Bytes)
    (h1 : w1.all isWs = true) (hn : name.all StrItem.WF = true) (h2 : w2.all isWs = true)
    (h3 : w3.all isWs = true) :
    w3.foldl scanner.next
        (scanner.next
          (w2.foldl scanner.next
            (scanner.next
              ((renderItems name).foldl scanner.next
                (scanner.next
                  (w1.foldl scanner.next ⟨step, .parseObjectKey acc :: outer, false, text, cur⟩)
                  0x22))
              0x22))
          0x3A)
      = ⟨.beginValue, .parseObjectValue acc (renderItems name) :: outer, false,
          renderItems name, none⟩ := by
  rw [skip_ws_begin _ _ _ _ _ (by tauto) w1 h1, scan_string _ _ _ _ (by tauto) name hn,
    skip_ws_endValue _ _ _ _ _ w2 h2]
  have : scanner.next ⟨.endValue, .parseObjectKey acc :: outer, false, renderItems name,
        some (.string (renderItems name))⟩ 0x3A
      = ⟨.beginValue, .parseObjectValue acc (renderItems name) :: outer, false,
          renderItems name, none⟩ := by
    simp [scanner.next, stateEndValue, isSpace]
  rw [this, skip_ws_begin _ _ _ _ _ (by tauto) w3 h3]

mutual
/-- The scanner reads a value of the grammar, nested no deeper than the stack allows, as
the value it denotes. -/
theorem scan_doc : ∀ (d : Doc) (step : Step) (ps : List Frame) (text : Bytes)
    (cur : Option Value), (step = .beginValue ∨ step = .beginValueOrEmpty) → d.WF = true →
    ps.length + d.depth ≤ maxNestingDepth →
    ValueRead (d.render.foldl scanner.next ⟨step, ps, false, text, cur⟩) ps d.toValue
  | .null, step, ps, text, cur, hs, _, _ => by
    simp only [Doc.render, Doc.toValue]
    rw [scan_null step ps text cur hs]
    exact valueRead_endValue _ _ _
  | .bool true, step, ps, text, cur, hs, _, _ => by
    simp only [Doc.render, Doc.toValue]
    rw [scan_true step ps text cur hs]
    exact valueRead_endValue _ _ _
  | .bool false, step, ps, text, cur, hs, _, _ => by
    simp only [Doc.render, Doc.toValue]
    rw [scan_false step ps text cur hs]
    exact valueRead_endValue _ _ _
  | .number n, step, ps, text, cur, hs, hwf, _ => by
    simp only [Doc.WF] at hwf
    obtain ⟨step1, hs1, h1⟩ := scan_number step ps text cur hs n hwf
    simp only [Doc.render, Doc.toValue, h1]
    exact valueRead_number step1 ps _ none hs1
  | .string items, step, ps, text, cur, hs, hwf, _ => by
    simp only [Doc.WF] at hwf
    simp only [Doc.render, Doc.toValue, List.foldl_cons, List.foldl_append, List.foldl_nil]
    rw [scan_string step ps text cur (by tauto) items hwf]
    exact valueRead_endValue _ _ _
  | .emptyArray ws, step, ps, text, cur, hs, hwf, hd => by
    simp only [Doc.WF] at hwf
    simp only [Doc.depth] at hd
    simp only [Doc.render, Doc.toValue, List.foldl_cons, List.foldl_append, List.foldl_nil]
    rw [scan_open_array step ps text cur hs hd, skip_ws_begin _ _ _ _ _ (by tauto) ws hwf,
      scan_close_empty_array]
    exact valueRead_closed _ _ _
  | .emptyObject ws, step, ps, text, cur, hs, hwf, hd => by
    simp only [Doc.WF] at hwf
    simp only [Doc.depth] at hd
    simp only [Doc.render, Doc.toValue, List.foldl_cons, List.foldl_append, List.foldl_nil]
    rw [scan_open_object step ps text cur hs hd, skip_ws_begin _ _ _ _ _ (by tauto) ws hwf,
      scan_close_empty_object]
    exact valueRead_closed _ _ _
  | .array es, step, ps, text, cur, hs, hwf, hd => by
    simp only [Doc.WF] at hwf
    simp only [Doc.depth] at hd
    obtain ⟨text1, h1⟩ := scan_elems es .beginValueOrEmpty [] ps text none (Or.inr rfl) hwf
      (by omega)
    simp only [Doc.render, Doc.toValue, List.foldl_cons, List.foldl_append, List.foldl_nil]
    rw [scan_open_array step ps text cur hs (by omega), h1]
    exact valueRead_closed _ _ _
  | .object ms, step, ps, text, cur, hs, hwf, hd => by
    simp only [Doc.WF] at hwf
    simp only [Doc.depth] at hd
    obtain ⟨text1, h1⟩ := scan_membs ms .beginStringOrEmpty [] ps text none (Or.inr rfl) hwf
      (by omega)
    simp only [Doc.render, Doc.toValue, List.foldl_cons, List.foldl_append, List.foldl_nil]
    rw [scan_open_object step ps text cur hs (by omega), h1]
    exact valueRead_closed _ _ _
/-- The scanner reads the elements of an array and the closing bracket. -/
theorem scan_elems : ∀ (es : Elems) (step : Step) (acc : List Value) (outer : List Frame)
    (text : Bytes) (cur : Option Value), (step = .beginValue ∨ step = .beginValueOrEmpty) →
    es.WF = true → outer.length + 1 + es.depth ≤ maxNestingDepth →
    ∃ text1, scanner.next
        (es.render.foldl scanner.next ⟨step, .parseArrayValue acc :: outer, false, text, cur⟩)
        0x5D
      = closed outer text1 (.array (acc ++ es.toValues))
  | .one w1 d w2, step, acc, outer, text, cur, hs, hwf, hd => by
    simp only [Elems.WF, Bool.and_eq_true] at hwf
    simp only [Elems.depth] at hd
    obtain ⟨⟨h1, hwd⟩, h2⟩ := hwf
    have ihd := scan_doc d step (.parseArrayValue acc :: outer) text cur hs hwd
      (by simp only [List.length_cons]; omega)
    simp only [Elems.render, Elems.toValues, List.foldl_cons, List.foldl_append,
      List.foldl_nil]
    rw [skip_ws_begin _ _ _ _ _ (by tauto) w1 h1]
    exact scan_elem_close _ acc outer _ ihd w2 h2
  | .cons w1 d w2 rest, step, acc, outer, text, cur, hs, hwf, hd => by
    simp only [Elems.WF, Bool.and_eq_true] at hwf
    simp only [Elems.depth] at hd
    obtain ⟨⟨⟨h1, hwd⟩, h2⟩, hwr⟩ := hwf
    have ihd := scan_doc d step (.parseArrayValue acc :: outer) text cur hs hwd
      (by simp only [List.length_cons]; omega)
    obtain ⟨text1, e1⟩ := scan_elem_comma _ acc outer _ ihd w2 h2
    obtain ⟨text2, e2⟩ := scan_elems rest .beginValue (acc ++ [d.toValue]) outer text1 none
      (Or.inl rfl) hwr (by omega)
    refine ⟨text2, ?_⟩
    simp only [Elems.render, Elems.toValues, List.foldl_cons, List.foldl_append,
      List.foldl_nil]
    rw [skip_ws_begin _ _ _ _ _ (by tauto) w1 h1, e1, e2]
    simp
/-- The scanner reads the members of an object and the closing brace. -/
theorem scan_membs : ∀ (ms : Membs) (step : Step) (acc : List (Bytes × Value))
    (outer : List Frame) (text : Bytes) (cur : Option Value),
    (step = .beginString ∨ step = .beginStringOrEmpty) →
    ms.WF = true → outer.length + 1 + ms.depth ≤ maxNestingDepth →
    ∃ text1, scanner.next
        (ms.render.foldl scanner.next ⟨step, .parseObjectKey acc :: outer, false, text, cur⟩)
        0x7D
      = closed outer text1 (.object (acc ++ ms.toMembers))
  | .one w1 name w2 w3 d w4, step, acc, outer, text, cur, hs, hwf, hd => by
    simp only [Membs.WF, Bool.and_eq_true] at hwf
    simp only [Membs.depth] at hd
    obtain ⟨⟨⟨⟨⟨h1, hn⟩, h2⟩, h3⟩, hwd⟩, h4⟩ := hwf
    have ihd := scan_doc d .beginValue (.parseObjectValue acc (renderItems name) :: outer)
      (renderItems name) none (Or.inl rfl) hwd (by simp only [List.length_cons]; omega)
    simp only [Membs.render, Membs.toMembers, List.foldl_cons, List.foldl_append,
      List.foldl_nil]
    rw [scan_member_name step acc outer text cur hs w1 name w2 w3 h1 hn h2 h3]
    exact scan_member_close _ acc _ outer _ ihd w4 h4
  | .cons w1 name w2 w3 d w4 rest, step, acc, outer, text, cur, hs, hwf, hd => by
    simp only [Membs.WF, Bool.and_eq_true] at hwf
    simp only [Membs.depth] at hd
    obtain ⟨⟨⟨⟨⟨⟨h1, hn⟩, h2⟩, h3⟩, hwd⟩, h4⟩, hwr⟩ := hwf
    have ihd := scan_doc d .beginValue (.parseObjectValue acc (renderItems name) :: outer)
      (renderItems name) none (Or.inl rfl) hwd (by simp only [List.length_cons]; omega)
    obtain ⟨text1, e1⟩ := scan_member_comma _ acc _ outer _ ihd w4 h4
    obtain ⟨text2, e2⟩ := scan_membs rest .beginString (acc ++ [(renderItems name, d.toValue)])
      outer text1 none (Or.inl rfl) hwr (by omega)
    refine ⟨text2, ?_⟩
    simp only [Membs.render, Membs.toMembers, List.foldl_cons, List.foldl_append,
      List.foldl_nil]
    rw [scan_member_name step acc outer text cur hs w1 name w2 w3 h1 hn h2 h3, e1, e2]
    simp
end

/-- A text of the grammar of RFC 8259 that is nested no deeper than `maxNestingDepth` is
valid for `checkValid`, which reads it as the value it denotes. -/
theorem checkValid_render (d : Doc) (w0 w5 : Bytes) (h0 : w0.all isWs = true)
    (h5 : w5.all isWs = true) (hwf : d.WF = true) (hd : d.depth ≤ maxNestingDepth) :
    checkValid (w0 ++ (d.render ++ w5)) = some d.toValue := by
  unfold checkValid scanner.reset
  rw [List.foldl_append, List.foldl_append, skip_ws_begin _ _ _ _ _ (by tauto) w0 h0]
  exact valueRead_eof _ _ (scan_doc d .beginValue [] [] none (Or.inl rfl) hwf (by simpa using hd))
    w5 h5

/-! ## Stored objects of RFC 8259 with other members -/

theorem toMembers_eq : ∀ ms : Membs,
    ms.toMembers = ms.toList.map (fun m => (renderItems m.1, m.2.toValue))
  | .one _ _ _ _ _ _ => by simp [Membs.toMembers, Membs.toList]
  | .cons _ _ _ _ _ _ rest => by simp [Membs.toMembers, Membs.toList, toMembers_eq rest]

theorem wf_toList : ∀ ms : Membs, ms.WF = true →
    ∀ m ∈ ms.toList, m.1.all StrItem.WF = true ∧ m.2.WF = true
  | .one _ name _ _ d _, hwf, m, hm => by
    simp only [Membs.WF, Bool.and_eq_true] at hwf
    simp only [Membs.toList, List.mem_singleton] at hm
    subst hm
    exact ⟨hwf.1.1.1.1.2, hwf.1.2⟩
  | .cons _ name _ _ d _ rest, hwf, m, hm => by
    simp only [Membs.WF, Bool.and_eq_true] at hwf
    simp only [Membs.toList, List.mem_cons] at hm
    rcases hm with rfl | hm
    · exact ⟨hwf.1.1.1.1.1.2, hwf.1.1.2⟩
    · exact wf_toList rest hwf.2 m hm

theorem lower_foldName (key : GoString) : lower (foldName key) = lower key := by
  induction key with
  | nil => rfl
  | cons c key ih =>
    simp only [lower, foldName, List.map_cons, List.cons.injEq] at ih ⊢
    refine ⟨?_, ih⟩
    split_ifs <;> omega

theorem isFieldValue_of_lower (key : GoString) (h : lower key ≠ lit "value") :
    isFieldValue key = false := by
  have hv : lower (lit "value") = lit "value" := by decide
  have h1 : key ≠ lit "value" := by
    rintro rfl
    exact h hv
  have h2 : foldName key ≠ foldName (lit "value") := by
    intro e
    have := congrArg lower e
    rw [lower_foldName, lower_foldName, hv] at this
    exact h this
  simp [isFieldValue, h1, h2]

/-- C16 (amended). When the stored bytes are a JSON text of RFC 8259 that is an object,
nested no deeper than `maxNestingDepth` (10000), with a member whose name denotes `value`
and whose value is a string, and the name of no other member denotes a string equal to
`value` when letter case is ignored, `ReadCryptoMyAsset` succeeds and returns the record
with the string that the member denotes: the other members, whatever their values, are
ignored and cause no error. -/
theorem read_ignores_other_members (stub : Stub σ) (id : GoString) (s s1 s2 : σ)
    (e2 : Option GoError) (w0 w5 : Bytes) (membs : Membs)
    (pre post : List (List StrItem × Doc)) (name items : List StrItem)
    (hget1 : stub.GetState id s
      = ((some (w0 ++ ((Doc.object membs).render ++ w5)), none), s1))
    (hget2 : stub.GetState id s1
      = ((some (w0 ++ ((Doc.object membs).render ++ w5)), e2), s2))
    (h0 : w0.all isWs = true) (h5 : w5.all isWs = true)
    (hwf : (Doc.object membs).WF = true)
    (hdepth : (Doc.object membs).depth ≤ maxNestingDepth)
    (hm : membs.toList = pre ++ (name, Doc.string items) :: post)
    (hname : denote name = lit "value")
    (hother : ∀ m ∈ pre ++ post, lower (denote m.1) ≠ lit "value") :
    ReadCryptoMyAsset stub id s = ((some { Value := denote items }, none), s2) := by
  have hwfm : membs.WF = true := by simpa only [Doc.WF] using hwf
  have hall := wf_toList membs hwfm
  rw [hm] at hall
  have hjson := checkValid_render (Doc.object membs) w0 w5 h0 h5 hwf hdepth
  simp only [Doc.toValue] at hjson
  rw [toMembers_eq, hm, List.map_append, List.map_cons] at hjson
  have hn := hall (name, Doc.string items) (by simp)
  simp only [Doc.WF] at hn
  refine read_object_members stub id s s1 s2 _ e2 _ _ _ _ _ hget1 hget2 hjson
    (by rw [unquoteBytes_renderItems name hn.1, hname]) (unquoteBytes_renderItems items hn.2) ?_
  intro m hmem
  rw [← List.map_append, List.mem_map] at hmem
  obtain ⟨m0, hm0, rfl⟩ := hmem
  have hw0 := hall m0 (by
    rcases List.mem_append.mp hm0 with h | h
    · exact List.mem_append_left _ h
    · exact List.mem_append_right _ (List.mem_cons_of_mem _ h))
  exact ⟨denote m0.1, unquoteBytes_renderItems m0.1 hw0.1,
    isFieldValue_of_lower _ (hother m0 hm0)⟩

theorem read_ignores_other_members_witness :
    [] ++ ((Doc.object
        (.cons [] [.char 0x6F, .char 0x74, .char 0x68, .char 0x65, .char 0x72] [] []
          (.array (.cons [] (.number ⟨false, [0x31], none, none⟩) []
            (.one [0x20] (.number ⟨true, [0x32], some [0x35], some (0x65, [0x2B], [0x33])⟩)
              [])))
          []
          (.cons [0x20] [.char 0x76, .char 0x61, .u 0x30 0x30 0x36 0x43, .char 0x75, .char 0x65]
            [0x20] [0x20] (.string [.char 0x76, .esc 0x6E, .u 0x30 0x30 0x65 0x39]) []
            (.one [] [.char 0x56, .char 0x61, .char 0x6C] [] [] (.emptyObject [0x20])
              [])))).render ++ [0x0A])
        = lit ("\x7b\"other\":[1, -2.5e+3], \"va\\u006Cue\" : \"v\\n\\u00e9\","
            ++ "\"Val\":\x7b \x7d\x7d\n")
      ∧ ReadCryptoMyAsset World.stub (lit "y")
          (World.holding (lit "y")
            (lit ("\x7b\"other\":[1, -2.5e+3], \"va\\u006Cue\" : \"v\\n\\u00e9\","
              ++ "\"Val\":\x7b \x7d\x7d\n")))
        = ((some { Value := [0x76, 0x0A, 0xC3, 0xA9] }, none),
            World.holding (lit "y")
              (lit ("\x7b\"other\":[1, -2.5e+3], \"va\\u006Cue\" : \"v\\n\\u00e9\","
                ++ "\"Val\":\x7b \x7d\x7d\n"))) :=
  ⟨by decide,
    read_ignores_other_members World.stub (lit "y") _ _ _ none [] [0x0A]
      (.cons [] [.char 0x6F, .char 0x74, .char 0x68, .char 0x65, .char 0x72] [] []
        (.array (.cons [] (.number ⟨false, [0x31], none, none⟩) []
          (.one [0x20] (.number ⟨true, [0x32], some [0x35], some (0x65, [0x2B], [0x33])⟩)
            [])))
        []
        (.cons [0x20] [.char 0x76, .char 0x61, .u 0x30 0x30 0x36 0x43, .char 0x75, .char 0x65]
          [0x20] [0x20] (.string [.char 0x76, .esc 0x6E, .u 0x30 0x30 0x65 0x39]) []
          (.one [] [.char 0x56, .char 0x61, .char 0x6C] [] [] (.emptyObject [0x20]) [])))
      [([.char 0x6F, .char 0x74, .char 0x68, .char 0x65, .char 0x72],
        .array (.cons [] (.number ⟨false, [0x31], none, none⟩) []
          (.one [0x20] (.number ⟨true, [0x32], some [0x35], some (0x65, [0x2B], [0x33])⟩)
            [])))]
      [([.char 0x56, .char 0x61, .char 0x6C], .emptyObject [0x20])]
      [.char 0x76, .char 0x61, .u 0x30 0x30 0x36 0x43, .char 0x75, .char 0x65]
      [.char 0x76, .esc 0x6E, .u 0x30 0x30 0x65 0x39]
      rfl rfl (by decide) (by decide) (by decide) (by decide) rfl (by decide) (by decide)⟩

/-! ## Nesting deeper than the scanner allows -/

theorem nest_wf : ∀ n, (nest n).WF = true
  | 0 => by simp [nest, Doc.WF]
  | n + 1 => by simp [nest, Doc.WF, Elems.WF, nest_wf n]

theorem nest_depth : ∀ n, (nest n).depth = n + 1
  | 0 => by simp [nest, Doc.depth]
  | n + 1 => by simp [nest, Doc.depth, Elems.depth, nest_depth n]

theorem nest_render : ∀ n,
    (nest n).render = List.replicate (n + 1) 0x5B ++ List.replicate (n + 1) 0x5D
  | 0 => by simp [nest, Doc.render]
  | n + 1 => by
    have a : List.replicate (n + 1 + 1) 0x5B = 0x5B :: List.replicate (n + 1) 0x5B := rfl
    have b : List.replicate (n + 1 + 1) 0x5D = List.replicate (n + 1) 0x5D ++ [0x5D] :=
      List.replicate_succ' (n + 1) 0x5D
    rw [nest, Doc.render, Elems.render, nest_render n, a, b]
    simp

theorem scan_brackets (k : Nat) : ∀ (step : Step) (ps : List Frame) (text : Bytes)
    (cur : Option Value), (step = .beginValue ∨ step = .beginValueOrEmpty) →
    ps.length + k ≤ maxNestingDepth →
    ∃ step1 ps1 cur1, (step1 = .beginValue ∨ step1 = .beginValueOrEmpty)
      ∧ ps1.length = ps.length + k
      ∧ (List.replicate k 0x5B).foldl scanner.next ⟨step, ps, false, text, cur⟩
        = ⟨step1, ps1, false, text, cur1⟩ := by
  induction k with
  | zero => intro step ps text cur hs _; exact ⟨step, ps, cur, hs, rfl, rfl⟩
  | succ k ih =>
    intro step ps text cur hs hd
    obtain ⟨step1, ps1, cur1, hs1, hl, h⟩ :=
      ih .beginValueOrEmpty (.parseArrayValue [] :: ps) text none (Or.inr rfl)
        (by simp only [List.length_cons]; omega)
    refine ⟨step1, ps1, cur1, hs1, by simp only [List.length_cons] at hl; omega, ?_⟩
    rw [List.replicate_succ, List.foldl_cons, scan_open_array step ps text cur hs (by omega), h]

theorem scan_too_deep (step : Step) (ps : List Frame) (text : Bytes) (cur : Option Value)
    (hs : step = .beginValue ∨ step = .beginValueOrEmpty) (h : ps.length = maxNestingDepth) :
    (scanner.next ⟨step, ps, false, text, cur⟩ 0x5B).step = .error := by
  rcases hs with rfl | rfl <;>
    simp [scanner.next, stateBeginValue, isSpace, pushParseState, h, scanner.error]

theorem scan_error (l : Bytes) : ∀ s : scanner, s.step = .error →
    (l.foldl scanner.next s).step = .error := by
  induction l with
  | nil => intro s h; exact h
  | cons c l ih =>
    intro s h
    have : s.next c = s := by
      unfold scanner.next
      rw [h]
    rw [List.foldl_cons, this]
    exact ih s h

/-- An array nested in so many arrays that `maxNestingDepth` is exceeded makes the text
invalid for `checkValid`, whatever follows. -/
theorem checkValid_too_deep (k : Nat) (hk : k + 1 = maxNestingDepth) (rest : Bytes) :
    checkValid (lit "\x7b\"x\":" ++ (List.replicate (k + 1) 0x5B ++ rest)) = none := by
  have h0 : (lit "\x7b\"x\":").foldl scanner.next scanner.reset
      = ⟨.beginValue, [.parseObjectValue [] (lit "x")], false, lit "x", none⟩ := by rfl
  obtain ⟨step1, ps1, cur1, hs1, hl, h⟩ := scan_brackets k .beginValue
    [.parseObjectValue [] (lit "x")] (lit "x") none (Or.inl rfl)
    (by simp only [List.length_singleton]; omega)
  have h1 := scan_too_deep step1 ps1 (lit "x") cur1 hs1
    (by rw [hl]; simp only [List.length_singleton]; omega)
  unfold checkValid
  rw [List.foldl_append, h0, List.replicate_succ' k 0x5B, List.append_assoc, List.foldl_append, h,
    List.singleton_append, List.foldl_cons]
  have h2 := scan_error rest _ h1
  simp [scanner.eof, h2]

theorem read_invalid (id : GoString) (bytes : Bytes) (h : checkValid bytes = none) :
    (ReadCryptoMyAsset World.stub id (World.holding id bytes)).1
      = (none, some
          { Error := lit "Could not unmarshal world state data to type CryptoMyAsset" }) := by
  simp [ReadCryptoMyAsset, CryptoMyAssetExists, World.stub, World.holding, Unmarshal, h,
    errorf_unmarshal]

theorem deep_wf (n : Nat) :
    (Doc.object (.cons [] [.char 0x78] [] [] (nest n) []
      (.one [] [.char 0x76, .char 0x61, .char 0x6C, .char 0x75, .char 0x65] [] []
        (.string [.char 0x76]) []))).WF = true := by
  rw [Doc.WF, Membs.WF, Membs.WF, nest_wf]
  decide

theorem deep_depth (n : Nat) :
    (Doc.object (.cons [] [.char 0x78] [] [] (nest n) []
      (.one [] [.char 0x76, .char 0x61, .char 0x6C, .char 0x75, .char 0x65] [] []
        (.string [.char 0x76]) []))).depth = n + 2 := by
  rw [Doc.depth, Membs.depth, Membs.depth, nest_depth, Doc.depth]
  simp

theorem deep_render (n : Nat) :
    (Doc.object (.cons [] [.char 0x78] [] [] (nest n) []
      (.one [] [.char 0x76, .char 0x61, .char 0x6C, .char 0x75, .char 0x65] [] []
        (.string [.char 0x76]) []))).render
      = lit "\x7b\"x\":" ++ (List.replicate (n + 1) 0x5B
          ++ (List.replicate (n + 1) 0x5D ++ lit ",\"value\":\"v\"\x7d")) := by
  have h1 : lit "\x7b\"x\":" = [0x7B, 0x22, 0x78, 0x22, 0x3A] := by decide
  have h2 : lit ",\"value\":\"v\"\x7d"
      = [0x2C, 0x22, 0x76, 0x61, 0x6C, 0x75, 0x65, 0x22, 0x3A, 0x22, 0x76, 0x22, 0x7D] := by
    decide
  have h3 : renderItems [.char 0x78] = [0x78] := by decide
  have h4 : renderItems [.char 0x76, .char 0x61, .char 0x6C, .char 0x75, .char 0x65]
      = [0x76, 0x61, 0x6C, 0x75, 0x65] := by decide
  have h5 : renderItems [.char 0x76] = [0x76] := by decide
  rw [Doc.render, Membs.render, Membs.render, Doc.render, nest_render, h1, h2, h3, h4, h5]
  simp only [List.nil_append, List.cons_append, List.append_assoc, List.append_nil]

/-- C16 as stated fails, in two ways.  The stored object has the string member `value` and
one other member, named `Value`: when that member is a number Read fails with the
could-not-unmarshal error, and when it is a string Read returns that string.  And the
stored object has the member `x`, the empty array nested in 9999 arrays (10000 opening
brackets), and then the string member `value`: the bytes are a text of RFC 8259 nested
one deeper than `maxNestingDepth`, and Read fails with the could-not-unmarshal error. -/
theorem read_other_member_named_Value :
    checkValid (lit "\x7b\"value\":\"a\",\"Value\":1\x7d")
        = some (.object [(lit "value", .string (lit "a")), (lit "Value", .number (lit "1"))])
      ∧ (ReadCryptoMyAsset World.stub (lit "y")
          (World.holding (lit "y") (lit "\x7b\"value\":\"a\",\"Value\":1\x7d"))).1
        = (none, some
            { Error := lit "Could not unmarshal world state data to type CryptoMyAsset" })
      ∧ checkValid (lit "\x7b\"value\":\"a\",\"Value\":\"b\"\x7d")
        = some (.object [(lit "value", .string (lit "a")), (lit "Value", .string (lit "b"))])
      ∧ (ReadCryptoMyAsset World.stub (lit "y")
          (World.holding (lit "y") (lit "\x7b\"value\":\"a\",\"Value\":\"b\"\x7d"))).1
        = (some { Value := lit "b" }, none)
      ∧ (Doc.object (.cons [] [.char 0x78] [] [] (nest 9999) []
          (.one [] [.char 0x76, .char 0x61, .char 0x6C, .char 0x75, .char 0x65] [] []
            (.string [.char 0x76]) []))).WF = true
      ∧ (Doc.object (.cons [] [.char 0x78] [] [] (nest 9999) []
          (.one [] [.char 0x76, .char 0x61, .char 0x6C, .char 0x75, .char 0x65] [] []
            (.string [.char 0x76]) []))).depth = maxNestingDepth + 1
      ∧ (Doc.object (.cons [] [.char 0x78] [] [] (nest 9999) []
          (.one [] [.char 0x76, .char 0x61, .char 0x6C, .char 0x75, .char 0x65] [] []
            (.string [.char 0x76]) []))).render
        = lit "\x7b\"x\":" ++ (List.replicate 10000 0x5B
            ++ (List.replicate 10000 0x5D ++ lit ",\"value\":\"v\"\x7d"))
      ∧ (ReadCryptoMyAsset World.stub (lit "y")
          (World.holding (lit "y")
            (lit "\x7b\"x\":" ++ (List.replicate 10000 0x5B
              ++ (List.replicate 10000 0x5D ++ lit ",\"value\":\"v\"\x7d"))))).1
        = (none, some
            { Error := lit "Could not unmarshal world state data to type CryptoMyAsset" }) :=
  ⟨rfl, rfl, rfl, rfl, deep_wf 9999, deep_depth 9999, deep_render 9999,
    read_invalid (lit "y") _ (checkValid_too_deep 9999 rfl _)⟩

end PypiCodegen
